import Mathlib

/-!
# rfb.c: a minimal RFB (VNC) client

Shallow embedding of `src/rfb.c` and the properties of its handshake,
update request and rectangle decoder.

Modelling conventions
* A byte is a `Fin 256`.  Integer objects are natural numbers; the host byte
  order is a parameter `hostLE` (`true` for a little-endian host), and
  `ntohs`/`ntohl`/`htons` are the byte swaps of that host.
* The socket is a `World`: the bytes the server sends before it closes its end
  (`inbound`), a plan for the values the successive `recv` and `send` calls
  return (`recvPlan`, `sendPlan`), and the `trace` of everything the process
  has done so far.
* The stream is what the server sends whatever the client writes; a `recv`
  on a stream at its end returns 0.
* `malloc` always succeeds and buffers are lists; the size passed to `malloc`
  is kept in the trace, `free` leaves no trace.  `size_t` has 64 bits.
* A buffer is not a block of memory.  Where the program stores more bytes
  than it allocated (a text of length `2^32 - 1`, for which the size `len + 1`
  wraps to 0), the trace shows the size allocated and the bytes stored, and the
  model goes on as if the block had held them, which C does not promise.  The
  statements about a text that was read into its buffer are made for lengths
  below `2^32 - 1`.
* `printf` is kept as a structured `Report`; a `%s` argument is cut at its
  first zero byte, as `printf` does.  The three reads of the first pixel are
  lookups that may find nothing.
* `main` from line 60 on is `session`, cut into the blocks `handshake`,
  `rejected`, `init`, `read_update` and the loop `rect_loop`.

Proof method
* One run is followed with `Triple`, a judgement with a postcondition for a
  return and one for the end of the process; the iteration bound of the two
  transport loops is shown never to run out.
* Two runs are compared with `Triple2`: on streams that differ in the encoding
  codes (`Coupled`, `Tracked`), and on transports that split the bytes
  differently (`Sim`, `Same`).
-/

namespace Rfb

abbrev Byte := Fin 256

/-! ## Byte order -/

/-- Value of an integer object whose bytes, at increasing addresses, are `bs`,
on a little-endian host. -/
def loadLE : List Byte → Nat
  | [] => 0
  | b :: bs => b.val + 256 * loadLE bs

/-- Value of an integer object whose bytes, at increasing addresses, are `bs`,
on a big-endian host. -/
def loadBE (bs : List Byte) : Nat :=
  bs.foldl (fun acc b => 256 * acc + b.val) 0

/-- Value of the integer object that `recv_all(sock, &obj, n)` filled with `bs`. -/
def load (hostLE : Bool) (bs : List Byte) : Nat :=
  if hostLE then loadLE bs else loadBE bs

/-- Byte swap of a 16-bit value. -/
def bswap16 (v : Nat) : Nat :=
  (v % 256) * 256 + (v / 256) % 256

/-- Byte swap of a 32-bit value. -/
def bswap32 (v : Nat) : Nat :=
  (v % 256) * 16777216 + (v / 256 % 256) * 65536 + (v / 65536 % 256) * 256
    + (v / 16777216) % 256

/-- The libc `ntohs` on a 16-bit value. -/
def ntohs (hostLE : Bool) (v : Nat) : Nat :=
  if hostLE then bswap16 v else v % 65536

/-- The libc `htons` on a 16-bit value. -/
def htons (hostLE : Bool) (v : Nat) : Nat :=
  if hostLE then bswap16 v else v % 65536

/-- The libc `ntohl` on a 32-bit value. -/
def ntohl (hostLE : Bool) (v : Nat) : Nat :=
  if hostLE then bswap32 v else v % 4294967296

/-- The low byte of a natural number. -/
def lowByte (v : Nat) : Byte := ⟨v % 256, Nat.mod_lt v (by decide)⟩

/-- Bytes, at increasing addresses, of a 16-bit object holding `v`:
the store `*(uint16_t *)(p) = v`. -/
def store16 (hostLE : Bool) (v : Nat) : List Byte :=
  if hostLE then [lowByte v, lowByte (v / 256)] else [lowByte (v / 256), lowByte v]

/-- Big-endian encoding of a 32-bit value (the wire format of a length prefix). -/
def encodeBE32 (v : Nat) : List Byte :=
  [lowByte (v / 16777216), lowByte (v / 65536), lowByte (v / 256), lowByte v]

/-- The text `printf("%s")` prints for a buffer: the bytes before the first zero. -/
def cstr (bs : List Byte) : List Byte :=
  bs.takeWhile (fun b => decide (b ≠ 0))

/-! ## Process, socket and trace -/

/-- First argument of `die`. -/
inductive Msg where
  | socket
  | connect
  | send
  | recv
  deriving DecidableEq, Repr

/-- One `printf` of the program, with its arguments. -/
inductive Report where
  | serverVersion (text : List Byte)
  | connectionFailed (text : List Byte)
  | securityType (v : Nat)
  | framebuffer (width height : Nat)
  | desktopName (text : List Byte)
  | unexpectedType (t : Nat)
  | numRects (n : Nat)
  | rectangle (i rw rh rx ry encoding : Nat)
  | firstPixel (r g b : Option Byte)
  deriving DecidableEq, Repr

/-- The locals of one iteration of the rectangle loop, at the end of its body. -/
structure Rect where
  rx : Nat
  ry : Nat
  rw : Nat
  rh : Nat
  encoding : Nat
  pixel_data : List Byte
  deriving DecidableEq, Repr

/-- What the process did, in order.  `recv` and `send` carry the requested
length, the returned value and the bytes transferred; `malloc` carries its
argument; `rect` marks the end of an iteration of the rectangle loop. -/
inductive Event where
  | recv (req : Nat) (ret : Int) (data : List Byte)
  | send (req : Nat) (ret : Int) (data : List Byte)
  | close
  | print (r : Report)
  | perror (m : Msg)
  | malloc (size : Nat)
  | rect (r : Rect)
  deriving DecidableEq, Repr

/-- The connected socket and the history of the process. -/
structure World where
  inbound : List Byte
  recvPlan : List Int
  sendPlan : List Int
  trace : List Event
  deriving DecidableEq, Repr

/-- How a piece of the program ends: it returns a value, or the process ends
with an exit status, or the iteration bound of the model ran out. -/
inductive Res (α : Type) where
  | ok (a : α) (w : World)
  | exit (status : Nat) (w : World)
  | fuel (w : World)
  deriving DecidableEq, Repr

/-- The world in which a piece of the program ended. -/
def Res.world {α : Type} : Res α → World
  | .ok _ w => w
  | .exit _ w => w
  | .fuel w => w

/-- The exit status, when the process ended. -/
def Res.status {α : Type} : Res α → Option Nat
  | .exit s _ => some s
  | _ => none

/-- A piece of the program: from the world before it to how it ends. -/
@[reducible] def Proc (α : Type) : Type := World → Res α

/-- The piece that returns `a` and does nothing. -/
def Proc.pure {α : Type} (a : α) : Proc α := fun w => .ok a w

/-- Sequencing: `f` runs on what `m` returns; when `m` ends the process, so
does the sequence. -/
def Proc.bind {α β : Type} (m : Proc α) (f : α → Proc β) : Proc β := fun w =>
  match m w with
  | .ok a w1 => f a w1
  | .exit s w1 => .exit s w1
  | .fuel w1 => .fuel w1

instance : Monad Proc where
  pure := Proc.pure
  bind := Proc.bind

/-- Append an event to the trace. -/
def World.log (w : World) (e : Event) : World :=
  { w with trace := w.trace ++ [e] }

/-- The value of `EXIT_FAILURE`. -/
def EXIT_FAILURE : Nat := 1

/-- `die(msg)`: `perror(msg); exit(EXIT_FAILURE);`. -/
def die {α : Type} (msg : Msg) : Proc α := fun w =>
  .exit EXIT_FAILURE (w.log (.perror msg))

/-- `return status;` from `main`. -/
def ret {α : Type} (status : Nat) : Proc α := fun w => .exit status w

/-- `close(sock)`. -/
def close : Proc Unit := fun w => .ok () (w.log .close)

/-- A `printf`. -/
def printf (r : Report) : Proc Unit := fun w => .ok () (w.log (.print r))

/-- A `malloc(size)`. -/
def malloc (size : Nat) : Proc Unit := fun w => .ok () (w.log (.malloc size))

/-- End of an iteration of the rectangle loop: not an action of the program,
it records the locals of the iteration in the trace. -/
def produced (r : Rect) : Proc Unit := fun w => .ok () (w.log (.rect r))

/-- The value the transport has planned for the next call that asks for `n`
bytes: the head of the plan, or `n` when the plan is used up. -/
def planned (plan : List Int) (n : Nat) : Int :=
  match plan with
  | [] => (n : Int)
  | k :: _ => k

/-- One call `recv(sock, ptr, n, 0)`: the returned value, the bytes stored at
`ptr`, and the world afterwards.  The next entry `k` of `recvPlan` decides the
call: `k ≤ 0` is returned as it is; `k > 0` means that `k` bytes are ready, so
the call transfers `min k n` bytes, or what is left of the stream.  With the
plan used up every call transfers all it is asked for.  A call that finds the
stream at its end returns 0. -/
def recv (n : Nat) (w : World) : Int × List Byte × World :=
  let k := planned w.recvPlan n
  if k ≤ 0 then
    (k, [], ⟨w.inbound, w.recvPlan.tail, w.sendPlan, w.trace ++ [.recv n k []]⟩)
  else
    let data := w.inbound.take (min k.toNat n)
    ((data.length : Int), data,
      ⟨w.inbound.drop (min k.toNat n), w.recvPlan.tail, w.sendPlan,
        w.trace ++ [.recv n (data.length : Int) data]⟩)

/-- One call `send(sock, ptr, buf.length, 0)` on the bytes `buf` at `ptr`: the
returned value and the world afterwards.  The next entry `k` of `sendPlan`
decides the call: `k ≤ 0` is returned as it is; `k > 0` means the transport
takes `min k buf.length` bytes.  With the plan used up every call takes all. -/
def send (buf : List Byte) (w : World) : Int × World :=
  let k := planned w.sendPlan buf.length
  if k ≤ 0 then
    (k, ⟨w.inbound, w.recvPlan, w.sendPlan.tail, w.trace ++ [.send buf.length k []]⟩)
  else
    let data := buf.take k.toNat
    ((data.length : Int),
      ⟨w.inbound, w.recvPlan, w.sendPlan.tail,
        w.trace ++ [.send buf.length (data.length : Int) data]⟩)

/-- The loop of `send_all`, with an iteration bound. -/
def send_all_loop (buf : List Byte) : Nat → Nat → Proc Unit
  | 0, total_sent => fun w =>
    if total_sent < buf.length then .fuel w else .ok () w
  | fuel + 1, total_sent => fun w =>
    if total_sent < buf.length then
      match send (buf.drop total_sent) w with
      | (sent, w1) =>
        if sent ≤ 0 then die .send w1
        else send_all_loop buf fuel (total_sent + sent.toNat) w1
    else .ok () w

/-- `send_all(sock, buf, len)` with `buf` the `len` bytes at `buf`. -/
def send_all (buf : List Byte) : Proc Unit :=
  send_all_loop buf buf.length 0

/-- The loop of `recv_all`, with an iteration bound; `buf` is what has been
stored at `ptr` so far. -/
def recv_all_loop (len : Nat) : Nat → Nat → List Byte → Proc (List Byte)
  | 0, total_recv, buf => fun w =>
    if total_recv < len then .fuel w else .ok buf w
  | fuel + 1, total_recv, buf => fun w =>
    if total_recv < len then
      match recv (len - total_recv) w with
      | (recvd, data, w1) =>
        if recvd ≤ 0 then die .recv w1
        else recv_all_loop len fuel (total_recv + recvd.toNat) (buf ++ data) w1
    else .ok buf w

/-- `recv_all(sock, buf, len)`; returns the `len` bytes stored at `buf`. -/
def recv_all (len : Nat) : Proc (List Byte) :=
  recv_all_loop len len 0 []

/-! ## main -/

/-- The string `"RFB 003.003\n"`. -/
def client_version : List Byte :=
  [82, 70, 66, 32, 48, 48, 51, 46, 48, 48, 51, 10]

/-- `size_t data_len = rw * rh * 4;` the product is computed in `int`
(wrap-around modulo 2^32) and converted to the 64-bit `size_t` with sign
extension. -/
def data_len (rw rh : Nat) : Nat :=
  let p := (rw * rh * 4) % 4294967296
  if p < 2147483648 then p else p + (18446744073709551616 - 4294967296)

/-- The argument `len + 1` of `malloc` for a text of `len` bytes, in
`uint32_t`: it is 0 for `len = 2^32 - 1`. -/
def text_size (len : Nat) : Nat := (len + 1) % 4294967296

/-- The `for` loop of `main` (lines 140-166): `todo` iterations are left and
`i` is the loop counter. -/
def rect_loop (hostLE : Bool) : Nat → Nat → Proc Unit
  | 0, _ => Proc.pure ()
  | todo + 1, i => do
    let rx0 ← recv_all 2
    let ry0 ← recv_all 2
    let rw0 ← recv_all 2
    let rh0 ← recv_all 2
    let encoding0 ← recv_all 4
    let rx := ntohs hostLE (load hostLE rx0)
    let ry := ntohs hostLE (load hostLE ry0)
    let rw := ntohs hostLE (load hostLE rw0)
    let rh := ntohs hostLE (load hostLE rh0)
    let encoding := ntohl hostLE (load hostLE encoding0)
    printf (.rectangle (i + 1) rw rh rx ry encoding)
    malloc (data_len rw rh)
    let pixel_data ← recv_all (data_len rw rh)
    printf (.firstPixel pixel_data[0]? pixel_data[1]? pixel_data[2]?)
    produced ⟨rx, ry, rw, rh, encoding, pixel_data⟩
    rect_loop hostLE todo (i + 1)

/-- Lines 60-72 of `main`: the version exchange and the read of the security
type; returns `sec_type`. -/
def handshake (hostLE : Bool) : Proc Nat := do
  let version ← recv_all 12
  printf (.serverVersion (cstr (version ++ [0])))
  send_all client_version
  let sec_type0 ← recv_all 4
  Proc.pure (ntohl hostLE (load hostLE sec_type0))

/-- Lines 74-83 of `main`: the body of `if (sec_type == 0)`.  The block
allocated at line 77 has `text_size reason_len` bytes and lines 78-79 store
`reason_len + 1` bytes in it; for `reason_len = 2^32 - 1` the block has 0 bytes
and the stores fall outside it, which this definition does not show otherwise
than by the size in the trace. -/
def rejected (hostLE : Bool) : Proc Unit := do
  let reason_len0 ← recv_all 4
  let reason_len := ntohl hostLE (load hostLE reason_len0)
  malloc (text_size reason_len)
  let reason ← recv_all reason_len
  printf (.connectionFailed (cstr (reason ++ [0])))
  close
  ret 1

/-- Lines 89-110 of `main`: ClientInit and ServerInit; returns `width` and
`height`.  The block allocated at line 106 has `text_size name_len` bytes and
lines 107-108 store `name_len + 1` bytes in it; for `name_len = 2^32 - 1` the
block has 0 bytes and the stores fall outside it, which this definition does
not show otherwise than by the size in the trace. -/
def init (hostLE : Bool) : Proc (Nat × Nat) := do
  send_all [1]
  let width0 ← recv_all 2
  let height0 ← recv_all 2
  let width := ntohs hostLE (load hostLE width0)
  let height := ntohs hostLE (load hostLE height0)
  printf (.framebuffer width height)
  let _pixel_format ← recv_all 16
  let name_len0 ← recv_all 4
  let name_len := ntohl hostLE (load hostLE name_len0)
  malloc (text_size name_len)
  let name ← recv_all name_len
  printf (.desktopName (cstr (name ++ [0])))
  Proc.pure (width, height)

/-- Lines 113-122 of `main`: the ten bytes of `fbuf_req`. -/
def fbuf_req (hostLE : Bool) (width height : Nat) : List Byte :=
  [3, 0] ++ store16 hostLE (htons hostLE 0) ++ store16 hostLE (htons hostLE 0)
    ++ store16 hostLE (htons hostLE width) ++ store16 hostLE (htons hostLE height)

/-- Lines 125-170 of `main`: the read of the FramebufferUpdate. -/
def read_update (hostLE : Bool) : Proc Unit := do
  let update_msg_type0 ← recv_all 1
  let update_msg_type := load hostLE update_msg_type0
  if update_msg_type ≠ 0 then do
    printf (.unexpectedType update_msg_type)
    close
    ret 1
  else do
    let _padding ← recv_all 1
    let num_rects0 ← recv_all 2
    let num_rects := ntohs hostLE (load hostLE num_rects0)
    printf (.numRects num_rects)
    rect_loop hostLE num_rects 0
    close
    ret 0

/-- Lines 60-170 of `main`: the session on a connected socket.  Line 85 is
the report of the security type; lines 112-123 build and send `fbuf_req`. -/
def session (hostLE : Bool) : Proc Unit := do
  let sec_type ← handshake hostLE
  if sec_type = 0 then rejected hostLE
  else do
    printf (.securityType sec_type)
    let size ← init hostLE
    send_all (fbuf_req hostLE size.1 size.2)
    read_update hostLE

/-- The whole of `main`; `socket_ret` and `connect_ret` are what `socket` and
`connect` return. -/
def main (hostLE : Bool) (socket_ret connect_ret : Int) : Proc Unit := fun w =>
  if socket_ret < 0 then die .socket w
  else if connect_ret < 0 then die .connect w
  else session hostLE w

/-! ## Reading a trace -/

/-- Bytes the client wrote, in order. -/
def sentBytes : List Event → List Byte
  | [] => []
  | .send _ _ data :: t => data ++ sentBytes t
  | _ :: t => sentBytes t

/-- Bytes the client read, in order. -/
def recvBytes : List Event → List Byte
  | [] => []
  | .recv _ _ data :: t => data ++ recvBytes t
  | _ :: t => recvBytes t

/-- Number of `close(sock)` calls. -/
def closeCount : List Event → Nat
  | [] => 0
  | .close :: t => closeCount t + 1
  | _ :: t => closeCount t

/-- The `die` calls. -/
def perrors : List Event → List Msg
  | [] => []
  | .perror m :: t => m :: perrors t
  | _ :: t => perrors t

/-- A `recv` call that stored a positive number of bytes, no more than asked. -/
def recvOk : Event → Bool
  | .recv n r d => decide (r = (d.length : Int) ∧ 0 < d.length ∧ d.length ≤ n)
  | _ => false

/-- A `send` call that took a positive number of bytes, no more than offered. -/
def sendOk : Event → Bool
  | .send n r d => decide (r = (d.length : Int) ∧ 0 < d.length ∧ d.length ≤ n)
  | _ => false

/-- A world at the start of a session: nothing has happened yet. -/
def World.start (inbound : List Byte) (recvPlan sendPlan : List Int) : World :=
  ⟨inbound, recvPlan, sendPlan, []⟩

/-! ## Specification vocabulary -/

/-- The events of `recv` calls that stored the chunks `cs`: each chunk is the
length asked for and the bytes stored. -/
def recvEvents (cs : List (Nat × List Byte)) : List Event :=
  cs.map (fun c => Event.recv c.1 (c.2.length : Int) c.2)

/-- The events of `send` calls that took the chunks `cs`. -/
def sendEvents (cs : List (Nat × List Byte)) : List Event :=
  cs.map (fun c => Event.send c.1 (c.2.length : Int) c.2)

/-- The chunks `cs` make up `data`: each is non-empty, no longer than asked
for, and together, in order, they are `data`. -/
def Chunks (cs : List (Nat × List Byte)) (data : List Byte) : Prop :=
  (cs.map Prod.snd).foldr (fun d acc => d ++ acc) [] = data ∧
    ∀ c ∈ cs, 0 < c.2.length ∧ c.2.length ≤ c.1

/-- The transport never fails: every planned value is positive. -/
def Good (w : World) : Prop :=
  (∀ k ∈ w.recvPlan, 0 < k) ∧ (∀ k ∈ w.sendPlan, 0 < k)

instance (w : World) : Decidable (Good w) := by
  unfold Good; infer_instance

/-- The world after `recv` calls stored the chunks `cs`, `k` bytes in all. -/
def World.recvd (w : World) (k : Nat) (cs : List (Nat × List Byte)) : World :=
  ⟨w.inbound.drop k, w.recvPlan.drop cs.length, w.sendPlan, w.trace ++ recvEvents cs⟩

/-- The world after `recv` calls stored the chunks `cs`, `k` bytes in all, the
next call, asking for `n`, returned `r ≤ 0`, and `die("recv")` ran. -/
def World.recvDied (w : World) (k : Nat) (cs : List (Nat × List Byte)) (n : Nat) (r : Int) :
    World :=
  ⟨w.inbound.drop k, w.recvPlan.drop (cs.length + 1), w.sendPlan,
    w.trace ++ recvEvents cs ++ [.recv n r [], .perror .recv]⟩

/-- The world after `send` calls took the chunks `cs`. -/
def World.sent (w : World) (cs : List (Nat × List Byte)) : World :=
  ⟨w.inbound, w.recvPlan, w.sendPlan.drop cs.length, w.trace ++ sendEvents cs⟩

/-- The world after `send` calls took the chunks `cs`, the next call, offering
`n` bytes, returned `r ≤ 0`, and `die("send")` ran. -/
def World.sendDied (w : World) (cs : List (Nat × List Byte)) (n : Nat) (r : Int) : World :=
  ⟨w.inbound, w.recvPlan, w.sendPlan.drop (cs.length + 1),
    w.trace ++ sendEvents cs ++ [.send n r [], .perror .send]⟩

/-- From every world that satisfies `P`, the piece `m` either returns a value
in a world satisfying `Q`, or ends the process with a status and a world
satisfying `X`; it never runs out of the iteration bound. -/
def Triple {α : Type} (P : World → Prop) (m : Proc α) (Q : α → World → Prop)
    (X : Nat → World → Prop) : Prop :=
  ∀ w, P w →
    match m w with
    | .ok a w1 => Q a w1
    | .exit s w1 => X s w1
    | .fuel _ => False

/-- What an observer of the process sees, one step at a time: a byte read, a
byte written, a transport call that returned zero or less, a `close`, a
`printf`, a `perror`, a `malloc`, the end of a loop iteration.  How the
transport split the bytes over calls is forgotten. -/
inductive Obs where
  | inp (b : Byte)
  | out (b : Byte)
  | fail
  | close
  | print (r : Report)
  | perror (m : Msg)
  | malloc (size : Nat)
  | rect (r : Rect)
  deriving DecidableEq, Repr

/-- What an observer sees of one event. -/
def Event.observe : Event → List Obs
  | .recv _ r d => if r ≤ 0 then [.fail] else d.map .inp
  | .send _ r d => if r ≤ 0 then [.fail] else d.map .out
  | .close => [.close]
  | .print r => [.print r]
  | .perror m => [.perror m]
  | .malloc n => [.malloc n]
  | .rect r => [.rect r]

/-- What an observer sees of a trace. -/
def observe : List Event → List Obs
  | [] => []
  | e :: t => e.observe ++ observe t

/-- Bytes written by the client, in order. -/
def outs : List Obs → List Byte
  | [] => []
  | .out b :: t => b :: outs t
  | _ :: t => outs t

/-- Bytes read by the client, in order. -/
def ins : List Obs → List Byte
  | [] => []
  | .inp b :: t => b :: ins t
  | _ :: t => ins t

/-- The `printf` calls, in order. -/
def prints : List Obs → List Report
  | [] => []
  | .print r :: t => r :: prints t
  | _ :: t => prints t

/-- The rectangles the loop produced, in order. -/
def rects : List Obs → List Rect
  | [] => []
  | .rect r :: t => r :: rects t
  | _ :: t => rects t

/-- The `die` calls. -/
def dies : List Obs → List Msg
  | [] => []
  | .perror m :: t => m :: dies t
  | _ :: t => dies t

/-- The sizes passed to `malloc`, in order. -/
def mallocs : List Obs → List Nat
  | [] => []
  | .malloc n :: t => n :: mallocs t
  | _ :: t => mallocs t

/-- Number of `close(sock)` calls. -/
def closes : List Obs → Nat
  | [] => 0
  | .close :: t => closes t + 1
  | _ :: t => closes t

/-- Number of transport calls that returned zero or less. -/
def fails : List Obs → Nat
  | [] => 0
  | .fail :: t => fails t + 1
  | _ :: t => fails t

/-- The world has `inb` still to come and an observer has seen `obs`. -/
def At (inb : List Byte) (obs : List Obs) (w : World) : Prop :=
  w.inbound = inb ∧ observe w.trace = obs

/-- As `At`, on a transport that never fails. -/
def AtG (inb : List Byte) (obs : List Obs) (w : World) : Prop :=
  Good w ∧ w.inbound = inb ∧ observe w.trace = obs

/-- Nothing has been closed and nobody died. -/
def Open (w : World) : Prop := closeCount w.trace = 0 ∧ perrors w.trace = []

/-- At the end: closed once without a `die`, or not closed, with a `die` and
status 1. -/
def ClosedOnce (s : Nat) (w : World) : Prop :=
  (perrors w.trace = [] ∧ closeCount w.trace = 1) ∨
    (perrors w.trace ≠ [] ∧ closeCount w.trace = 0 ∧ s = 1)

/-- The property `I` of what an observer has seen survives every successful
`recv_all` and every `malloc`, and a `die` of `recv_all` from a state with `I`
ends the process as `X` says. -/
structure Inv (I : List Obs → Prop) (X : Nat → World → Prop) : Prop where
  inp : ∀ (obs : List Obs) (l : List Byte), I obs → I (obs ++ l.map Obs.inp)
  malloc : ∀ (obs : List Obs) (n : Nat), I obs → I (obs ++ [Obs.malloc n])
  die_recv : ∀ (obs : List Obs) (l : List Byte) (w : World), I obs →
    observe w.trace = obs ++ l.map Obs.inp ++ [Obs.fail, Obs.perror Msg.recv] → X 1 w

/-- The property `I` of what an observer has seen survives every successful
`send_all`, and a `die` of `send_all` from a state with `I` ends the process
as `X` says. -/
structure InvSend (I : List Obs → Prop) (X : Nat → World → Prop) : Prop where
  out : ∀ (obs : List Obs) (l : List Byte), I obs → I (obs ++ l.map Obs.out)
  die_send : ∀ (obs : List Obs) (l : List Byte) (w : World), I obs →
    observe w.trace = obs ++ l.map Obs.out ++ [Obs.fail, Obs.perror Msg.send] → X 1 w

/-- The process has `I` of what an observer has seen. -/
def Sees (I : List Obs → Prop) (w : World) : Prop := I (observe w.trace)

/-- The reports printed before the rectangle count. -/
def Report.early : Report → Bool
  | .serverVersion _ => true
  | .securityType _ => true
  | .framebuffer _ _ => true
  | .desktopName _ => true
  | _ => false

/-- The reports printed by the rectangle loop. -/
def Report.inLoop : Report → Bool
  | .rectangle _ _ _ _ _ _ => true
  | .firstPixel _ _ _ => true
  | _ => false

/-- The session declared a rectangle count and the loop completed that many
iterations. -/
def Completed (obs : List Obs) : Prop :=
  ∃ n, Report.numRects n ∈ prints obs ∧ (rects obs).length = n

/-- Every rectangle produced has the whole payload of `data_len` bytes that
the loop reads for its width and height. -/
def Whole (obs : List Obs) : Prop :=
  ∀ r ∈ rects obs, r.pixel_data.length = data_len r.rw r.rh

/-- The exit status against what happened: 0 exactly for a completed decode,
and then every rectangle has its whole payload; `EXIT_FAILURE` after a failed
transport call, a `die`, a reported security rejection or a reported
unexpected message type. -/
def ExitCode (s : Nat) (w : World) : Prop :=
  (s = 0 ∨ s = EXIT_FAILURE) ∧
  (s = 0 ↔ Completed (observe w.trace)) ∧
  (0 < fails (observe w.trace) → s = EXIT_FAILURE) ∧
  (dies (observe w.trace) ≠ [] → s = EXIT_FAILURE) ∧
  ((∃ t, Report.connectionFailed t ∈ prints (observe w.trace)) → s = EXIT_FAILURE) ∧
  ((∃ t, Report.unexpectedType t ∈ prints (observe w.trace)) → s = EXIT_FAILURE) ∧
  (s = 0 → Whole (observe w.trace))

/-- Before the rectangle count: no failure, no rectangle, early reports only. -/
def Early (obs : List Obs) : Prop :=
  fails obs = 0 ∧ dies obs = [] ∧ rects obs = [] ∧ ∀ r ∈ prints obs, r.early = true

/-- In the loop: the count `n` is declared, `i` iterations are complete, no
failure so far. -/
def InLoop (n i : Nat) (obs : List Obs) : Prop :=
  fails obs = 0 ∧ dies obs = [] ∧ (rects obs).length = i ∧
    Report.numRects n ∈ prints obs ∧
    (∀ r ∈ prints obs, r.early = true ∨ r.inLoop = true ∨ r = Report.numRects n) ∧
    Whole obs

/-- What an observer has seen starts with `obs0`, and what follows has `T`. -/
def Extends (T : List Obs → Prop) (obs0 : List Obs) (obs : List Obs) : Prop :=
  ∃ t, obs = obs0 ++ t ∧ T t

/-- The property `T` of a piece of observation survives appending bytes read
and any single step that is not a byte written. -/
structure Tail (T : List Obs → Prop) : Prop where
  inp : ∀ (t : List Obs) (l : List Byte), T t → T (t ++ l.map Obs.inp)
  step : ∀ (t : List Obs) (o : Obs), (∀ b, o ≠ Obs.out b) → T t → T (t ++ [o])

/-- The property `T` survives appending bytes written. -/
structure TailSend (T : List Obs → Prop) : Prop where
  out : ∀ (t : List Obs) (l : List Byte), T t → T (t ++ l.map Obs.out)

/-- Where a walk that only extends the observation ends. -/
def Stays (T : List Obs → Prop) (obs0 : List Obs) (_ : Nat) (w : World) : Prop :=
  Sees (Extends T obs0) w

/-- Big-endian encoding of a 16-bit value (the wire format of a coordinate). -/
def encodeBE16 (v : Nat) : List Byte := [lowByte (v / 256), lowByte v]

/-- The 12 header bytes of a rectangle on the wire: x, y, width, height, then
the encoding code. -/
def Rect.header (r : Rect) : List Byte :=
  encodeBE16 r.rx ++ (encodeBE16 r.ry ++ (encodeBE16 r.rw ++ (encodeBE16 r.rh ++
    encodeBE32 r.encoding)))

/-- A rectangle on the wire: its header, then its pixel bytes. -/
def Rect.wire (r : Rect) : List Byte := r.header ++ r.pixel_data

/-- A sequence of rectangles on the wire. -/
def wireRects : List Rect → List Byte
  | [] => []
  | r :: rs => r.wire ++ wireRects rs

/-- The fields of the rectangle fit their wire formats and its payload has
`width * height * 4` bytes. -/
def Rect.Framed (r : Rect) : Prop :=
  r.rx < 65536 ∧ r.ry < 65536 ∧ r.rw < 65536 ∧ r.rh < 65536 ∧ r.encoding < 4294967296 ∧
    r.pixel_data.length = r.rw * r.rh * 4

instance (r : Rect) : Decidable r.Framed := by
  unfold Rect.Framed; infer_instance

/-- The fields of the rectangle fit their wire formats and its payload has the
`data_len` bytes that the loop reads for it. -/
def Rect.Coded (r : Rect) : Prop :=
  r.rx < 65536 ∧ r.ry < 65536 ∧ r.rw < 65536 ∧ r.rh < 65536 ∧ r.encoding < 4294967296 ∧
    r.pixel_data.length = data_len r.rw r.rh

instance (r : Rect) : Decidable r.Coded := by
  unfold Rect.Coded; infer_instance

/-- What an observer sees of iteration `i` of the loop on the rectangle `r`. -/
def Rect.seen (i : Nat) (r : Rect) : List Obs :=
  r.header.map .inp ++
    ([.print (.rectangle (i + 1) r.rw r.rh r.rx r.ry r.encoding), .malloc (data_len r.rw r.rh)] ++
      (r.pixel_data.map .inp ++
        [.print (.firstPixel r.pixel_data[0]? r.pixel_data[1]? r.pixel_data[2]?), .rect r]))

/-- What an observer sees of the loop on the rectangles `rs`, from iteration `i`. -/
def loopSeen : Nat → List Rect → List Obs
  | _, [] => []
  | i, r :: rs => r.seen i ++ loopSeen (i + 1) rs

/-- Total number of pixel bytes of the rectangles. -/
def pixelBytes : List Rect → Nat
  | [] => 0
  | r :: rs => r.rw * r.rh * 4 + pixelBytes rs

/-- What the server sends up to the end of ServerInit: its version, the
security type, then width, height, pixel format, name length and name. -/
structure Prelude where
  ver : List Byte
  sec : List Byte
  wb : List Byte
  hb : List Byte
  pf : List Byte
  nl : List Byte
  name : List Byte
  deriving DecidableEq, Repr

/-- The fields have their wire sizes, the security type is not 0 and the name
has the declared length. -/
def Prelude.Valid (p : Prelude) : Prop :=
  p.ver.length = 12 ∧ p.sec.length = 4 ∧ loadBE p.sec ≠ 0 ∧ p.wb.length = 2 ∧
    p.hb.length = 2 ∧ p.pf.length = 16 ∧ p.nl.length = 4 ∧ p.name.length = loadBE p.nl

instance (p : Prelude) : Decidable p.Valid := by
  unfold Prelude.Valid; infer_instance

/-- The bytes of the prelude, in wire order. -/
def Prelude.wire (p : Prelude) : List Byte :=
  p.ver ++ (p.sec ++ (p.wb ++ (p.hb ++ (p.pf ++ (p.nl ++ p.name)))))

/-- What an observer sees of the session on the prelude `p`, up to and
including the FramebufferUpdateRequest. -/
def Prelude.seen (p : Prelude) : List Obs :=
  p.ver.map .inp ++ [.print (.serverVersion (cstr (p.ver ++ [0])))] ++
    client_version.map .out ++ p.sec.map .inp ++ [.print (.securityType (loadBE p.sec))] ++
    [.out 1] ++ p.wb.map .inp ++ p.hb.map .inp ++
    [.print (.framebuffer (loadBE p.wb) (loadBE p.hb))] ++ p.pf.map .inp ++ p.nl.map .inp ++
    [.malloc (text_size (loadBE p.nl))] ++ p.name.map .inp ++
    [.print (.desktopName (cstr (p.name ++ [0])))] ++
    (([3, 0, 0, 0, 0, 0] : List Byte) ++ p.wb ++ p.hb).map .out

/-- Every planned value is positive: the calls governed by the plan succeed. -/
def Positive (plan : List Int) : Prop := ∀ k ∈ plan, 0 < k

instance (plan : List Int) : Decidable (Positive plan) := by
  unfold Positive; infer_instance

/-- The server of the scenario of the specification: version 3.8, security
type 1, an 800x600 framebuffer, a zero pixel format and an empty name. -/
def prelude800 : Prelude :=
  ⟨[82, 70, 66, 32, 48, 48, 51, 46, 48, 48, 56, 10], [0, 0, 0, 1], [3, 32], [2, 88],
    List.replicate 16 0, [0, 0, 0, 0], []⟩

/-- The session ended with `EXIT_FAILURE`, the client wrote no more than a
prefix of its version string, and the whole string once the 16 bytes up to the
security type had been read. -/
def OnlyVersion (s : Nat) (w : World) : Prop :=
  s = EXIT_FAILURE ∧ outs (observe w.trace) <+: client_version ∧
    (16 ≤ (ins (observe w.trace)).length → outs (observe w.trace) = client_version)

/-- The session ended with `EXIT_FAILURE` and all the client wrote is its
version string. -/
def SentVersion (s : Nat) (w : World) : Prop :=
  s = EXIT_FAILURE ∧ outs (observe w.trace) = client_version

/-- The 7 bytes of `"denied\0"`. -/
def denied0 : List Byte := [100, 101, 110, 105, 101, 100, 0]

/-- A rectangle of 32768 x 32768 pixels as the loop takes it from the wire:
`data_len 32768 32768` is 0, so it comes with no pixel bytes. -/
def hugeRect : Rect := ⟨0, 0, 32768, 32768, 0, []⟩

/-- A rectangle of one pixel at the origin, raw encoding. -/
def onePixel : Rect := ⟨0, 0, 1, 1, 0, [9, 8, 7, 6]⟩

/-- The server of the scenario of the specification, followed by a
FramebufferUpdate with the one rectangle `onePixel`. -/
def onePixelStream : List Byte :=
  prelude800.wire ++ ([0] ++ ([0] ++ ([0, 1] ++ (wireRects [onePixel] ++ []))))

/-- The piece `t` of observation starts with the read of the first two bytes
of `tail`; when `tail` has no two bytes it is the read of all of `tail`, a
failed `recv` and the `die`. -/
def ReadsNext (tail : List Byte) (t : List Obs) : Prop :=
  (2 ≤ tail.length → ∃ t2, t = (tail.take 2).map Obs.inp ++ t2) ∧
    (tail.length < 2 → t = tail.map Obs.inp ++ [Obs.fail, Obs.perror Msg.recv])

/-- Every rectangle produced has the whole payload of `data_len` bytes, and
the three reads of its first pixel have been reported. -/
def Measured (obs : List Obs) : Prop :=
  ∀ r ∈ rects obs, r.pixel_data.length = data_len r.rw r.rh ∧
    Report.firstPixel r.pixel_data[0]? r.pixel_data[1]? r.pixel_data[2]? ∈ prints obs

/-- Where a walk that keeps `Measured` ends. -/
def MeasuredEnd (_ : Nat) (w : World) : Prop := Measured (observe w.trace)

/-- A rectangle of one pixel at the origin with the encoding code 5 (hextile on
a real server). -/
def hextilePixel : Rect := ⟨0, 0, 1, 1, 5, [9, 8, 7, 6]⟩

/-- Two runs end alike: both return, with values and worlds related by `Q`, or
both end the process, with the same exit status and worlds related by `X`. -/
def Res.Rel {α : Type} (Q : α → α → World → World → Prop) (X : World → World → Prop) :
    Res α → Res α → Prop
  | .ok a w, .ok a' w' => Q a a' w w'
  | .exit s w, .exit s' w' => s = s' ∧ X w w'
  | _, _ => False

/-- From every pair of worlds related by `P`, the pieces `m` and `m'` end
alike. -/
def Triple2 {α : Type} (P : World → World → Prop) (m m' : Proc α)
    (Q : α → α → World → World → Prop) (X : World → World → Prop) : Prop :=
  ∀ w w', P w w' → Res.Rel Q X (m w) (m' w')

/-- The rectangle with its encoding code forgotten. -/
def Rect.blank (r : Rect) : Rect := ⟨r.rx, r.ry, r.rw, r.rh, 0, r.pixel_data⟩

/-- The report with the encoding code of a rectangle forgotten. -/
def Report.blank : Report → Report
  | .rectangle i rw rh rx ry _ => .rectangle i rw rh rx ry 0
  | r => r

/-- What an observer sees when the values of the bytes read and the encoding
codes are forgotten: a byte read stays a byte read, reports and rectangles
keep everything but the encoding code. -/
def Obs.blank : Obs → Obs
  | .inp _ => .inp 0
  | .print r => .print r.blank
  | .rect r => .rect r.blank
  | o => o

/-- The streams `s` and `s'`, read as `n` rectangles, are identical except for
the 4-byte encoding fields: they have the same length, the same 8 bytes of x,
y, width and height, the same payload of `data_len` bytes after the 12-byte
header, and what follows the payload is again the same except for the
encoding fields of the `n - 1` rectangles left; after the last rectangle the
streams are identical. -/
def SameButEncoding : Nat → List Byte → List Byte → Prop
  | 0, s, s' => s = s'
  | n + 1, s, s' =>
    s.length = s'.length ∧ s.take 8 = s'.take 8 ∧
      (s.drop 12).take (data_len (loadBE ((s.drop 4).take 2)) (loadBE ((s.drop 6).take 2))) =
        (s'.drop 12).take (data_len (loadBE ((s.drop 4).take 2)) (loadBE ((s.drop 6).take 2))) ∧
      SameButEncoding n
        ((s.drop 12).drop (data_len (loadBE ((s.drop 4).take 2)) (loadBE ((s.drop 6).take 2))))
        ((s'.drop 12).drop (data_len (loadBE ((s.drop 4).take 2)) (loadBE ((s.drop 6).take 2))))

instance SameButEncoding.decidable : ∀ (n : Nat) (s s' : List Byte),
    Decidable (SameButEncoding n s s')
  | 0, s, s' => inferInstanceAs (Decidable (s = s'))
  | n + 1, s, s' =>
    have := SameButEncoding.decidable n
      ((s.drop 12).drop (data_len (loadBE ((s.drop 4).take 2)) (loadBE ((s.drop 6).take 2))))
      ((s'.drop 12).drop (data_len (loadBE ((s.drop 4).take 2)) (loadBE ((s.drop 6).take 2))))
    inferInstanceAs (Decidable (s.length = s'.length ∧ s.take 8 = s'.take 8 ∧
      (s.drop 12).take (data_len (loadBE ((s.drop 4).take 2)) (loadBE ((s.drop 6).take 2))) =
        (s'.drop 12).take (data_len (loadBE ((s.drop 4).take 2)) (loadBE ((s.drop 6).take 2))) ∧
      SameButEncoding n
        ((s.drop 12).drop (data_len (loadBE ((s.drop 4).take 2)) (loadBE ((s.drop 6).take 2))))
        ((s'.drop 12).drop (data_len (loadBE ((s.drop 4).take 2)) (loadBE ((s.drop 6).take 2))))))

/-- A rectangle of width 0 and height 5 at (3, 4): it has no pixel. -/
def emptyRect : Rect := ⟨3, 4, 0, 5, 0, []⟩

/-- Two worlds on transports that never fail, with the same stream still to
come, whose observers have seen the same. -/
def Sim (w w' : World) : Prop :=
  Good w ∧ Good w' ∧ w.inbound = w'.inbound ∧ observe w.trace = observe w'.trace

/-- Two worlds at the end: the same part of the stream is left unread and the
observers have seen the same. -/
def SimEnd (w w' : World) : Prop :=
  w.inbound = w'.inbound ∧ observe w.trace = observe w'.trace

/-- The piece `m` does not see how the transport splits the bytes: run from two
worlds related by `Sim` it ends alike, with the same value or the same exit
status. -/
def Same {α : Type} (m : Proc α) : Prop :=
  Triple2 Sim m m (fun a a' w w' => a = a' ∧ Sim w w') SimEnd

/-- The event with the values of the bytes a `recv` stored and the encoding
codes forgotten; the calls and what they returned are kept. -/
def Event.blank : Event → Event
  | .recv n r d => .recv n r (d.map (fun _ => 0))
  | .print r => .print r.blank
  | .rect r => .rect r.blank
  | e => e

/-- The world with the values of the bytes of the stream, read or still to
come, and the encoding codes forgotten. -/
def World.blank (w : World) : World :=
  ⟨w.inbound.map (fun _ => 0), w.recvPlan, w.sendPlan, w.trace.map Event.blank⟩

/-- How a piece ended, with the values of the bytes of the stream and the
encoding codes forgotten; `g` forgets them in the value returned. -/
def Res.blank {α : Type} (g : α → α) : Res α → Res α
  | .ok a w => .ok (g a) w.blank
  | .exit s w => .exit s w.blank
  | .fuel w => .fuel w.blank

/-- Two worlds on transports that never fail, with as much of the stream still
to come, whose observers have seen the same but for the values of the bytes
read and the encoding codes.  The two transports may split the bytes
differently. -/
def GoodPair (w w' : World) : Prop :=
  Good w ∧ Good w' ∧ w.inbound.length = w'.inbound.length ∧
    (observe w.trace).map Obs.blank = (observe w'.trace).map Obs.blank

/-- Two worlds on the same transport behaviour, failures included, with as
much of the stream still to come, in which the same calls were made with the
same results: they are the same but for the values of the bytes of the stream
and the encoding codes. -/
def Twin (w w' : World) : Prop := w.blank = w'.blank

/-- Two worlds at the end: as much of the stream is left in both, and the
observers have seen the same but for the values of the bytes read and the
encoding codes. -/
def AlikeEnd (w w' : World) : Prop :=
  w.inbound.length = w'.inbound.length ∧
    (observe w.trace).map Obs.blank = (observe w'.trace).map Obs.blank

/-- The relation `R` between two worlds is kept by the steps of the program:
from related worlds `recv_all` either returns in both, with the next `len`
bytes of each stream, or dies in both; `send_all` of the same buffer returns
in both or dies in both; logging events that are the same but for the encoding
code keeps the worlds related.  Related worlds have as much of the stream to
come, and `E` holds of two related worlds in which the process ends. -/
structure Coupled (R E : World → World → Prop) : Prop where
  recv : ∀ (len : Nat) (w w' : World), R w w' →
    Res.Rel
      (fun a a' w1 w1' => len ≤ w.inbound.length ∧ a = w.inbound.take len ∧
        a' = w'.inbound.take len ∧ w1.inbound = w.inbound.drop len ∧
        w1'.inbound = w'.inbound.drop len ∧ R w1 w1')
      E (recv_all len w) (recv_all len w')
  send : ∀ (buf : List Byte) (w w' : World), R w w' →
    Res.Rel (fun _ _ w1 w1' => w1.inbound = w.inbound ∧ w1'.inbound = w'.inbound ∧ R w1 w1')
      E (send_all buf w) (send_all buf w')
  log : ∀ (e e' : Event) (w w' : World), e.blank = e'.blank → R w w' →
    R (w.log e) (w'.log e')
  done : ∀ (w w' : World), R w w' → E w w'
  length : ∀ (w w' : World), R w w' → w.inbound.length = w'.inbound.length

/-- Two worlds related by `R` with `inb` and `inb'` still to come. -/
def Tracked (R : World → World → Prop) (inb inb' : List Byte) (w w' : World) : Prop :=
  w.inbound = inb ∧ w'.inbound = inb' ∧ R w w'

/-- The reports of the fields decoded from ServerInit: the framebuffer size
(line 101) and the desktop name (line 109). -/
def Report.isServerInit : Report → Bool
  | .framebuffer _ _ => true
  | .desktopName _ => true
  | _ => false

/-- The decoded ServerInit fields among the reports printed. -/
def serverInitFields (l : List Report) : List Report := l.filter Report.isServerInit

/-- A report all of whose values are decoded from bytes received: every report
but a first-pixel report with a byte read outside the payload (`none`), whose
value in the program is whatever the memory at `pixel_data` holds. -/
def Report.determined : Report → Bool
  | .firstPixel r g b => r.isSome && g.isSome && b.isSome
  | _ => true

/-! ## The transport calls -/

theorem recv_nonpos (n : Nat) (w : World) (h : planned w.recvPlan n ≤ 0) :
    recv n w = (planned w.recvPlan n, [],
      ⟨w.inbound, w.recvPlan.tail, w.sendPlan,
        w.trace ++ [.recv n (planned w.recvPlan n) []]⟩) := by
  simp [recv, h]

theorem recv_pos (n : Nat) (w : World) (h : 0 < planned w.recvPlan n) :
    recv n w =
      (((w.inbound.take (min (planned w.recvPlan n).toNat n)).length : Int),
        w.inbound.take (min (planned w.recvPlan n).toNat n),
        ⟨w.inbound.drop (min (planned w.recvPlan n).toNat n), w.recvPlan.tail, w.sendPlan,
          w.trace ++ [.recv n ((w.inbound.take (min (planned w.recvPlan n).toNat n)).length : Int)
            (w.inbound.take (min (planned w.recvPlan n).toNat n))]⟩) := by
  simp [recv, not_le.mpr h]

theorem take_min_length {α : Type} (l : List α) (m : Nat) :
    l.take (min m l.length) = l.take m ∧ l.drop (min m l.length) = l.drop m := by
  by_cases h : m ≤ l.length
  · simp [Nat.min_eq_left h]
  · have h' : l.length ≤ m := by omega
    simp [Nat.min_eq_right h', List.take_of_length_le h', List.drop_of_length_le h']

theorem recv_pos_min (n : Nat) (w : World) (h : 0 < planned w.recvPlan n) (m : Nat)
    (hm : m = min (min (planned w.recvPlan n).toNat n) w.inbound.length) :
    recv n w = ((m : Int), w.inbound.take m,
        ⟨w.inbound.drop m, w.recvPlan.tail, w.sendPlan,
          w.trace ++ [.recv n (m : Int) (w.inbound.take m)]⟩) := by
  have h1 := (take_min_length w.inbound (min (planned w.recvPlan n).toNat n)).1
  have h2 := (take_min_length w.inbound (min (planned w.recvPlan n).toNat n)).2
  have h3 : (w.inbound.take m).length = m := by
    rw [List.length_take]; omega
  rw [recv_pos n w h, ← h1, ← h2, ← hm, h3]

theorem recv_all_loop_spec (len : Nat) : ∀ (fuel total : Nat) (buf : List Byte) (w : World),
    total ≤ len → len - total ≤ fuel →
    ∃ (evs : List Event) (k : Nat),
      k ≤ len - total ∧ k ≤ w.inbound.length ∧ evs.length ≤ k ∧
      recvBytes evs = w.inbound.take k ∧ (∀ e ∈ evs, recvOk e = true) ∧
      ((k = len - total ∧
        recv_all_loop len fuel total buf w =
          .ok (buf ++ w.inbound.take k)
            ⟨w.inbound.drop k, w.recvPlan.drop evs.length, w.sendPlan, w.trace ++ evs⟩) ∨
       (k < len - total ∧ ∃ r : Int, r ≤ 0 ∧
          (r = planned (w.recvPlan.drop evs.length) (len - total - k) ∨
            (r = 0 ∧ k = w.inbound.length)) ∧
          recv_all_loop len fuel total buf w =
            .exit 1 ⟨w.inbound.drop k, w.recvPlan.drop (evs.length + 1), w.sendPlan,
              w.trace ++ evs ++ [.recv (len - total - k) r [], .perror .recv]⟩)) := by
  intro fuel
  induction fuel with
  | zero =>
    intro total buf w h1 h2
    refine ⟨[], 0, by omega, by omega, by simp, by simp [recvBytes], by simp, Or.inl ⟨by omega, ?_⟩⟩
    have : ¬ total < len := by omega
    cases w
    simp [recv_all_loop, this]
  | succ fuel ih =>
    intro total buf w h1 h2
    by_cases hlt : total < len
    · by_cases hp : planned w.recvPlan (len - total) ≤ 0
      · refine ⟨[], 0, by omega, by omega, by simp, by simp [recvBytes], by simp,
          Or.inr ⟨by omega, planned w.recvPlan (len - total), hp, Or.inl (by simp), ?_⟩⟩
        simp [recv_all_loop, hlt, recv_nonpos _ _ hp, hp, die, World.log, EXIT_FAILURE]
      · have hp' : 0 < planned w.recvPlan (len - total) := by omega
        obtain ⟨m, hm⟩ : ∃ m, m = min (min (planned w.recvPlan (len - total)).toNat (len - total))
            w.inbound.length := ⟨_, rfl⟩
        have hrecv := recv_pos_min _ w hp' m hm
        by_cases hm0 : m = 0
        · subst hm0
          refine ⟨[], 0, by omega, by omega, by simp, by simp [recvBytes], by simp,
            Or.inr ⟨by omega, 0, le_refl _, Or.inr ⟨rfl, by omega⟩, ?_⟩⟩
          simp [recv_all_loop, hlt, hrecv, die, World.log, EXIT_FAILURE]
        · have hmle : m ≤ len - total := by omega
          have hmin : m ≤ w.inbound.length := by omega
          obtain ⟨evs, k, hk1, hk2, hk3, hk4, hk5, hk6⟩ :=
            ih (total + m) (buf ++ w.inbound.take m)
              ⟨w.inbound.drop m, w.recvPlan.tail, w.sendPlan,
                w.trace ++ [.recv (len - total) (m : Int) (w.inbound.take m)]⟩
              (by omega) (by omega)
          have hk2' : k ≤ w.inbound.length - m := by simpa using hk2
          have hb1 : m + k ≤ len - total := by omega
          have hb2 : m + k ≤ w.inbound.length := by omega
          have hb3 : (Event.recv (len - total) (m : Int) (w.inbound.take m) :: evs).length ≤ m + k := by
            simp only [List.length_cons]; omega
          have hstep : recv_all_loop len (fuel + 1) total buf w =
              recv_all_loop len fuel (total + m) (buf ++ w.inbound.take m)
                ⟨w.inbound.drop m, w.recvPlan.tail, w.sendPlan,
                  w.trace ++ [.recv (len - total) (m : Int) (w.inbound.take m)]⟩ := by
            have : ¬ ((m : Int) ≤ 0) := by omega
            simp [recv_all_loop, hlt, hrecv, this]
          refine ⟨.recv (len - total) (m : Int) (w.inbound.take m) :: evs, m + k,
            hb1, hb2, hb3, ?_, ?_, ?_⟩
          · simp only [recvBytes, hk4, List.take_add]
          · intro e he
            rcases List.mem_cons.mp he with rfl | he
            · have hlen : (w.inbound.take m).length = m := by
                rw [List.length_take]; exact Nat.min_eq_left hmin
              have hmpos : 0 < m := Nat.pos_of_ne_zero hm0
              simp [recvOk, hlen, hmpos, hmle]
            · exact hk5 e he
          · rcases hk6 with ⟨hk, heq⟩ | ⟨hk, r, hr, hr2, heq⟩
            · refine Or.inl ⟨by omega, ?_⟩
              rw [hstep, heq]
              simp [List.take_add, List.drop_drop, Nat.add_comm]
            · refine Or.inr ⟨by omega, r, hr, ?_, ?_⟩
              · rcases hr2 with h | ⟨h1, h2⟩
                · left
                  have e1 : len - (total + m) - k = len - total - (m + k) := by omega
                  rw [h, e1]
                  simp
                · right
                  refine ⟨h1, ?_⟩
                  have h2' : k = w.inbound.length - m := by simpa using h2
                  omega
              · have e1 : len - (total + m) - k = len - total - (m + k) := by omega
                rw [hstep, heq, e1]
                simp [List.drop_drop, Nat.add_comm]
    · refine ⟨[], 0, by omega, by omega, by simp, by simp [recvBytes], by simp, Or.inl ⟨by omega, ?_⟩⟩
      cases w
      simp [recv_all_loop, hlt]

theorem send_nonpos (buf : List Byte) (w : World) (h : planned w.sendPlan buf.length ≤ 0) :
    send buf w = (planned w.sendPlan buf.length,
      ⟨w.inbound, w.recvPlan, w.sendPlan.tail,
        w.trace ++ [.send buf.length (planned w.sendPlan buf.length) []]⟩) := by
  simp [send, h]

theorem send_pos (buf : List Byte) (w : World) (h : 0 < planned w.sendPlan buf.length) (m : Nat)
    (hm : m = min (planned w.sendPlan buf.length).toNat buf.length) :
    send buf w = ((m : Int),
      ⟨w.inbound, w.recvPlan, w.sendPlan.tail,
        w.trace ++ [.send buf.length (m : Int) (buf.take m)]⟩) := by
  have h1 := (take_min_length buf (planned w.sendPlan buf.length).toNat).1
  have h3 : (buf.take m).length = m := by
    rw [List.length_take]; omega
  simp only [send, not_le.mpr h, if_false]
  rw [← h1, ← hm, h3]

theorem send_all_loop_spec (buf : List Byte) : ∀ (fuel total : Nat) (w : World),
    total ≤ buf.length → buf.length - total ≤ fuel →
    ∃ (evs : List Event) (k : Nat),
      k ≤ buf.length - total ∧ evs.length ≤ k ∧
      sentBytes evs = (buf.drop total).take k ∧ (∀ e ∈ evs, sendOk e = true) ∧
      ((k = buf.length - total ∧
        send_all_loop buf fuel total w =
          .ok () ⟨w.inbound, w.recvPlan, w.sendPlan.drop evs.length, w.trace ++ evs⟩) ∨
       (k < buf.length - total ∧ ∃ r : Int, r ≤ 0 ∧
          r = planned (w.sendPlan.drop evs.length) (buf.length - total - k) ∧
          send_all_loop buf fuel total w =
            .exit 1 ⟨w.inbound, w.recvPlan, w.sendPlan.drop (evs.length + 1),
              w.trace ++ evs ++ [.send (buf.length - total - k) r [], .perror .send]⟩)) := by
  intro fuel
  induction fuel with
  | zero =>
    intro total w h1 h2
    refine ⟨[], 0, by omega, by simp, by simp [sentBytes], by simp, Or.inl ⟨by omega, ?_⟩⟩
    have : ¬ total < buf.length := by omega
    cases w
    simp [send_all_loop, this]
  | succ fuel ih =>
    intro total w h1 h2
    by_cases hlt : total < buf.length
    · have hlen : (buf.drop total).length = buf.length - total := List.length_drop _ _
      by_cases hp : planned w.sendPlan (buf.length - total) ≤ 0
      · refine ⟨[], 0, by omega, by simp, by simp [sentBytes], by simp,
          Or.inr ⟨by omega, planned w.sendPlan (buf.length - total), hp, by simp, ?_⟩⟩
        have hs := send_nonpos (buf.drop total) w (by rw [hlen]; exact hp)
        rw [hlen] at hs
        simp [send_all_loop, hlt, hs, hp, die, World.log, EXIT_FAILURE]
      · have hp' : 0 < planned w.sendPlan (buf.length - total) := by omega
        obtain ⟨m, hm⟩ : ∃ m, m = min (planned w.sendPlan (buf.length - total)).toNat
            (buf.length - total) := ⟨_, rfl⟩
        have hs := send_pos (buf.drop total) w (by rw [hlen]; exact hp') m (by rw [hlen]; exact hm)
        rw [hlen] at hs
        have hmpos : 0 < m := by omega
        have hmle : m ≤ buf.length - total := by omega
        have hstep : send_all_loop buf (fuel + 1) total w =
            send_all_loop buf fuel (total + m)
              ⟨w.inbound, w.recvPlan, w.sendPlan.tail,
                w.trace ++ [.send (buf.length - total) (m : Int) ((buf.drop total).take m)]⟩ := by
          have : ¬ ((m : Int) ≤ 0) := by omega
          simp [send_all_loop, hlt, hs, this]
        clear hm hs
        obtain ⟨evs, k, hk1, hk3, hk4, hk5, hk6⟩ :=
          ih (total + m)
            ⟨w.inbound, w.recvPlan, w.sendPlan.tail,
              w.trace ++ [.send (buf.length - total) (m : Int) ((buf.drop total).take m)]⟩
            (by omega) (by omega)
        have hb1 : m + k ≤ buf.length - total := by omega
        have hb3 : (Event.send (buf.length - total) (m : Int) ((buf.drop total).take m)
            :: evs).length ≤ m + k := by
          simp only [List.length_cons]; omega
        have hlen2 : ((buf.drop total).take m).length = m := by
          rw [List.length_take, hlen]; exact Nat.min_eq_left hmle
        refine ⟨.send (buf.length - total) (m : Int) ((buf.drop total).take m) :: evs, m + k,
          hb1, hb3, ?_, ?_, ?_⟩
        · simp only [sentBytes, hk4, List.take_add, List.drop_drop, Nat.add_comm]
        · intro e he
          rcases List.mem_cons.mp he with rfl | he
          · simp [sendOk, hlen2, hmpos, hmle]
          · exact hk5 e he
        · rcases hk6 with ⟨hk, heq⟩ | ⟨hk, r, hr, hr2, heq⟩
          · refine Or.inl ⟨by omega, ?_⟩
            rw [hstep, heq]
            simp
          · have e1 : buf.length - (total + m) - k = buf.length - total - (m + k) := by omega
            refine Or.inr ⟨by omega, r, hr, ?_, ?_⟩
            · rw [hr2, e1]
              simp
            · rw [hstep, heq, e1]
              simp
    · refine ⟨[], 0, by omega, by simp, by simp [sentBytes], by simp, Or.inl ⟨by omega, ?_⟩⟩
      cases w
      simp [send_all_loop, hlt]

/-! ## Reading a trace: lemmas -/

@[simp] theorem sentBytes_append (a b : List Event) :
    sentBytes (a ++ b) = sentBytes a ++ sentBytes b := by
  induction a with
  | nil => rfl
  | cons e t ih => cases e <;> simp [sentBytes, ih]

@[simp] theorem recvBytes_append (a b : List Event) :
    recvBytes (a ++ b) = recvBytes a ++ recvBytes b := by
  induction a with
  | nil => rfl
  | cons e t ih => cases e <;> simp [recvBytes, ih]

@[simp] theorem closeCount_append (a b : List Event) :
    closeCount (a ++ b) = closeCount a + closeCount b := by
  induction a with
  | nil => simp [closeCount]
  | cons e t ih => cases e <;> simp [closeCount, ih]; omega

@[simp] theorem perrors_append (a b : List Event) :
    perrors (a ++ b) = perrors a ++ perrors b := by
  induction a with
  | nil => rfl
  | cons e t ih => cases e <;> simp [perrors, ih]

@[simp] theorem sentBytes_recvEvents (cs : List (Nat × List Byte)) :
    sentBytes (recvEvents cs) = [] := by
  induction cs with
  | nil => rfl
  | cons c t ih => simpa [recvEvents, sentBytes] using ih

@[simp] theorem closeCount_recvEvents (cs : List (Nat × List Byte)) :
    closeCount (recvEvents cs) = 0 := by
  induction cs with
  | nil => rfl
  | cons c t ih => simpa [recvEvents, closeCount] using ih

@[simp] theorem perrors_recvEvents (cs : List (Nat × List Byte)) :
    perrors (recvEvents cs) = [] := by
  induction cs with
  | nil => rfl
  | cons c t ih => simpa [recvEvents, perrors] using ih

theorem recvBytes_recvEvents (cs : List (Nat × List Byte)) :
    recvBytes (recvEvents cs) = (cs.map Prod.snd).foldr (fun d acc => d ++ acc) [] := by
  induction cs with
  | nil => rfl
  | cons c t ih => simpa [recvEvents, recvBytes] using ih

@[simp] theorem recvBytes_sendEvents (cs : List (Nat × List Byte)) :
    recvBytes (sendEvents cs) = [] := by
  induction cs with
  | nil => rfl
  | cons c t ih => simpa [sendEvents, recvBytes] using ih

@[simp] theorem closeCount_sendEvents (cs : List (Nat × List Byte)) :
    closeCount (sendEvents cs) = 0 := by
  induction cs with
  | nil => rfl
  | cons c t ih => simpa [sendEvents, closeCount] using ih

@[simp] theorem perrors_sendEvents (cs : List (Nat × List Byte)) :
    perrors (sendEvents cs) = [] := by
  induction cs with
  | nil => rfl
  | cons c t ih => simpa [sendEvents, perrors] using ih

theorem sentBytes_sendEvents (cs : List (Nat × List Byte)) :
    sentBytes (sendEvents cs) = (cs.map Prod.snd).foldr (fun d acc => d ++ acc) [] := by
  induction cs with
  | nil => rfl
  | cons c t ih => simpa [sendEvents, sentBytes] using ih

@[simp] theorem recvBytes_of_chunks {cs : List (Nat × List Byte)} {data : List Byte}
    (h : Chunks cs data) : recvBytes (recvEvents cs) = data := by
  rw [recvBytes_recvEvents]; exact h.1

@[simp] theorem sentBytes_of_chunks {cs : List (Nat × List Byte)} {data : List Byte}
    (h : Chunks cs data) : sentBytes (sendEvents cs) = data := by
  rw [sentBytes_sendEvents]; exact h.1

theorem Chunks.length_le {cs : List (Nat × List Byte)} {data : List Byte}
    (h : Chunks cs data) : cs.length ≤ data.length := by
  obtain ⟨h1, h2⟩ := h
  subst h1
  induction cs with
  | nil => simp
  | cons c t ih =>
    have hc := h2 c (List.mem_cons_self _ _)
    have ht := ih (fun c hc => h2 c (List.mem_cons_of_mem _ hc))
    simp only [List.map_cons, List.foldr_cons, List.length_cons, List.length_append]
    omega

theorem exists_recvEvents (evs : List Event) (h : ∀ e ∈ evs, recvOk e = true) :
    ∃ cs, evs = recvEvents cs ∧ ∀ c ∈ cs, 0 < c.2.length ∧ c.2.length ≤ c.1 := by
  induction evs with
  | nil => exact ⟨[], rfl, by simp⟩
  | cons e t ih =>
    obtain ⟨cs, h1, h2⟩ := ih (fun e he => h e (List.mem_cons_of_mem _ he))
    have he := h e (List.mem_cons_self _ _)
    cases e with
    | recv n r d =>
      simp only [recvOk, decide_eq_true_eq] at he
      refine ⟨(n, d) :: cs, ?_, ?_⟩
      · simp [recvEvents, he.1, h1]
      · intro c hc
        rcases List.mem_cons.mp hc with rfl | hc
        · exact he.2
        · exact h2 c hc
    | _ => simp [recvOk] at he

theorem exists_sendEvents (evs : List Event) (h : ∀ e ∈ evs, sendOk e = true) :
    ∃ cs, evs = sendEvents cs ∧ ∀ c ∈ cs, 0 < c.2.length ∧ c.2.length ≤ c.1 := by
  induction evs with
  | nil => exact ⟨[], rfl, by simp⟩
  | cons e t ih =>
    obtain ⟨cs, h1, h2⟩ := ih (fun e he => h e (List.mem_cons_of_mem _ he))
    have he := h e (List.mem_cons_self _ _)
    cases e with
    | send n r d =>
      simp only [sendOk, decide_eq_true_eq] at he
      refine ⟨(n, d) :: cs, ?_, ?_⟩
      · simp [sendEvents, he.1, h1]
      · intro c hc
        rcases List.mem_cons.mp hc with rfl | hc
        · exact he.2
        · exact h2 c hc
    | _ => simp [sendOk] at he

/-! ## The transport calls on small inputs -/

theorem recv_all_in_two_calls :
    recv_all 3 ⟨[1, 2, 3, 4, 5], [2, 7], [], []⟩ =
      .ok [1, 2, 3] ⟨[4, 5], [], [], [.recv 3 2 [1, 2], .recv 1 1 [3]]⟩ := by
  decide

theorem recv_all_dies_on_zero :
    recv_all 3 ⟨[1, 2, 3, 4, 5], [2, 0], [], []⟩ =
      .exit 1 ⟨[3, 4, 5], [], [], [.recv 3 2 [1, 2], .recv 1 0 [], .perror .recv]⟩ := by
  decide

theorem recv_all_dies_at_end_of_stream :
    recv_all 3 ⟨[1, 2], [], [], []⟩ =
      .exit 1 ⟨[], [], [], [.recv 3 2 [1, 2], .recv 1 0 [], .perror .recv]⟩ := by
  decide

theorem send_all_dies_on_error :
    send_all [7, 8] ⟨[], [], [1, -1], []⟩ =
      .exit 1 ⟨[], [], [], [.send 2 1 [7], .send 1 (-1) [], .perror .send]⟩ := by
  decide

/-! ## recv_all and send_all on every transport -/

/-- Every run of `recv_all`: either it returns the next `len` bytes of the
stream, stored by successful calls, or a call returns `r ≤ 0` with `k < len`
bytes stored and the process dies. -/
theorem recv_all_cases (len : Nat) (w : World) :
    (∃ cs, len ≤ w.inbound.length ∧ Chunks cs (w.inbound.take len) ∧
        recv_all len w = .ok (w.inbound.take len) (w.recvd len cs)) ∨
    (∃ cs k r, k < len ∧ k ≤ w.inbound.length ∧ Chunks cs (w.inbound.take k) ∧ r ≤ 0 ∧
        (r = planned (w.recvPlan.drop cs.length) (len - k) ∨ (r = 0 ∧ k = w.inbound.length)) ∧
        recv_all len w = .exit 1 (w.recvDied k cs (len - k) r)) := by
  obtain ⟨evs, k, hk1, hk2, _, hk4, hk5, hk6⟩ :=
    recv_all_loop_spec len len 0 [] w (Nat.zero_le _) (by omega)
  obtain ⟨cs, rfl, hcs⟩ := exists_recvEvents evs hk5
  have hch : Chunks cs (w.inbound.take k) := ⟨by rw [← recvBytes_recvEvents]; exact hk4, hcs⟩
  have hlen : (recvEvents cs).length = cs.length := by simp [recvEvents]
  rcases hk6 with ⟨hk, heq⟩ | ⟨hk, r, hr, hr2, heq⟩
  · left
    have hk' : k = len := by omega
    subst hk'
    refine ⟨cs, hk2, hch, ?_⟩
    simpa [recv_all, World.recvd, hlen] using heq
  · right
    refine ⟨cs, k, r, by omega, hk2, hch, hr, ?_, ?_⟩
    · simpa [hlen] using hr2
    · simpa [recv_all, World.recvDied, hlen] using heq

/-- Every run of `send_all`: either successful calls take all of `buf`, or a
call returns `r ≤ 0` with `k < buf.length` bytes taken and the process dies. -/
theorem send_all_cases (buf : List Byte) (w : World) :
    (∃ cs, Chunks cs buf ∧ send_all buf w = .ok () (w.sent cs)) ∨
    (∃ cs k r, k < buf.length ∧ Chunks cs (buf.take k) ∧ r ≤ 0 ∧
        r = planned (w.sendPlan.drop cs.length) (buf.length - k) ∧
        send_all buf w = .exit 1 (w.sendDied cs (buf.length - k) r)) := by
  obtain ⟨evs, k, hk1, _, hk4, hk5, hk6⟩ :=
    send_all_loop_spec buf buf.length 0 w (Nat.zero_le _) (by omega)
  obtain ⟨cs, rfl, hcs⟩ := exists_sendEvents evs hk5
  have hch : Chunks cs (buf.take k) := ⟨by rw [← sentBytes_sendEvents]; simpa using hk4, hcs⟩
  have hlen : (sendEvents cs).length = cs.length := by simp [sendEvents]
  rcases hk6 with ⟨hk, heq⟩ | ⟨hk, r, hr, hr2, heq⟩
  · left
    have hk' : k = buf.length := by omega
    subst hk'
    refine ⟨cs, by simpa using hch, ?_⟩
    simpa [send_all, World.sent, hlen] using heq
  · right
    refine ⟨cs, k, r, by omega, hch, hr, ?_, ?_⟩
    · simpa [hlen] using hr2
    · simpa [send_all, World.sendDied, hlen] using heq

/-! ## Reading what an observer sees -/

@[simp] theorem outs_nil : outs [] = [] := rfl

@[simp] theorem outs_cons_inp (b : Byte) (t : List Obs) : outs (Obs.inp b :: t) = outs t := rfl

@[simp] theorem outs_cons_out (b : Byte) (t : List Obs) : outs (Obs.out b :: t) = b :: outs t := rfl

@[simp] theorem outs_cons_fail (t : List Obs) : outs (Obs.fail :: t) = outs t := rfl

@[simp] theorem outs_cons_close (t : List Obs) : outs (Obs.close :: t) = outs t := rfl

@[simp] theorem outs_cons_print (r : Report) (t : List Obs) : outs (Obs.print r :: t) = outs t := rfl

@[simp] theorem outs_cons_perror (m : Msg) (t : List Obs) : outs (Obs.perror m :: t) = outs t := rfl

@[simp] theorem outs_cons_malloc (n : Nat) (t : List Obs) : outs (Obs.malloc n :: t) = outs t := rfl

@[simp] theorem outs_cons_rect (r : Rect) (t : List Obs) : outs (Obs.rect r :: t) = outs t := rfl

@[simp] theorem outs_append (a b : List Obs) : outs (a ++ b) = outs a ++ outs b := by
  induction a with
  | nil => rfl
  | cons e t ih => cases e <;> simp [ih]

@[simp] theorem outs_map_inp (l : List Byte) : outs (l.map Obs.inp) = [] := by
  induction l with
  | nil => rfl
  | cons b t ih => simpa using ih

@[simp] theorem outs_map_out (l : List Byte) : outs (l.map Obs.out) = l := by
  induction l with
  | nil => rfl
  | cons b t ih => simpa using ih

@[simp] theorem ins_nil : ins [] = [] := rfl

@[simp] theorem ins_cons_inp (b : Byte) (t : List Obs) : ins (Obs.inp b :: t) = b :: ins t := rfl

@[simp] theorem ins_cons_out (b : Byte) (t : List Obs) : ins (Obs.out b :: t) = ins t := rfl

@[simp] theorem ins_cons_fail (t : List Obs) : ins (Obs.fail :: t) = ins t := rfl

@[simp] theorem ins_cons_close (t : List Obs) : ins (Obs.close :: t) = ins t := rfl

@[simp] theorem ins_cons_print (r : Report) (t : List Obs) : ins (Obs.print r :: t) = ins t := rfl

@[simp] theorem ins_cons_perror (m : Msg) (t : List Obs) : ins (Obs.perror m :: t) = ins t := rfl

@[simp] theorem ins_cons_malloc (n : Nat) (t : List Obs) : ins (Obs.malloc n :: t) = ins t := rfl

@[simp] theorem ins_cons_rect (r : Rect) (t : List Obs) : ins (Obs.rect r :: t) = ins t := rfl

@[simp] theorem ins_append (a b : List Obs) : ins (a ++ b) = ins a ++ ins b := by
  induction a with
  | nil => rfl
  | cons e t ih => cases e <;> simp [ih]

@[simp] theorem ins_map_inp (l : List Byte) : ins (l.map Obs.inp) = l := by
  induction l with
  | nil => rfl
  | cons b t ih => simpa using ih

@[simp] theorem ins_map_out (l : List Byte) : ins (l.map Obs.out) = [] := by
  induction l with
  | nil => rfl
  | cons b t ih => simpa using ih

@[simp] theorem prints_nil : prints [] = [] := rfl

@[simp] theorem prints_cons_inp (b : Byte) (t : List Obs) : prints (Obs.inp b :: t) = prints t := rfl

@[simp] theorem prints_cons_out (b : Byte) (t : List Obs) : prints (Obs.out b :: t) = prints t := rfl

@[simp] theorem prints_cons_fail (t : List Obs) : prints (Obs.fail :: t) = prints t := rfl

@[simp] theorem prints_cons_close (t : List Obs) : prints (Obs.close :: t) = prints t := rfl

@[simp] theorem prints_cons_print (r : Report) (t : List Obs) : prints (Obs.print r :: t) = r :: prints t := rfl

@[simp] theorem prints_cons_perror (m : Msg) (t : List Obs) : prints (Obs.perror m :: t) = prints t := rfl

@[simp] theorem prints_cons_malloc (n : Nat) (t : List Obs) : prints (Obs.malloc n :: t) = prints t := rfl

@[simp] theorem prints_cons_rect (r : Rect) (t : List Obs) : prints (Obs.rect r :: t) = prints t := rfl

@[simp] theorem prints_append (a b : List Obs) : prints (a ++ b) = prints a ++ prints b := by
  induction a with
  | nil => rfl
  | cons e t ih => cases e <;> simp [ih]

@[simp] theorem prints_map_inp (l : List Byte) : prints (l.map Obs.inp) = [] := by
  induction l with
  | nil => rfl
  | cons b t ih => simpa using ih

@[simp] theorem prints_map_out (l : List Byte) : prints (l.map Obs.out) = [] := by
  induction l with
  | nil => rfl
  | cons b t ih => simpa using ih

@[simp] theorem rects_nil : rects [] = [] := rfl

@[simp] theorem rects_cons_inp (b : Byte) (t : List Obs) : rects (Obs.inp b :: t) = rects t := rfl

@[simp] theorem rects_cons_out (b : Byte) (t : List Obs) : rects (Obs.out b :: t) = rects t := rfl

@[simp] theorem rects_cons_fail (t : List Obs) : rects (Obs.fail :: t) = rects t := rfl

@[simp] theorem rects_cons_close (t : List Obs) : rects (Obs.close :: t) = rects t := rfl

@[simp] theorem rects_cons_print (r : Report) (t : List Obs) : rects (Obs.print r :: t) = rects t := rfl

@[simp] theorem rects_cons_perror (m : Msg) (t : List Obs) : rects (Obs.perror m :: t) = rects t := rfl

@[simp] theorem rects_cons_malloc (n : Nat) (t : List Obs) : rects (Obs.malloc n :: t) = rects t := rfl

@[simp] theorem rects_cons_rect (r : Rect) (t : List Obs) : rects (Obs.rect r :: t) = r :: rects t := rfl

@[simp] theorem rects_append (a b : List Obs) : rects (a ++ b) = rects a ++ rects b := by
  induction a with
  | nil => rfl
  | cons e t ih => cases e <;> simp [ih]

@[simp] theorem rects_map_inp (l : List Byte) : rects (l.map Obs.inp) = [] := by
  induction l with
  | nil => rfl
  | cons b t ih => simpa using ih

@[simp] theorem rects_map_out (l : List Byte) : rects (l.map Obs.out) = [] := by
  induction l with
  | nil => rfl
  | cons b t ih => simpa using ih

@[simp] theorem dies_nil : dies [] = [] := rfl

@[simp] theorem dies_cons_inp (b : Byte) (t : List Obs) : dies (Obs.inp b :: t) = dies t := rfl

@[simp] theorem dies_cons_out (b : Byte) (t : List Obs) : dies (Obs.out b :: t) = dies t := rfl

@[simp] theorem dies_cons_fail (t : List Obs) : dies (Obs.fail :: t) = dies t := rfl

@[simp] theorem dies_cons_close (t : List Obs) : dies (Obs.close :: t) = dies t := rfl

@[simp] theorem dies_cons_print (r : Report) (t : List Obs) : dies (Obs.print r :: t) = dies t := rfl

@[simp] theorem dies_cons_perror (m : Msg) (t : List Obs) : dies (Obs.perror m :: t) = m :: dies t := rfl

@[simp] theorem dies_cons_malloc (n : Nat) (t : List Obs) : dies (Obs.malloc n :: t) = dies t := rfl

@[simp] theorem dies_cons_rect (r : Rect) (t : List Obs) : dies (Obs.rect r :: t) = dies t := rfl

@[simp] theorem dies_append (a b : List Obs) : dies (a ++ b) = dies a ++ dies b := by
  induction a with
  | nil => rfl
  | cons e t ih => cases e <;> simp [ih]

@[simp] theorem dies_map_inp (l : List Byte) : dies (l.map Obs.inp) = [] := by
  induction l with
  | nil => rfl
  | cons b t ih => simpa using ih

@[simp] theorem dies_map_out (l : List Byte) : dies (l.map Obs.out) = [] := by
  induction l with
  | nil => rfl
  | cons b t ih => simpa using ih

@[simp] theorem mallocs_nil : mallocs [] = [] := rfl

@[simp] theorem mallocs_cons_inp (b : Byte) (t : List Obs) : mallocs (Obs.inp b :: t) = mallocs t := rfl

@[simp] theorem mallocs_cons_out (b : Byte) (t : List Obs) : mallocs (Obs.out b :: t) = mallocs t := rfl

@[simp] theorem mallocs_cons_fail (t : List Obs) : mallocs (Obs.fail :: t) = mallocs t := rfl

@[simp] theorem mallocs_cons_close (t : List Obs) : mallocs (Obs.close :: t) = mallocs t := rfl

@[simp] theorem mallocs_cons_print (r : Report) (t : List Obs) : mallocs (Obs.print r :: t) = mallocs t := rfl

@[simp] theorem mallocs_cons_perror (m : Msg) (t : List Obs) : mallocs (Obs.perror m :: t) = mallocs t := rfl

@[simp] theorem mallocs_cons_malloc (n : Nat) (t : List Obs) : mallocs (Obs.malloc n :: t) = n :: mallocs t := rfl

@[simp] theorem mallocs_cons_rect (r : Rect) (t : List Obs) : mallocs (Obs.rect r :: t) = mallocs t := rfl

@[simp] theorem mallocs_append (a b : List Obs) : mallocs (a ++ b) = mallocs a ++ mallocs b := by
  induction a with
  | nil => rfl
  | cons e t ih => cases e <;> simp [ih]

@[simp] theorem mallocs_map_inp (l : List Byte) : mallocs (l.map Obs.inp) = [] := by
  induction l with
  | nil => rfl
  | cons b t ih => simpa using ih

@[simp] theorem mallocs_map_out (l : List Byte) : mallocs (l.map Obs.out) = [] := by
  induction l with
  | nil => rfl
  | cons b t ih => simpa using ih

@[simp] theorem closes_nil : closes [] = 0 := rfl

@[simp] theorem closes_cons_inp (b : Byte) (t : List Obs) : closes (Obs.inp b :: t) = closes t := rfl

@[simp] theorem closes_cons_out (b : Byte) (t : List Obs) : closes (Obs.out b :: t) = closes t := rfl

@[simp] theorem closes_cons_fail (t : List Obs) : closes (Obs.fail :: t) = closes t := rfl

@[simp] theorem closes_cons_close (t : List Obs) : closes (Obs.close :: t) = closes t + 1 := rfl

@[simp] theorem closes_cons_print (r : Report) (t : List Obs) : closes (Obs.print r :: t) = closes t := rfl

@[simp] theorem closes_cons_perror (m : Msg) (t : List Obs) : closes (Obs.perror m :: t) = closes t := rfl

@[simp] theorem closes_cons_malloc (n : Nat) (t : List Obs) : closes (Obs.malloc n :: t) = closes t := rfl

@[simp] theorem closes_cons_rect (r : Rect) (t : List Obs) : closes (Obs.rect r :: t) = closes t := rfl

@[simp] theorem closes_append (a b : List Obs) : closes (a ++ b) = closes a + closes b := by
  induction a with
  | nil => simp
  | cons e t ih =>
    cases e <;> simp [ih]
    all_goals omega

@[simp] theorem closes_map_inp (l : List Byte) : closes (l.map Obs.inp) = 0 := by
  induction l with
  | nil => rfl
  | cons b t ih => simpa using ih

@[simp] theorem closes_map_out (l : List Byte) : closes (l.map Obs.out) = 0 := by
  induction l with
  | nil => rfl
  | cons b t ih => simpa using ih

@[simp] theorem fails_nil : fails [] = 0 := rfl

@[simp] theorem fails_cons_inp (b : Byte) (t : List Obs) : fails (Obs.inp b :: t) = fails t := rfl

@[simp] theorem fails_cons_out (b : Byte) (t : List Obs) : fails (Obs.out b :: t) = fails t := rfl

@[simp] theorem fails_cons_fail (t : List Obs) : fails (Obs.fail :: t) = fails t + 1 := rfl

@[simp] theorem fails_cons_close (t : List Obs) : fails (Obs.close :: t) = fails t := rfl

@[simp] theorem fails_cons_print (r : Report) (t : List Obs) : fails (Obs.print r :: t) = fails t := rfl

@[simp] theorem fails_cons_perror (m : Msg) (t : List Obs) : fails (Obs.perror m :: t) = fails t := rfl

@[simp] theorem fails_cons_malloc (n : Nat) (t : List Obs) : fails (Obs.malloc n :: t) = fails t := rfl

@[simp] theorem fails_cons_rect (r : Rect) (t : List Obs) : fails (Obs.rect r :: t) = fails t := rfl

@[simp] theorem fails_append (a b : List Obs) : fails (a ++ b) = fails a + fails b := by
  induction a with
  | nil => simp
  | cons e t ih =>
    cases e <;> simp [ih]
    all_goals omega

@[simp] theorem fails_map_inp (l : List Byte) : fails (l.map Obs.inp) = 0 := by
  induction l with
  | nil => rfl
  | cons b t ih => simpa using ih

@[simp] theorem fails_map_out (l : List Byte) : fails (l.map Obs.out) = 0 := by
  induction l with
  | nil => rfl
  | cons b t ih => simpa using ih

@[simp] theorem observe_append (a b : List Event) :
    observe (a ++ b) = observe a ++ observe b := by
  induction a with
  | nil => rfl
  | cons e t ih => simp [observe, ih]

theorem observe_recvEvents {cs : List (Nat × List Byte)} {data : List Byte}
    (h : Chunks cs data) : observe (recvEvents cs) = data.map Obs.inp := by
  obtain ⟨h1, h2⟩ := h
  subst h1
  induction cs with
  | nil => rfl
  | cons c t ih =>
    have hc := h2 c (List.mem_cons_self _ _)
    have ht := ih (fun c hc => h2 c (List.mem_cons_of_mem _ hc))
    have hpos : ¬ ((c.2.length : Int) ≤ 0) := by omega
    simp only [recvEvents, List.map_cons, observe, Event.observe, hpos, if_false,
      List.foldr_cons, List.map_append]
    rw [← ht]
    rfl

theorem observe_sendEvents {cs : List (Nat × List Byte)} {data : List Byte}
    (h : Chunks cs data) : observe (sendEvents cs) = data.map Obs.out := by
  obtain ⟨h1, h2⟩ := h
  subst h1
  induction cs with
  | nil => rfl
  | cons c t ih =>
    have hc := h2 c (List.mem_cons_self _ _)
    have ht := ih (fun c hc => h2 c (List.mem_cons_of_mem _ hc))
    have hpos : ¬ ((c.2.length : Int) ≤ 0) := by omega
    simp only [sendEvents, List.map_cons, observe, Event.observe, hpos, if_false,
      List.foldr_cons, List.map_append]
    rw [← ht]
    rfl

/-! ## Rules for `Triple` -/

theorem Triple.bind {α β : Type} {P : World → Prop} {m : Proc α} {R : α → World → Prop}
    {f : α → Proc β} {Q : β → World → Prop} {X : Nat → World → Prop}
    (h1 : Triple P m R X) (h2 : ∀ a, Triple (R a) (f a) Q X) : Triple P (m >>= f) Q X := by
  intro w hw
  have h := h1 w hw
  show match Proc.bind m f w with
    | .ok a w1 => Q a w1
    | .exit s w1 => X s w1
    | .fuel _ => False
  unfold Proc.bind
  cases hm : m w with
  | ok a w1 =>
    rw [hm] at h
    exact h2 a w1 h
  | exit s w1 =>
    rw [hm] at h
    exact h
  | fuel w1 =>
    rw [hm] at h
    exact h.elim

theorem Triple.pre {α : Type} {P P' : World → Prop} {m : Proc α} {Q : α → World → Prop}
    {X : Nat → World → Prop} (h : Triple P m Q X) (hp : ∀ w, P' w → P w) :
    Triple P' m Q X :=
  fun w hw => h w (hp w hw)

theorem Triple.post {α : Type} {P : World → Prop} {m : Proc α} {Q Q' : α → World → Prop}
    {X X' : Nat → World → Prop} (h : Triple P m Q X) (hq : ∀ a w, Q a w → Q' a w)
    (hx : ∀ s w, X s w → X' s w) : Triple P m Q' X' := by
  intro w hw
  have := h w hw
  cases hm : m w with
  | ok a w1 => rw [hm] at this; exact hq a w1 this
  | exit s w1 => rw [hm] at this; exact hx s w1 this
  | fuel w1 => rw [hm] at this; exact this.elim

theorem Triple.pure {α : Type} {P : World → Prop} {a : α} {Q : α → World → Prop}
    {X : Nat → World → Prop} (h : ∀ w, P w → Q a w) : Triple P (Proc.pure a) Q X :=
  fun w hw => h w hw

theorem Triple.ret {α : Type} {P : World → Prop} {s : Nat} {Q : α → World → Prop}
    {X : Nat → World → Prop} (h : ∀ w, P w → X s w) : Triple P (ret s) Q X :=
  fun w hw => h w hw

theorem Triple.close {P : World → Prop} {Q : Unit → World → Prop}
    {X : Nat → World → Prop} (h : ∀ w, P w → Q () (w.log .close)) : Triple P close Q X :=
  fun w hw => h w hw

theorem Triple.printf {P : World → Prop} {r : Report} {Q : Unit → World → Prop}
    {X : Nat → World → Prop} (h : ∀ w, P w → Q () (w.log (.print r))) :
    Triple P (printf r) Q X :=
  fun w hw => h w hw

theorem Triple.malloc {P : World → Prop} {n : Nat} {Q : Unit → World → Prop}
    {X : Nat → World → Prop} (h : ∀ w, P w → Q () (w.log (.malloc n))) :
    Triple P (malloc n) Q X :=
  fun w hw => h w hw

theorem Triple.produced {P : World → Prop} {r : Rect} {Q : Unit → World → Prop}
    {X : Nat → World → Prop} (h : ∀ w, P w → Q () (w.log (.rect r))) :
    Triple P (produced r) Q X :=
  fun w hw => h w hw

theorem Triple.ite {α : Type} {P : World → Prop} {c : Prop} [Decidable c] {a b : Proc α}
    {Q : α → World → Prop} {X : Nat → World → Prop}
    (ht : c → Triple P a Q X) (hf : ¬ c → Triple P b Q X) :
    Triple P (if c then a else b) Q X := by
  by_cases h : c
  · simpa [h] using ht h
  · simpa [h] using hf h

theorem Triple.recv_all {P : World → Prop} {len : Nat} {Q : List Byte → World → Prop}
    {X : Nat → World → Prop}
    (hok : ∀ w cs, P w → len ≤ w.inbound.length → Chunks cs (w.inbound.take len) →
      Q (w.inbound.take len) (w.recvd len cs))
    (hdie : ∀ w cs k r, P w → k < len → k ≤ w.inbound.length → Chunks cs (w.inbound.take k) →
      r ≤ 0 → (r = planned (w.recvPlan.drop cs.length) (len - k) ∨ (r = 0 ∧ k = w.inbound.length)) →
      X 1 (w.recvDied k cs (len - k) r)) :
    Triple P (recv_all len) Q X := by
  intro w hw
  rcases recv_all_cases len w with ⟨cs, h1, h2, heq⟩ | ⟨cs, k, r, h1, h2, h3, h4, h5, heq⟩
  · rw [heq]; exact hok w cs hw h1 h2
  · rw [heq]; exact hdie w cs k r hw h1 h2 h3 h4 h5

theorem Triple.send_all {P : World → Prop} {buf : List Byte} {Q : Unit → World → Prop}
    {X : Nat → World → Prop}
    (hok : ∀ w cs, P w → Chunks cs buf → Q () (w.sent cs))
    (hdie : ∀ w cs k r, P w → k < buf.length → Chunks cs (buf.take k) → r ≤ 0 →
      r = planned (w.sendPlan.drop cs.length) (buf.length - k) →
      X 1 (w.sendDied cs (buf.length - k) r)) :
    Triple P (send_all buf) Q X := by
  intro w hw
  rcases send_all_cases buf w with ⟨cs, h2, heq⟩ | ⟨cs, k, r, h1, h3, h4, h5, heq⟩
  · rw [heq]; exact hok w cs hw h2
  · rw [heq]; exact hdie w cs k r hw h1 h3 h4 h5

theorem Triple.weaken {α : Type} {P : World → Prop} {m : Proc α} {Q : α → World → Prop}
    {X : Nat → World → Prop} (h : Triple P m Q (fun _ _ => False)) : Triple P m Q X :=
  h.post (fun _ _ h => h) (fun _ _ h => h.elim)

theorem Triple.and_pre {α : Type} {φ : Prop} {P : World → Prop} {m : Proc α}
    {Q : α → World → Prop} {X : Nat → World → Prop} (h : φ → Triple P m Q X) :
    Triple (fun w => φ ∧ P w) m Q X :=
  fun w hw => h hw.1 w hw.2

/-- A piece that never returns ends the process, in a world satisfying `X`. -/
theorem Triple.exits {α : Type} {P : World → Prop} {m : Proc α} {X : Nat → World → Prop}
    (h : Triple P m (fun _ _ => False) X) (w : World) (hw : P w) :
    ∃ s w1, m w = .exit s w1 ∧ X s w1 := by
  have := h w hw
  cases hm : m w with
  | ok a w1 => rw [hm] at this; exact this.elim
  | exit s w1 => rw [hm] at this; exact ⟨s, w1, rfl, this⟩
  | fuel w1 => rw [hm] at this; exact this.elim

/-! ## Closing the connection -/

theorem open_recv_all (len : Nat) :
    Triple Open (recv_all len) (fun _ w => Open w) ClosedOnce := by
  apply Triple.recv_all
  · intro w cs h _ _
    simpa [Open, World.recvd] using h
  · intro w cs k r h _ _ _ _ _
    right
    simp [World.recvDied, perrors, closeCount, h.1, h.2]

theorem open_send_all (buf : List Byte) :
    Triple Open (send_all buf) (fun _ w => Open w) ClosedOnce := by
  apply Triple.send_all
  · intro w cs h _
    simpa [Open, World.sent] using h
  · intro w cs k r h _ _ _ _
    right
    simp [World.sendDied, perrors, closeCount, h.1, h.2]

theorem open_printf (r : Report) :
    Triple Open (printf r) (fun _ w => Open w) ClosedOnce :=
  Triple.printf (fun w h => by simpa [Open, World.log, closeCount, perrors] using h)

theorem open_malloc (n : Nat) :
    Triple Open (malloc n) (fun _ w => Open w) ClosedOnce :=
  Triple.malloc (fun w h => by simpa [Open, World.log, closeCount, perrors] using h)

theorem open_produced (r : Rect) :
    Triple Open (produced r) (fun _ w => Open w) ClosedOnce :=
  Triple.produced (fun w h => by simpa [Open, World.log, closeCount, perrors] using h)

theorem open_close_ret (s : Nat) :
    Triple Open (close >>= fun _ => (ret s : Proc Unit)) (fun _ _ => False) ClosedOnce := by
  refine Triple.bind (R := fun _ w => perrors w.trace = [] ∧ closeCount w.trace = 1) ?_ ?_
  · exact Triple.close (fun w h => by simpa [Open, World.log, closeCount, perrors] using h.symm)
  · intro _
    exact Triple.ret (fun w h => Or.inl h)

theorem open_rect_loop (hostLE : Bool) : ∀ (todo i : Nat),
    Triple Open (rect_loop hostLE todo i) (fun _ w => Open w) ClosedOnce := by
  intro todo
  induction todo with
  | zero => intro i; exact Triple.pure (fun w h => h)
  | succ todo ih =>
    intro i
    unfold rect_loop
    apply Triple.bind (open_recv_all _); intro _
    apply Triple.bind (open_recv_all _); intro _
    apply Triple.bind (open_recv_all _); intro _
    apply Triple.bind (open_recv_all _); intro _
    apply Triple.bind (open_recv_all _); intro _
    apply Triple.bind (open_printf _); intro _
    apply Triple.bind (open_malloc _); intro _
    apply Triple.bind (open_recv_all _); intro _
    apply Triple.bind (open_printf _); intro _
    apply Triple.bind (open_produced _); intro _
    exact ih _

theorem open_handshake (hostLE : Bool) :
    Triple Open (handshake hostLE) (fun _ w => Open w) ClosedOnce := by
  unfold handshake
  apply Triple.bind (open_recv_all _); intro _
  apply Triple.bind (open_printf _); intro _
  apply Triple.bind (open_send_all _); intro _
  apply Triple.bind (open_recv_all _); intro _
  exact Triple.pure (fun w h => h)

theorem open_rejected (hostLE : Bool) :
    Triple Open (rejected hostLE) (fun _ _ => False) ClosedOnce := by
  unfold rejected
  apply Triple.bind (open_recv_all _); intro _
  apply Triple.bind (open_malloc _); intro _
  apply Triple.bind (open_recv_all _); intro _
  apply Triple.bind (open_printf _); intro _
  exact open_close_ret _

theorem open_init (hostLE : Bool) :
    Triple Open (init hostLE) (fun _ w => Open w) ClosedOnce := by
  unfold init
  apply Triple.bind (open_send_all _); intro _
  apply Triple.bind (open_recv_all _); intro _
  apply Triple.bind (open_recv_all _); intro _
  apply Triple.bind (open_printf _); intro _
  apply Triple.bind (open_recv_all _); intro _
  apply Triple.bind (open_recv_all _); intro _
  apply Triple.bind (open_malloc _); intro _
  apply Triple.bind (open_recv_all _); intro _
  apply Triple.bind (open_printf _); intro _
  exact Triple.pure (fun w h => h)

theorem open_read_update (hostLE : Bool) :
    Triple Open (read_update hostLE) (fun _ _ => False) ClosedOnce := by
  unfold read_update
  apply Triple.bind (open_recv_all _); intro _
  apply Triple.ite <;> intro _
  · apply Triple.bind (open_printf _); intro _
    exact open_close_ret _
  · apply Triple.bind (open_recv_all _); intro _
    apply Triple.bind (open_recv_all _); intro _
    apply Triple.bind (open_printf _); intro _
    apply Triple.bind (open_rect_loop _ _ _); intro _
    exact open_close_ret _

theorem session_closes (hostLE : Bool) :
    Triple Open (session hostLE) (fun _ _ => False) ClosedOnce := by
  unfold session
  apply Triple.bind (open_handshake _); intro _
  apply Triple.ite <;> intro _
  · exact open_rejected _
  · apply Triple.bind (open_printf _); intro _
    apply Triple.bind (open_init _); intro _
    apply Triple.bind (open_send_all _); intro _
    exact open_read_update _

/-! ## Steps of a walk through the program -/

theorem planned_pos (plan : List Int) (n : Nat) (hn : 0 < n) (h : ∀ k ∈ plan, 0 < k) :
    0 < planned plan n := by
  cases plan with
  | nil => simp [planned]; exact hn
  | cons k t => simpa [planned] using h k (List.mem_cons_self _ _)

theorem Good.recvd {w : World} (h : Good w) (k : Nat) (cs : List (Nat × List Byte)) :
    Good (w.recvd k cs) :=
  ⟨fun x hx => h.1 x (List.mem_of_mem_drop hx), h.2⟩

theorem Good.sent {w : World} (h : Good w) (cs : List (Nat × List Byte)) :
    Good (w.sent cs) :=
  ⟨h.1, fun x hx => h.2 x (List.mem_of_mem_drop hx)⟩

theorem Good.log {w : World} (h : Good w) (e : Event) : Good (w.log e) := h

theorem at_recv_all {β : Type} {inb : List Byte} {obs : List Obs} {len : Nat}
    {f : List Byte → Proc β} {Q : β → World → Prop} {X : Nat → World → Prop}
    (hok : len ≤ inb.length →
      Triple (At (inb.drop len) (obs ++ (inb.take len).map .inp)) (f (inb.take len)) Q X)
    (hdie : ∀ k, k < len → k ≤ inb.length → ∀ w,
      At (inb.drop k) (obs ++ (inb.take k).map .inp ++ [.fail, .perror .recv]) w → X 1 w) :
    Triple (At inb obs) (recv_all len >>= f) Q X := by
  refine Triple.bind (R := fun a w => len ≤ inb.length ∧ a = inb.take len ∧
    At (inb.drop len) (obs ++ (inb.take len).map .inp) w) ?_ ?_
  · apply Triple.recv_all
    · intro w cs hw hlen hcs
      obtain ⟨h1, h2⟩ := hw
      subst h1
      refine ⟨hlen, rfl, rfl, ?_⟩
      simp [World.recvd, h2, observe_recvEvents hcs]
    · intro w cs k r hw hk hk2 hcs hr _
      obtain ⟨h1, h2⟩ := hw
      subst h1
      apply hdie k hk hk2
      refine ⟨rfl, ?_⟩
      simp [World.recvDied, h2, observe_recvEvents hcs, observe, Event.observe, hr]
  · intro a w hw
    obtain ⟨h1, h2, h3⟩ := hw
    subst h2
    exact hok h1 w h3

theorem at_send_all {β : Type} {inb : List Byte} {obs : List Obs} {buf : List Byte}
    {f : Unit → Proc β} {Q : β → World → Prop} {X : Nat → World → Prop}
    (hok : Triple (At inb (obs ++ buf.map .out)) (f ()) Q X)
    (hdie : ∀ k, k < buf.length → ∀ w,
      At inb (obs ++ (buf.take k).map .out ++ [.fail, .perror .send]) w → X 1 w) :
    Triple (At inb obs) (send_all buf >>= f) Q X := by
  refine Triple.bind (R := fun _ w => At inb (obs ++ buf.map .out) w) ?_ ?_
  · apply Triple.send_all
    · intro w cs hw hcs
      obtain ⟨h1, h2⟩ := hw
      refine ⟨h1, ?_⟩
      simp [World.sent, h2, observe_sendEvents hcs]
    · intro w cs k r hw hk hcs hr _
      obtain ⟨h1, h2⟩ := hw
      apply hdie k hk
      refine ⟨h1, ?_⟩
      simp [World.sendDied, h2, observe_sendEvents hcs, observe, Event.observe, hr]
  · intro a
    exact hok

theorem at_log {β : Type} {inb : List Byte} {obs : List Obs} {e : Event} {m : Proc Unit}
    {f : Unit → Proc β} {Q : β → World → Prop} {X : Nat → World → Prop}
    (hm : ∀ w, m w = .ok () (w.log e))
    (hok : Triple (At inb (obs ++ e.observe)) (f ()) Q X) :
    Triple (At inb obs) (m >>= f) Q X := by
  refine Triple.bind (R := fun _ w => At inb (obs ++ e.observe) w) ?_ (fun _ => hok)
  intro w hw
  rw [hm]
  exact ⟨hw.1, by simp [World.log, hw.2, observe]⟩

theorem at_printf {β : Type} {inb : List Byte} {obs : List Obs} {r : Report}
    {f : Unit → Proc β} {Q : β → World → Prop} {X : Nat → World → Prop}
    (hok : Triple (At inb (obs ++ [.print r])) (f ()) Q X) :
    Triple (At inb obs) (printf r >>= f) Q X :=
  at_log (e := .print r) (fun _ => rfl) hok

theorem at_malloc {β : Type} {inb : List Byte} {obs : List Obs} {n : Nat}
    {f : Unit → Proc β} {Q : β → World → Prop} {X : Nat → World → Prop}
    (hok : Triple (At inb (obs ++ [.malloc n])) (f ()) Q X) :
    Triple (At inb obs) (malloc n >>= f) Q X :=
  at_log (e := .malloc n) (fun _ => rfl) hok

theorem at_produced {β : Type} {inb : List Byte} {obs : List Obs} {r : Rect}
    {f : Unit → Proc β} {Q : β → World → Prop} {X : Nat → World → Prop}
    (hok : Triple (At inb (obs ++ [.rect r])) (f ()) Q X) :
    Triple (At inb obs) (produced r >>= f) Q X :=
  at_log (e := .rect r) (fun _ => rfl) hok

theorem at_close {β : Type} {inb : List Byte} {obs : List Obs}
    {f : Unit → Proc β} {Q : β → World → Prop} {X : Nat → World → Prop}
    (hok : Triple (At inb (obs ++ [.close])) (f ()) Q X) :
    Triple (At inb obs) (close >>= f) Q X :=
  at_log (e := .close) (fun _ => rfl) hok

/-! The same steps on a transport that never fails. -/

theorem atg_recv_all {β : Type} {inb : List Byte} {obs : List Obs} {len : Nat}
    {f : List Byte → Proc β} {Q : β → World → Prop} {X : Nat → World → Prop}
    (hok : len ≤ inb.length →
      Triple (AtG (inb.drop len) (obs ++ (inb.take len).map .inp)) (f (inb.take len)) Q X)
    (heof : inb.length < len → ∀ w,
      At [] (obs ++ inb.map .inp ++ [.fail, .perror .recv]) w → X 1 w) :
    Triple (AtG inb obs) (recv_all len >>= f) Q X := by
  refine Triple.bind (R := fun a w => len ≤ inb.length ∧ a = inb.take len ∧
    AtG (inb.drop len) (obs ++ (inb.take len).map .inp) w) ?_ ?_
  · apply Triple.recv_all
    · intro w cs hw hlen hcs
      obtain ⟨hg, h1, h2⟩ := hw
      subst h1
      refine ⟨hlen, rfl, hg.recvd _ _, rfl, ?_⟩
      simp [World.recvd, h2, observe_recvEvents hcs]
    · intro w cs k r hw hk hk2 hcs hr hr2
      obtain ⟨hg, h1, h2⟩ := hw
      subst h1
      have hkeq : k = w.inbound.length := by
        rcases hr2 with h | ⟨_, h⟩
        · have := planned_pos (w.recvPlan.drop cs.length) (len - k) (by omega)
            (fun x hx => hg.1 x (List.mem_of_mem_drop hx))
          omega
        · exact h
      subst hkeq
      apply heof hk
      refine ⟨by simp [World.recvDied], ?_⟩
      simp [World.recvDied, h2, observe_recvEvents hcs, observe, Event.observe, hr]
  · intro a w hw
    obtain ⟨h1, h2, h3⟩ := hw
    subst h2
    exact hok h1 w h3

theorem atg_send_all {β : Type} {inb : List Byte} {obs : List Obs} {buf : List Byte}
    {f : Unit → Proc β} {Q : β → World → Prop} {X : Nat → World → Prop}
    (hok : Triple (AtG inb (obs ++ buf.map .out)) (f ()) Q X) :
    Triple (AtG inb obs) (send_all buf >>= f) Q X := by
  refine Triple.bind (R := fun _ w => AtG inb (obs ++ buf.map .out) w) ?_ (fun _ => hok)
  apply Triple.send_all
  · intro w cs hw hcs
    obtain ⟨hg, h1, h2⟩ := hw
    refine ⟨hg.sent _, h1, ?_⟩
    simp [World.sent, h2, observe_sendEvents hcs]
  · intro w cs k r hw hk hcs hr hr2
    obtain ⟨hg, h1, h2⟩ := hw
    have := planned_pos (w.sendPlan.drop cs.length) (buf.length - k) (by omega)
      (fun x hx => hg.2 x (List.mem_of_mem_drop hx))
    omega

theorem atg_log {β : Type} {inb : List Byte} {obs : List Obs} {e : Event} {m : Proc Unit}
    {f : Unit → Proc β} {Q : β → World → Prop} {X : Nat → World → Prop}
    (hm : ∀ w, m w = .ok () (w.log e))
    (hok : Triple (AtG inb (obs ++ e.observe)) (f ()) Q X) :
    Triple (AtG inb obs) (m >>= f) Q X := by
  refine Triple.bind (R := fun _ w => AtG inb (obs ++ e.observe) w) ?_ (fun _ => hok)
  intro w hw
  rw [hm]
  exact ⟨hw.1.log e, hw.2.1, by simp [World.log, hw.2.2, observe]⟩

theorem atg_printf {β : Type} {inb : List Byte} {obs : List Obs} {r : Report}
    {f : Unit → Proc β} {Q : β → World → Prop} {X : Nat → World → Prop}
    (hok : Triple (AtG inb (obs ++ [.print r])) (f ()) Q X) :
    Triple (AtG inb obs) (printf r >>= f) Q X :=
  atg_log (e := .print r) (fun _ => rfl) hok

theorem atg_malloc {β : Type} {inb : List Byte} {obs : List Obs} {n : Nat}
    {f : Unit → Proc β} {Q : β → World → Prop} {X : Nat → World → Prop}
    (hok : Triple (AtG inb (obs ++ [.malloc n])) (f ()) Q X) :
    Triple (AtG inb obs) (malloc n >>= f) Q X :=
  atg_log (e := .malloc n) (fun _ => rfl) hok

theorem atg_produced {β : Type} {inb : List Byte} {obs : List Obs} {r : Rect}
    {f : Unit → Proc β} {Q : β → World → Prop} {X : Nat → World → Prop}
    (hok : Triple (AtG inb (obs ++ [.rect r])) (f ()) Q X) :
    Triple (AtG inb obs) (produced r >>= f) Q X :=
  atg_log (e := .rect r) (fun _ => rfl) hok

theorem atg_close {β : Type} {inb : List Byte} {obs : List Obs}
    {f : Unit → Proc β} {Q : β → World → Prop} {X : Nat → World → Prop}
    (hok : Triple (AtG inb (obs ++ [.close])) (f ()) Q X) :
    Triple (AtG inb obs) (close >>= f) Q X :=
  atg_log (e := .close) (fun _ => rfl) hok

/-! ## Steps that keep an invariant of the observation -/

theorem inv_recv_all {I : List Obs → Prop} {X : Nat → World → Prop} (h : Inv I X) (len : Nat) :
    Triple (Sees I) (recv_all len) (fun _ w => Sees I w) X := by
  apply Triple.recv_all
  · intro w cs hw _ hcs
    show I (observe (w.recvd len cs).trace)
    simp only [World.recvd, observe_append, observe_recvEvents hcs]
    exact h.inp _ _ hw
  · intro w cs k r hw _ _ hcs hr _
    apply h.die_recv _ (w.inbound.take k) _ hw
    simp [World.recvDied, observe_recvEvents hcs, observe, Event.observe, hr]

theorem inv_recv_all_length {I : List Obs → Prop} {X : Nat → World → Prop} (h : Inv I X)
    (len : Nat) :
    Triple (Sees I) (recv_all len) (fun a w => a.length = len ∧ Sees I w) X := by
  apply Triple.recv_all
  · intro w cs hw hlen hcs
    refine ⟨by rw [List.length_take]; exact Nat.min_eq_left hlen, ?_⟩
    show I (observe (w.recvd len cs).trace)
    simp only [World.recvd, observe_append, observe_recvEvents hcs]
    exact h.inp _ _ hw
  · intro w cs k r hw _ _ hcs hr _
    apply h.die_recv _ (w.inbound.take k) _ hw
    simp [World.recvDied, observe_recvEvents hcs, observe, Event.observe, hr]

theorem inv_send_all {I : List Obs → Prop} {X : Nat → World → Prop} (h : InvSend I X)
    (buf : List Byte) :
    Triple (Sees I) (send_all buf) (fun _ w => Sees I w) X := by
  apply Triple.send_all
  · intro w cs hw hcs
    show I (observe (w.sent cs).trace)
    simp only [World.sent, observe_append, observe_sendEvents hcs]
    exact h.out _ _ hw
  · intro w cs k r hw _ hcs hr _
    apply h.die_send _ (buf.take k) _ hw
    simp [World.sendDied, observe_sendEvents hcs, observe, Event.observe, hr]

theorem inv_malloc {I : List Obs → Prop} {X : Nat → World → Prop} (h : Inv I X) (n : Nat) :
    Triple (Sees I) (malloc n) (fun _ w => Sees I w) X := by
  intro w hw
  show I (observe (w.log (.malloc n)).trace)
  simp only [World.log, observe_append, observe, Event.observe, List.append_nil]
  exact h.malloc _ _ hw

theorem inv_printf {I J : List Obs → Prop} {X : Nat → World → Prop} (r : Report)
    (h : ∀ obs, I obs → J (obs ++ [Obs.print r])) :
    Triple (Sees I) (printf r) (fun _ w => Sees J w) X := by
  intro w hw
  show J (observe (w.log (.print r)).trace)
  simp only [World.log, observe_append, observe, Event.observe, List.append_nil]
  exact h _ hw

theorem inv_produced {I J : List Obs → Prop} {X : Nat → World → Prop} (r : Rect)
    (h : ∀ obs, I obs → J (obs ++ [Obs.rect r])) :
    Triple (Sees I) (produced r) (fun _ w => Sees J w) X := by
  intro w hw
  show J (observe (w.log (.rect r)).trace)
  simp only [World.log, observe_append, observe, Event.observe, List.append_nil]
  exact h _ hw

theorem inv_close {I J : List Obs → Prop} {X : Nat → World → Prop}
    (h : ∀ obs, I obs → J (obs ++ [Obs.close])) :
    Triple (Sees I) close (fun _ w => Sees J w) X := by
  intro w hw
  show J (observe (w.log .close).trace)
  simp only [World.log, observe_append, observe, Event.observe, List.append_nil]
  exact h _ hw

theorem inv_close_ret {I : List Obs → Prop} {X : Nat → World → Prop} (s : Nat)
    (hx : ∀ w obs, I obs → observe w.trace = obs ++ [Obs.close] → X s w) :
    Triple (Sees I) (close >>= fun _ => (ret s : Proc Unit)) (fun _ _ => False) X := by
  intro w hw
  show X s (w.log .close)
  apply hx _ _ hw
  simp [World.log, observe, Event.observe]

/-! ## The exit status -/

theorem Early.not_completed {obs : List Obs} (h : Early obs) : ¬ Completed obs := by
  rintro ⟨n, hn, _⟩
  have := h.2.2.2 _ hn
  simp [Report.early] at this

theorem InLoop.count {n i m : Nat} {obs : List Obs} (h : InLoop n i obs)
    (hm : Report.numRects m ∈ prints obs) : m = n := by
  rcases h.2.2.2.2.1 _ hm with h1 | h1 | h1
  · simp [Report.early] at h1
  · simp [Report.inLoop] at h1
  · simpa using h1

theorem inv_early : Inv Early ExitCode where
  inp := fun obs l h => by simpa [Early] using h
  malloc := fun obs n h => by simpa [Early] using h
  die_recv := fun obs l w h hw => by
    have hc : ¬ Completed (obs ++ l.map Obs.inp ++ [Obs.fail, Obs.perror Msg.recv]) := by
      rintro ⟨n, hn, _⟩
      have := h.2.2.2 (Report.numRects n) (by simpa using hn)
      simp [Report.early] at this
    unfold ExitCode
    rw [hw]
    exact ⟨Or.inr rfl, ⟨fun h => absurd h (by decide), fun h => absurd h hc⟩,
      fun _ => rfl, fun _ => rfl, fun _ => rfl, fun _ => rfl, fun h => absurd h (by decide)⟩

theorem send_early : InvSend Early ExitCode where
  out := fun obs l h => by simpa [Early] using h
  die_send := fun obs l w h hw => by
    have hc : ¬ Completed (obs ++ l.map Obs.out ++ [Obs.fail, Obs.perror Msg.send]) := by
      rintro ⟨n, hn, _⟩
      have := h.2.2.2 (Report.numRects n) (by simpa using hn)
      simp [Report.early] at this
    unfold ExitCode
    rw [hw]
    exact ⟨Or.inr rfl, ⟨fun h => absurd h (by decide), fun h => absurd h hc⟩,
      fun _ => rfl, fun _ => rfl, fun _ => rfl, fun _ => rfl, fun h => absurd h (by decide)⟩

theorem inv_inLoop {n i : Nat} (hi : i < n) : Inv (InLoop n i) ExitCode where
  inp := fun obs l h => by simpa [InLoop, Whole] using h
  malloc := fun obs n h => by simpa [InLoop, Whole] using h
  die_recv := fun obs l w h hw => by
    have hc : ¬ Completed (obs ++ l.map Obs.inp ++ [Obs.fail, Obs.perror Msg.recv]) := by
      rintro ⟨m, hm, hr⟩
      have hmn := h.count (m := m) (by simpa using hm)
      have := h.2.2.1
      simp at hr
      omega
    unfold ExitCode
    rw [hw]
    exact ⟨Or.inr rfl, ⟨fun h => absurd h (by decide), fun h => absurd h hc⟩,
      fun _ => rfl, fun _ => rfl, fun _ => rfl, fun _ => rfl, fun h => absurd h (by decide)⟩

theorem early_print {r : Report} (hr : r.early = true) (obs : List Obs) (h : Early obs) :
    Early (obs ++ [Obs.print r]) := by
  obtain ⟨h1, h2, h3, h4⟩ := h
  refine ⟨by simpa using h1, by simpa using h2, by simpa using h3, ?_⟩
  intro x hx
  simp at hx
  rcases hx with hx | rfl
  · exact h4 x hx
  · exact hr

theorem inLoop_print {n i : Nat} {r : Report} (hr : r.inLoop = true) (obs : List Obs)
    (h : InLoop n i obs) : InLoop n i (obs ++ [Obs.print r]) := by
  obtain ⟨h1, h2, h3, h4, h5, h6⟩ := h
  refine ⟨by simpa using h1, by simpa using h2, by simpa using h3, by simp [h4], ?_,
    by simpa [Whole] using h6⟩
  intro x hx
  simp at hx
  rcases hx with hx | rfl
  · exact h5 x hx
  · exact Or.inr (Or.inl hr)

theorem exit_rect_loop (hostLE : Bool) (n : Nat) : ∀ (todo i : Nat), i + todo = n →
    Triple (Sees (InLoop n i)) (rect_loop hostLE todo i) (fun _ w => Sees (InLoop n n) w)
      ExitCode := by
  intro todo
  induction todo with
  | zero =>
    intro i hi
    have : i = n := by omega
    subst this
    exact Triple.pure (fun w h => h)
  | succ todo ih =>
    intro i hi
    have hlt : i < n := by omega
    unfold rect_loop
    apply Triple.bind (inv_recv_all (inv_inLoop hlt) _); intro _
    apply Triple.bind (inv_recv_all (inv_inLoop hlt) _); intro _
    apply Triple.bind (inv_recv_all (inv_inLoop hlt) _); intro _
    apply Triple.bind (inv_recv_all (inv_inLoop hlt) _); intro _
    apply Triple.bind (inv_recv_all (inv_inLoop hlt) _); intro _
    apply Triple.bind (inv_printf _ (inLoop_print (n := n) (i := i) (by rfl))); intro _
    apply Triple.bind (inv_malloc (inv_inLoop hlt) _); intro _
    apply Triple.bind (inv_recv_all_length (inv_inLoop hlt) _); intro pixel_data
    apply Triple.and_pre
    intro hlen
    apply Triple.bind (inv_printf _ (inLoop_print (n := n) (i := i) (by rfl))); intro _
    apply Triple.bind (inv_produced (J := InLoop n (i + 1)) _ ?_); intro _
    · exact ih (i + 1) (by omega)
    · intro obs h
      obtain ⟨h1, h2, h3, h4, h5, h6⟩ := h
      refine ⟨by simpa using h1, by simpa using h2, by simp [h3], by simpa using h4,
        by simpa using h5, ?_⟩
      intro r hr
      simp only [rects_append, rects_cons_rect, rects_nil, List.mem_append,
        List.mem_singleton] at hr
      rcases hr with hr | rfl
      · exact h6 r hr
      · exact hlen

theorem exit_handshake (hostLE : Bool) :
    Triple (Sees Early) (handshake hostLE) (fun _ w => Sees Early w) ExitCode := by
  unfold handshake
  apply Triple.bind (inv_recv_all inv_early _); intro _
  apply Triple.bind (inv_printf _ (early_print (by rfl))); intro _
  apply Triple.bind (inv_send_all send_early _); intro _
  apply Triple.bind (inv_recv_all inv_early _); intro _
  exact Triple.pure (fun w h => h)

theorem exit_init (hostLE : Bool) :
    Triple (Sees Early) (init hostLE) (fun _ w => Sees Early w) ExitCode := by
  unfold init
  apply Triple.bind (inv_send_all send_early _); intro _
  apply Triple.bind (inv_recv_all inv_early _); intro _
  apply Triple.bind (inv_recv_all inv_early _); intro _
  apply Triple.bind (inv_printf _ (early_print (by rfl))); intro _
  apply Triple.bind (inv_recv_all inv_early _); intro _
  apply Triple.bind (inv_recv_all inv_early _); intro _
  apply Triple.bind (inv_malloc inv_early _); intro _
  apply Triple.bind (inv_recv_all inv_early _); intro _
  apply Triple.bind (inv_printf _ (early_print (by rfl))); intro _
  exact Triple.pure (fun w h => h)

theorem exit_verdict (r : Report) (hr : ∀ n, r ≠ Report.numRects n) :
    Triple (Sees Early)
      (printf r >>= fun _ => close >>= fun _ => (ret 1 : Proc Unit)) (fun _ _ => False)
      ExitCode := by
  apply Triple.bind
    (inv_printf (J := fun o => ∃ obs, Early obs ∧ o = obs ++ [Obs.print r]) r
      (fun obs h => ⟨obs, h, rfl⟩))
  intro _
  apply inv_close_ret
  rintro w _ ⟨obs, h, rfl⟩ hw
  have hc : ¬ Completed (obs ++ [Obs.print r] ++ [Obs.close]) := by
    rintro ⟨n, hn, _⟩
    simp at hn
    rcases hn with hn | hn
    · have := h.2.2.2 _ hn
      simp [Report.early] at this
    · exact hr n hn.symm
  obtain ⟨h1, h2, _, _⟩ := h
  unfold ExitCode
  rw [hw]
  exact ⟨Or.inr rfl, ⟨fun h => absurd h (by decide), fun h => absurd h hc⟩,
    fun _ => rfl, fun _ => rfl, fun _ => rfl, fun _ => rfl, fun h => absurd h (by decide)⟩

theorem exit_rejected (hostLE : Bool) :
    Triple (Sees Early) (rejected hostLE) (fun _ _ => False) ExitCode := by
  unfold rejected
  apply Triple.bind (inv_recv_all inv_early _); intro _
  apply Triple.bind (inv_malloc inv_early _); intro _
  apply Triple.bind (inv_recv_all inv_early _); intro _
  exact exit_verdict _ (by simp)

theorem exit_read_update (hostLE : Bool) :
    Triple (Sees Early) (read_update hostLE) (fun _ _ => False) ExitCode := by
  unfold read_update
  apply Triple.bind (inv_recv_all inv_early _); intro _
  apply Triple.ite <;> intro _
  · exact exit_verdict _ (by simp)
  · apply Triple.bind (inv_recv_all inv_early _); intro _
    apply Triple.bind (inv_recv_all inv_early _); intro num_rects0
    apply Triple.bind
      (inv_printf (J := InLoop (ntohs hostLE (load hostLE num_rects0)) 0) _ ?_)
    · intro _
      apply Triple.bind (exit_rect_loop hostLE _ _ 0 (by omega)); intro _
      apply inv_close_ret
      intro w obs h hw
      obtain ⟨h1, h2, h3, h4, h5, h6⟩ := h
      have hc : Completed (obs ++ [Obs.close]) := ⟨_, by simpa using h4, by simpa using h3⟩
      have hwhole : Whole (obs ++ [Obs.close]) := by simpa [Whole] using h6
      have hv1 : ∀ t, Report.connectionFailed t ∉ prints obs := by
        intro t ht
        rcases h5 _ ht with h | h | h <;> simp [Report.early, Report.inLoop] at h
      have hv2 : ∀ t, Report.unexpectedType t ∉ prints obs := by
        intro t ht
        rcases h5 _ ht with h | h | h <;> simp [Report.early, Report.inLoop] at h
      simp [ExitCode, hw, hc, h1, h2, hv1, hv2, hwhole]
    · intro obs h
      obtain ⟨h1, h2, h3, h4⟩ := h
      refine ⟨by simpa using h1, by simpa using h2, by simp [h3], by simp, ?_,
        by simp [Whole, h3]⟩
      intro x hx
      simp at hx
      rcases hx with hx | rfl
      · exact Or.inl (h4 x hx)
      · exact Or.inr (Or.inr rfl)

theorem exit_session (hostLE : Bool) :
    Triple (Sees Early) (session hostLE) (fun _ _ => False) ExitCode := by
  unfold session
  apply Triple.bind (exit_handshake _); intro _
  apply Triple.ite <;> intro _
  · exact exit_rejected _
  · apply Triple.bind (inv_printf _ (early_print (by rfl))); intro _
    apply Triple.bind (exit_init _); intro _
    apply Triple.bind (inv_send_all send_early _); intro _
    exact exit_read_update _

/-! ## Byte order: lemmas -/

theorem ntohs_load (hostLE : Bool) (bs : List Byte) (h : bs.length = 2) :
    ntohs hostLE (load hostLE bs) = loadBE bs := by
  match bs, h with
  | [a, b], _ =>
    have ha := a.isLt
    have hb := b.isLt
    cases hostLE
    · simp only [ntohs, load, loadBE, List.foldl, Bool.false_eq_true, if_false]
      omega
    · simp only [ntohs, load, loadLE, loadBE, List.foldl, bswap16, if_true]
      omega

theorem ntohl_load (hostLE : Bool) (bs : List Byte) (h : bs.length = 4) :
    ntohl hostLE (load hostLE bs) = loadBE bs := by
  match bs, h with
  | [a, b, c, d], _ =>
    have ha := a.isLt
    have hb := b.isLt
    have hc := c.isLt
    have hd := d.isLt
    cases hostLE
    · simp only [ntohl, load, loadBE, List.foldl, Bool.false_eq_true, if_false]
      omega
    · simp only [ntohl, load, loadLE, loadBE, List.foldl, bswap32, if_true]
      have h1 : (a.val + 256 * (b.val + 256 * (c.val + 256 * (d.val + 256 * 0)))) % 256
          = a.val := by omega
      have h2 : (a.val + 256 * (b.val + 256 * (c.val + 256 * (d.val + 256 * 0)))) / 256 % 256
          = b.val := by omega
      have h3 : (a.val + 256 * (b.val + 256 * (c.val + 256 * (d.val + 256 * 0)))) / 65536 % 256
          = c.val := by omega
      have h4 : (a.val + 256 * (b.val + 256 * (c.val + 256 * (d.val + 256 * 0)))) / 16777216
          % 256 = d.val := by omega
      rw [h1, h2, h3, h4]
      omega

theorem load_one (hostLE : Bool) (b : Byte) : load hostLE [b] = b.val := by
  cases hostLE <;> simp [load, loadLE, loadBE]

theorem loadBE_lt_two (bs : List Byte) (h : bs.length = 2) : loadBE bs < 65536 := by
  match bs, h with
  | [a, b], _ =>
    have ha := a.isLt
    have hb := b.isLt
    simp only [loadBE, List.foldl]
    omega

theorem loadBE_lt_four (bs : List Byte) (h : bs.length = 4) : loadBE bs < 4294967296 := by
  match bs, h with
  | [a, b, c, d], _ =>
    have ha := a.isLt
    have hb := b.isLt
    have hc := c.isLt
    have hd := d.isLt
    simp only [loadBE, List.foldl]
    omega

/-- The bytes of `htons(v)` stored in a 16-bit object are the big-endian
encoding of `v`, on either host. -/
theorem store16_htons (hostLE : Bool) (v : Nat) (h : v < 65536) :
    store16 hostLE (htons hostLE v) = [lowByte (v / 256), lowByte v] := by
  cases hostLE
  · simp only [store16, htons, Bool.false_eq_true, if_false]
    rw [Nat.mod_eq_of_lt h]
  · simp only [store16, htons, bswap16, if_true, lowByte, List.cons.injEq, Fin.mk.injEq,
      and_true]
    have hq : v / 256 % 256 = v / 256 := Nat.mod_eq_of_lt (by omega)
    rw [hq]
    have h1 : (v % 256 * 256 + v / 256) % 256 = v / 256 := by omega
    have h0 : (v % 256 * 256 + v / 256) / 256 = v % 256 := by omega
    rw [h0]
    exact ⟨h1, Nat.mod_mod _ _⟩

theorem store16_htons_loadBE (hostLE : Bool) (bs : List Byte) (h : bs.length = 2) :
    store16 hostLE (htons hostLE (loadBE bs)) = bs := by
  rw [store16_htons hostLE _ (loadBE_lt_two bs h)]
  match bs, h with
  | [a, b], _ =>
    have ha := a.isLt
    have hb := b.isLt
    simp only [loadBE, List.foldl, lowByte, List.cons.injEq, and_true]
    constructor <;> (apply Fin.ext; simp only []; omega)

theorem encodeBE32_loadBE (bs : List Byte) (h : bs.length = 4) :
    encodeBE32 (loadBE bs) = bs := by
  match bs, h with
  | [a, b, c, d], _ =>
    have ha := a.isLt
    have hb := b.isLt
    have hc := c.isLt
    have hd := d.isLt
    simp only [encodeBE32, loadBE, List.foldl, lowByte, List.cons.injEq, and_true]
    refine ⟨?_, ?_, ?_, ?_⟩ <;> (apply Fin.ext; simp only []; omega)

theorem loadBE_encodeBE32 (v : Nat) (h : v < 4294967296) : loadBE (encodeBE32 v) = v := by
  simp only [encodeBE32, loadBE, List.foldl, lowByte]
  omega

/-! ## Pieces of the program that only extend the observation -/

theorem tail_any : Tail (fun _ => True) := ⟨fun _ _ _ => trivial, fun _ _ _ _ => trivial⟩

theorem tailSend_any : TailSend (fun _ => True) := ⟨fun _ _ _ => trivial⟩

theorem tail_noOut : Tail (fun t => outs t = []) where
  inp := fun t l h => by simp [h]
  step := fun t o ho h => by
    cases o with
    | out b => exact (ho b rfl).elim
    | _ => simp [h]

theorem Extends.step {T : List Obs → Prop} (hT : Tail T) {obs0 obs : List Obs} (o : Obs)
    (ho : ∀ b, o ≠ Obs.out b) (h : Extends T obs0 obs) : Extends T obs0 (obs ++ [o]) := by
  obtain ⟨t, rfl, ht⟩ := h
  exact ⟨t ++ [o], by simp, hT.step t o ho ht⟩

theorem Extends.inp {T : List Obs → Prop} (hT : Tail T) {obs0 obs : List Obs} (l : List Byte)
    (h : Extends T obs0 obs) : Extends T obs0 (obs ++ l.map Obs.inp) := by
  obtain ⟨t, rfl, ht⟩ := h
  exact ⟨t ++ l.map Obs.inp, by simp, hT.inp t l ht⟩

theorem ext_inv {T : List Obs → Prop} (hT : Tail T) (obs0 : List Obs) :
    Inv (Extends T obs0) (Stays T obs0) where
  inp := fun _ l h => h.inp hT l
  malloc := fun _ n h => h.step hT (Obs.malloc n) (by simp)
  die_recv := fun obs l w h hw => by
    show Extends T obs0 (observe w.trace)
    rw [hw]
    have := ((h.inp hT l).step hT Obs.fail (by simp)).step hT (Obs.perror Msg.recv) (by simp)
    simpa using this

theorem ext_send {T : List Obs → Prop} (hT : Tail T) (hS : TailSend T) (obs0 : List Obs) :
    InvSend (Extends T obs0) (Stays T obs0) where
  out := fun _ l h => by
    obtain ⟨t, rfl, ht⟩ := h
    exact ⟨t ++ l.map Obs.out, by simp, hS.out t l ht⟩
  die_send := fun obs l w h hw => by
    show Extends T obs0 (observe w.trace)
    rw [hw]
    obtain ⟨t, rfl, ht⟩ := h
    have h1 : Extends T obs0 (obs0 ++ t ++ l.map Obs.out) :=
      ⟨t ++ l.map Obs.out, by simp, hS.out t l ht⟩
    have := (h1.step hT Obs.fail (by simp)).step hT (Obs.perror Msg.send) (by simp)
    simpa using this

theorem ext_printf {T : List Obs → Prop} (hT : Tail T) (obs0 : List Obs) (r : Report) :
    Triple (Sees (Extends T obs0)) (printf r) (fun _ w => Sees (Extends T obs0) w)
      (Stays T obs0) :=
  inv_printf r (fun _ h => h.step hT (Obs.print r) (by simp))

theorem ext_produced {T : List Obs → Prop} (hT : Tail T) (obs0 : List Obs) (r : Rect) :
    Triple (Sees (Extends T obs0)) (produced r) (fun _ w => Sees (Extends T obs0) w)
      (Stays T obs0) :=
  inv_produced r (fun _ h => h.step hT (Obs.rect r) (by simp))

theorem ext_close_ret {T : List Obs → Prop} (hT : Tail T) (obs0 : List Obs) (s : Nat) :
    Triple (Sees (Extends T obs0)) (close >>= fun _ => (ret s : Proc Unit)) (fun _ _ => False)
      (Stays T obs0) := by
  apply inv_close_ret
  intro w obs h hw
  show Extends T obs0 (observe w.trace)
  rw [hw]
  exact h.step hT Obs.close (by simp)

theorem ext_rect_loop {T : List Obs → Prop} (hT : Tail T) (obs0 : List Obs) (hostLE : Bool) :
    ∀ (todo i : Nat),
      Triple (Sees (Extends T obs0)) (rect_loop hostLE todo i)
        (fun _ w => Sees (Extends T obs0) w) (Stays T obs0) := by
  intro todo
  induction todo with
  | zero => intro i; exact Triple.pure (fun w h => h)
  | succ todo ih =>
    intro i
    unfold rect_loop
    apply Triple.bind (inv_recv_all (ext_inv hT obs0) _); intro _
    apply Triple.bind (inv_recv_all (ext_inv hT obs0) _); intro _
    apply Triple.bind (inv_recv_all (ext_inv hT obs0) _); intro _
    apply Triple.bind (inv_recv_all (ext_inv hT obs0) _); intro _
    apply Triple.bind (inv_recv_all (ext_inv hT obs0) _); intro _
    apply Triple.bind (ext_printf hT obs0 _); intro _
    apply Triple.bind (inv_malloc (ext_inv hT obs0) _); intro _
    apply Triple.bind (inv_recv_all (ext_inv hT obs0) _); intro _
    apply Triple.bind (ext_printf hT obs0 _); intro _
    apply Triple.bind (ext_produced hT obs0 _); intro _
    exact ih _

theorem ext_rejected {T : List Obs → Prop} (hT : Tail T) (obs0 : List Obs) (hostLE : Bool) :
    Triple (Sees (Extends T obs0)) (rejected hostLE) (fun _ _ => False) (Stays T obs0) := by
  unfold rejected
  apply Triple.bind (inv_recv_all (ext_inv hT obs0) _); intro _
  apply Triple.bind (inv_malloc (ext_inv hT obs0) _); intro _
  apply Triple.bind (inv_recv_all (ext_inv hT obs0) _); intro _
  apply Triple.bind (ext_printf hT obs0 _); intro _
  exact ext_close_ret hT obs0 _

theorem ext_read_update {T : List Obs → Prop} (hT : Tail T) (obs0 : List Obs)
    (hostLE : Bool) :
    Triple (Sees (Extends T obs0)) (read_update hostLE) (fun _ _ => False) (Stays T obs0) := by
  unfold read_update
  apply Triple.bind (inv_recv_all (ext_inv hT obs0) _); intro _
  apply Triple.ite <;> intro _
  · apply Triple.bind (ext_printf hT obs0 _); intro _
    exact ext_close_ret hT obs0 _
  · apply Triple.bind (inv_recv_all (ext_inv hT obs0) _); intro _
    apply Triple.bind (inv_recv_all (ext_inv hT obs0) _); intro _
    apply Triple.bind (ext_printf hT obs0 _); intro _
    apply Triple.bind (ext_rect_loop hT obs0 _ _ _); intro _
    exact ext_close_ret hT obs0 _

theorem ext_init {T : List Obs → Prop} (hT : Tail T) (hS : TailSend T) (obs0 : List Obs)
    (hostLE : Bool) :
    Triple (Sees (Extends T obs0)) (init hostLE) (fun _ w => Sees (Extends T obs0) w)
      (Stays T obs0) := by
  unfold init
  apply Triple.bind (inv_send_all (ext_send hT hS obs0) _); intro _
  apply Triple.bind (inv_recv_all (ext_inv hT obs0) _); intro _
  apply Triple.bind (inv_recv_all (ext_inv hT obs0) _); intro _
  apply Triple.bind (ext_printf hT obs0 _); intro _
  apply Triple.bind (inv_recv_all (ext_inv hT obs0) _); intro _
  apply Triple.bind (inv_recv_all (ext_inv hT obs0) _); intro _
  apply Triple.bind (inv_malloc (ext_inv hT obs0) _); intro _
  apply Triple.bind (inv_recv_all (ext_inv hT obs0) _); intro _
  apply Triple.bind (ext_printf hT obs0 _); intro _
  exact Triple.pure (fun w h => h)

/-- The part of `session` after the handshake. -/
theorem ext_after_handshake {T : List Obs → Prop} (hT : Tail T) (hS : TailSend T)
    (obs0 : List Obs) (hostLE : Bool) (sec_type : Nat) :
    Triple (Sees (Extends T obs0))
      (if sec_type = 0 then rejected hostLE
        else do
          printf (.securityType sec_type)
          let size ← init hostLE
          send_all (fbuf_req hostLE size.1 size.2)
          read_update hostLE)
      (fun _ _ => False) (Stays T obs0) := by
  apply Triple.ite <;> intro _
  · exact ext_rejected hT obs0 _
  · apply Triple.bind (ext_printf hT obs0 _); intro _
    apply Triple.bind (ext_init hT hS obs0 _); intro _
    apply Triple.bind (inv_send_all (ext_send hT hS obs0) _); intro _
    exact ext_read_update hT obs0 _

/-! ## The blocks of `main` on a stream of known shape -/

theorem AtG.at {inb : List Byte} {obs : List Obs} {w : World} (h : AtG inb obs w) :
    At inb obs w := h.2

theorem atg_recv_exact {β : Type} {a rest : List Byte} {obs : List Obs} {len : Nat}
    {f : List Byte → Proc β} {Q : β → World → Prop} {X : Nat → World → Prop}
    (hlen : a.length = len)
    (hok : Triple (AtG rest (obs ++ a.map .inp)) (f a) Q X) :
    Triple (AtG (a ++ rest) obs) (recv_all len >>= f) Q X := by
  apply atg_recv_all
  · intro _
    rw [List.take_left' hlen, List.drop_left' hlen]
    exact hok
  · intro h
    simp at h
    omega

theorem handshake_exact (hostLE : Bool) (ver sec rest : List Byte) (obs : List Obs)
    (hver : ver.length = 12) (hsec : sec.length = 4) :
    Triple (AtG (ver ++ (sec ++ rest)) obs) (handshake hostLE)
      (fun v w => v = loadBE sec ∧
        AtG rest (obs ++ ver.map .inp ++ [.print (.serverVersion (cstr (ver ++ [0])))]
          ++ client_version.map .out ++ sec.map .inp) w)
      (fun _ _ => False) := by
  unfold handshake
  apply atg_recv_exact hver
  apply atg_printf
  apply atg_send_all
  apply atg_recv_exact hsec
  exact Triple.pure (fun w h => ⟨ntohl_load hostLE sec hsec, h⟩)

theorem rejected_exact (hostLE : Bool) (lenb reason rest : List Byte) (obs : List Obs)
    (hl : lenb.length = 4) (hr : reason.length = loadBE lenb) :
    Triple (AtG (lenb ++ (reason ++ rest)) obs) (rejected hostLE) (fun _ _ => False)
      (fun s w => s = 1 ∧
        At rest (obs ++ lenb.map .inp ++ [.malloc (text_size (loadBE lenb))]
          ++ reason.map .inp ++ [.print (.connectionFailed (cstr (reason ++ [0])))]
          ++ [.close]) w) := by
  unfold rejected
  apply atg_recv_exact hl
  simp only [ntohl_load hostLE lenb hl]
  apply atg_malloc
  apply atg_recv_exact hr
  apply atg_printf
  apply atg_close
  exact Triple.ret (fun w h => ⟨rfl, h.at⟩)

theorem init_exact (hostLE : Bool) (wb hb pf nl name rest : List Byte) (obs : List Obs)
    (hw : wb.length = 2) (hh : hb.length = 2) (hpf : pf.length = 16) (hnl : nl.length = 4)
    (hname : name.length = loadBE nl) :
    Triple (AtG (wb ++ (hb ++ (pf ++ (nl ++ (name ++ rest))))) obs) (init hostLE)
      (fun size w => size = (loadBE wb, loadBE hb) ∧
        AtG rest (obs ++ [Obs.out 1] ++ wb.map .inp ++ hb.map .inp
          ++ [.print (.framebuffer (loadBE wb) (loadBE hb))] ++ pf.map .inp ++ nl.map .inp
          ++ [.malloc (text_size (loadBE nl))] ++ name.map .inp
          ++ [.print (.desktopName (cstr (name ++ [0])))]) w)
      (fun _ _ => False) := by
  unfold init
  apply atg_send_all
  apply atg_recv_exact hw
  apply atg_recv_exact hh
  simp only [ntohs_load hostLE wb hw, ntohs_load hostLE hb hh]
  apply atg_printf
  apply atg_recv_exact hpf
  apply atg_recv_exact hnl
  simp only [ntohl_load hostLE nl hnl]
  apply atg_malloc
  apply atg_recv_exact hname
  apply atg_printf
  exact Triple.pure (fun w h => ⟨rfl, h⟩)

/-! ## The rectangle loop on a stream of known shape -/

theorem loadBE_encodeBE16 (v : Nat) (h : v < 65536) : loadBE (encodeBE16 v) = v := by
  simp only [encodeBE16, loadBE, List.foldl, lowByte]
  omega

theorem data_len_exact (rw rh : Nat) (h : rw * rh * 4 < 2147483648) :
    data_len rw rh = rw * rh * 4 := by
  have h1 : rw * rh * 4 % 4294967296 = rw * rh * 4 := Nat.mod_eq_of_lt (by omega)
  simp only [data_len, h1, h, if_true]

theorem Rect.Framed.coded {r : Rect} (h : r.Framed) (hs : r.rw * r.rh * 4 < 2147483648) :
    r.Coded := by
  obtain ⟨hx, hy, hw, hh, he, hp⟩ := h
  exact ⟨hx, hy, hw, hh, he, by rw [data_len_exact _ _ hs]; exact hp⟩

theorem rect_loop_exact (hostLE : Bool) : ∀ (rs : List Rect) (i : Nat) (rest : List Byte)
    (obs : List Obs), (∀ r ∈ rs, r.Coded) →
    Triple (AtG (wireRects rs ++ rest) obs) (rect_loop hostLE rs.length i)
      (fun _ w => AtG rest (obs ++ loopSeen i rs) w) (fun _ _ => False) := by
  intro rs
  induction rs with
  | nil =>
    intro i rest obs _
    exact Triple.pure (fun w h => by simpa [wireRects, loopSeen] using h)
  | cons r rs ih =>
    intro i rest obs hrs
    obtain ⟨hx, hy, hw, hh, he, hp⟩ := hrs r (List.mem_cons_self _ _)
    have hrest := fun r hr => hrs r (List.mem_cons_of_mem _ hr)
    simp only [List.length_cons, wireRects, Rect.wire, Rect.header, List.append_assoc]
    unfold rect_loop
    apply atg_recv_exact (by rfl)
    apply atg_recv_exact (by rfl)
    apply atg_recv_exact (by rfl)
    apply atg_recv_exact (by rfl)
    apply atg_recv_exact (by rfl)
    simp only [ntohs_load hostLE (encodeBE16 _) rfl, ntohl_load hostLE (encodeBE32 _) rfl,
      loadBE_encodeBE16 _ hx, loadBE_encodeBE16 _ hy, loadBE_encodeBE16 _ hw,
      loadBE_encodeBE16 _ hh, loadBE_encodeBE32 _ he]
    apply atg_printf
    apply atg_malloc
    apply atg_recv_exact hp
    apply atg_printf
    apply atg_produced
    have e : obs ++ loopSeen i (r :: rs) =
        obs ++ List.map Obs.inp (encodeBE16 r.rx) ++ List.map Obs.inp (encodeBE16 r.ry) ++
          List.map Obs.inp (encodeBE16 r.rw) ++ List.map Obs.inp (encodeBE16 r.rh) ++
          List.map Obs.inp (encodeBE32 r.encoding) ++
          [Obs.print (Report.rectangle (i + 1) r.rw r.rh r.rx r.ry r.encoding)] ++
          [Obs.malloc (data_len r.rw r.rh)] ++ List.map Obs.inp r.pixel_data ++
          [Obs.print (Report.firstPixel r.pixel_data[0]? r.pixel_data[1]? r.pixel_data[2]?)] ++
          [Obs.rect r] ++ loopSeen (i + 1) rs := by
      simp [loopSeen, Rect.seen, Rect.header]
    rw [e]
    exact ih (i + 1) rest _ hrest

theorem rects_loopSeen : ∀ (rs : List Rect) (i : Nat), rects (loopSeen i rs) = rs := by
  intro rs
  induction rs with
  | nil => intro i; rfl
  | cons r rs ih => intro i; simp [loopSeen, Rect.seen, ih]

theorem ins_loopSeen : ∀ (rs : List Rect) (i : Nat), ins (loopSeen i rs) = wireRects rs := by
  intro rs
  induction rs with
  | nil => intro i; rfl
  | cons r rs ih =>
    intro i
    simp [loopSeen, Rect.seen, wireRects, Rect.wire, Rect.header, encodeBE16, encodeBE32, ih]

theorem outs_loopSeen : ∀ (rs : List Rect) (i : Nat), outs (loopSeen i rs) = [] := by
  intro rs
  induction rs with
  | nil => intro i; rfl
  | cons r rs ih => intro i; simp [loopSeen, Rect.seen, ih]

theorem closes_loopSeen : ∀ (rs : List Rect) (i : Nat), closes (loopSeen i rs) = 0 := by
  intro rs
  induction rs with
  | nil => intro i; rfl
  | cons r rs ih => intro i; simp [loopSeen, Rect.seen, ih]

theorem fails_loopSeen : ∀ (rs : List Rect) (i : Nat), fails (loopSeen i rs) = 0 := by
  intro rs
  induction rs with
  | nil => intro i; rfl
  | cons r rs ih => intro i; simp [loopSeen, Rect.seen, ih]

theorem length_wireRects : ∀ (rs : List Rect), (∀ r ∈ rs, r.Framed) →
    (wireRects rs).length = 12 * rs.length + pixelBytes rs := by
  intro rs
  induction rs with
  | nil => intro _; rfl
  | cons r rs ih =>
    intro h
    have hr := (h r (List.mem_cons_self _ _)).2.2.2.2.2
    have := ih (fun r hr => h r (List.mem_cons_of_mem _ hr))
    simp only [wireRects, Rect.wire, Rect.header, encodeBE16, encodeBE32, List.length_append,
      List.length_cons, List.length_nil, pixelBytes, this, hr]
    omega

/-! ## The session on a stream of known shape -/

theorem fbuf_req_bytes (hostLE : Bool) (width height : Nat) (hw : width < 65536)
    (hh : height < 65536) :
    fbuf_req hostLE width height =
      [3, 0, 0, 0, 0, 0, lowByte (width / 256), lowByte width, lowByte (height / 256),
        lowByte height] := by
  simp only [fbuf_req, store16_htons hostLE 0 (by decide), store16_htons hostLE width hw,
    store16_htons hostLE height hh]
  rfl

theorem fbuf_req_loadBE (hostLE : Bool) (wb hb : List Byte) (hw : wb.length = 2)
    (hh : hb.length = 2) :
    fbuf_req hostLE (loadBE wb) (loadBE hb) = ([3, 0, 0, 0, 0, 0] : List Byte) ++ wb ++ hb := by
  simp only [fbuf_req, store16_htons hostLE 0 (by decide), store16_htons_loadBE hostLE wb hw,
    store16_htons_loadBE hostLE hb hh]
  rfl

theorem read_update_unexpected (hostLE : Bool) (t : Byte) (ht : t ≠ 0) (rest : List Byte)
    (obs : List Obs) :
    Triple (AtG ([t] ++ rest) obs) (read_update hostLE) (fun _ _ => False)
      (fun s w => s = 1 ∧
        At rest (obs ++ [.inp t] ++ [.print (.unexpectedType t.val)] ++ [.close]) w) := by
  unfold read_update
  apply atg_recv_exact (by rfl)
  simp only [load_one]
  have hne : t.val ≠ 0 := fun h => ht (Fin.ext h)
  apply Triple.ite
  · intro _
    apply atg_printf
    apply atg_close
    exact Triple.ret (fun w h => ⟨rfl, h.at⟩)
  · intro h
    exact (h hne).elim

theorem read_update_exact (hostLE : Bool) (pad : Byte) (nb : List Byte) (rs : List Rect)
    (rest : List Byte) (obs : List Obs) (hnb : nb.length = 2) (hn : loadBE nb = rs.length)
    (hrs : ∀ r ∈ rs, r.Coded) :
    Triple (AtG ([0] ++ ([pad] ++ (nb ++ (wireRects rs ++ rest)))) obs) (read_update hostLE)
      (fun _ _ => False)
      (fun s w => s = 0 ∧
        At rest (obs ++ [.inp 0] ++ [.inp pad] ++ nb.map .inp ++ [.print (.numRects rs.length)]
          ++ loopSeen 0 rs ++ [.close]) w) := by
  unfold read_update
  apply atg_recv_exact (by rfl)
  simp only [load_one]
  apply Triple.ite
  · intro h
    exact (h rfl).elim
  · intro _
    apply atg_recv_exact (by rfl)
    apply atg_recv_exact hnb
    simp only [ntohs_load hostLE nb hnb, hn]
    apply atg_printf
    apply Triple.bind (rect_loop_exact hostLE rs 0 rest _ hrs).weaken
    intro _
    apply atg_close
    exact Triple.ret (fun w h => ⟨rfl, h.at⟩)

/-- On a transport that never fails and a stream that starts with a valid
prelude, the session reaches `read_update` having done what `p.seen` says. -/
theorem session_after_prelude (hostLE : Bool) (p : Prelude) (hp : p.Valid) (tail : List Byte)
    (X : Nat → World → Prop)
    (h : Triple (AtG tail p.seen) (read_update hostLE) (fun _ _ => False) X) :
    Triple (AtG (p.wire ++ tail) []) (session hostLE) (fun _ _ => False) X := by
  obtain ⟨hver, hsec, hne, hw, hh, hpf, hnl, hname⟩ := hp
  unfold session
  simp only [Prelude.wire, List.append_assoc]
  apply Triple.bind (handshake_exact hostLE p.ver p.sec _ [] hver hsec).weaken
  intro sec_type
  apply Triple.and_pre
  intro hv
  subst hv
  apply Triple.ite
  · intro h0
    exact absurd h0 hne
  · intro _
    apply atg_printf
    apply Triple.bind (init_exact hostLE p.wb p.hb p.pf p.nl p.name tail _ hw hh hpf hnl
      hname).weaken
    intro size
    apply Triple.and_pre
    intro hv
    subst hv
    simp only [fbuf_req_loadBE hostLE p.wb p.hb hw hh]
    apply atg_send_all
    exact h

/-! ## The session as a whole: lemmas for the claims -/

/-- With the connection established, `main` is the session. -/
theorem main_established (hostLE : Bool) (socket_ret connect_ret : Int) (w : World)
    (hs : 0 ≤ socket_ret) (hc : 0 ≤ connect_ret) :
    main hostLE socket_ret connect_ret w = session hostLE w := by
  simp [main, not_lt.mpr hs, not_lt.mpr hc]

theorem start_atg (inbound : List Byte) (recvPlan sendPlan : List Int)
    (hr : Positive recvPlan) (hs : Positive sendPlan) :
    AtG inbound [] (World.start inbound recvPlan sendPlan) :=
  ⟨⟨hr, hs⟩, rfl, rfl⟩

theorem outs_prelude_seen (p : Prelude) :
    outs p.seen = client_version ++ [1] ++ (([3, 0, 0, 0, 0, 0] : List Byte) ++ p.wb ++ p.hb) := by
  simp [Prelude.seen, client_version]

theorem be16_bytes (bs : List Byte) (h : bs.length = 2) :
    [lowByte (loadBE bs / 256), lowByte (loadBE bs)] = bs := by
  have := store16_htons_loadBE false bs h
  rwa [store16_htons false _ (loadBE_lt_two bs h)] at this

/-- On a transport that never fails and a stream that starts with a valid
prelude, whatever follows the prelude, the client writes the bytes of
`p.seen` and nothing more. -/
theorem session_outs (hostLE : Bool) (p : Prelude) (tail : List Byte)
    (recvPlan sendPlan : List Int) (hp : p.Valid) (hr : Positive recvPlan)
    (hs : Positive sendPlan) :
    ∃ s w, session hostLE (World.start (p.wire ++ tail) recvPlan sendPlan) = .exit s w ∧
      outs (observe w.trace) = outs p.seen := by
  have h := session_after_prelude hostLE p hp tail (Stays (fun t => outs t = []) p.seen)
    ((ext_read_update tail_noOut p.seen hostLE).pre
      (fun w hw => ⟨[], by simp [hw.2.2], rfl⟩))
  obtain ⟨s, w, h1, t, h2, h3⟩ := h.exits _ (start_atg _ _ _ hr hs)
  exact ⟨s, w, h1, by rw [h2]; simp [h3]⟩

theorem ins_prelude_seen (p : Prelude) : ins p.seen = p.wire := by
  simp [Prelude.seen, Prelude.wire]

theorem fails_prelude_seen (p : Prelude) : fails p.seen = 0 := by
  simp [Prelude.seen]

theorem read_update_continues (hostLE : Bool) (pad : Byte) (nb tail : List Byte)
    (obs : List Obs) (hnb : nb.length = 2) :
    Triple (AtG ([0] ++ ([pad] ++ (nb ++ tail))) obs) (read_update hostLE) (fun _ _ => False)
      (Stays (fun _ => True)
        (obs ++ [.inp 0] ++ [.inp pad] ++ nb.map .inp ++ [.print (.numRects (loadBE nb))])) := by
  unfold read_update
  apply atg_recv_exact (by rfl)
  simp only [load_one]
  apply Triple.ite
  · intro h
    exact (h rfl).elim
  · intro _
    apply atg_recv_exact (by rfl)
    apply atg_recv_exact hnb
    simp only [ntohs_load hostLE nb hnb]
    apply atg_printf
    refine Triple.pre (P := Sees (Extends (fun _ => True)
      (obs ++ [.inp 0] ++ [.inp pad] ++ nb.map .inp ++ [.print (.numRects (loadBE nb))]))) ?_
      (fun w hw => ⟨[], by simp [hw.2.2], trivial⟩)
    apply Triple.bind (ext_rect_loop tail_any _ hostLE _ _)
    intro _
    exact ext_close_ret tail_any _ _

theorem handshake_reads_first (hostLE : Bool) (ver tail : List Byte) (hver : ver.length = 12) :
    Triple (At (ver ++ tail) []) (handshake hostLE)
      (fun _ w => Sees (Extends (fun _ => True) (ver.map .inp)) w)
      (fun _ w => outs (observe w.trace) = [] ∨
        Sees (Extends (fun _ => True) (ver.map .inp)) w) := by
  unfold handshake
  apply at_recv_all
  · intro _
    rw [List.take_left' hver, List.drop_left' hver]
    refine Triple.pre (P := Sees (Extends (fun _ => True) (ver.map .inp))) ?_
      (fun w hw => ⟨[], by simp [hw.2], trivial⟩)
    refine Triple.post (X := Stays (fun _ => True) (ver.map .inp)) ?_ (fun _ _ h => h)
      (fun _ _ h => Or.inr h)
    apply Triple.bind (ext_printf tail_any _ _); intro _
    apply Triple.bind (inv_send_all (ext_send tail_any tailSend_any _) _); intro _
    apply Triple.bind (inv_recv_all (ext_inv tail_any _) _); intro _
    exact Triple.pure (fun w h => h)
  · intro k _ _ w hw
    left
    rw [hw.2]
    simp only [List.nil_append, List.append_nil, outs_nil, outs_append, outs_map_inp,
      outs_map_out, outs_cons_inp, outs_cons_out, outs_cons_fail, outs_cons_close,
      outs_cons_print, outs_cons_perror, outs_cons_malloc, outs_cons_rect]

theorem handshake_sends_version (hostLE : Bool) (ver tail : List Byte)
    (hver : ver.length = 12) :
    Triple (AtG (ver ++ tail) []) (handshake hostLE)
      (fun _ w => Sees (Extends (fun _ => True)
        (ver.map .inp ++ [.print (.serverVersion (cstr (ver ++ [0])))] ++
          client_version.map .out)) w)
      (Stays (fun _ => True)
        (ver.map .inp ++ [.print (.serverVersion (cstr (ver ++ [0])))] ++
          client_version.map .out)) := by
  unfold handshake
  apply atg_recv_exact hver
  apply atg_printf
  apply atg_send_all
  refine Triple.pre (P := Sees (Extends (fun _ => True)
    (ver.map .inp ++ [.print (.serverVersion (cstr (ver ++ [0])))] ++
      client_version.map .out))) ?_ (fun w hw => ⟨[], by simp [hw.2.2], trivial⟩)
  apply Triple.bind (inv_recv_all (ext_inv tail_any _) _); intro _
  exact Triple.pure (fun w h => h)

/-- A piece that never ends the process returns, in a world satisfying `Q`. -/
theorem Triple.returns {α : Type} {P : World → Prop} {m : Proc α} {Q : α → World → Prop}
    (h : Triple P m Q (fun _ _ => False)) (w : World) (hw : P w) :
    ∃ a w1, m w = .ok a w1 ∧ Q a w1 := by
  have := h w hw
  cases hm : m w with
  | ok a w1 => rw [hm] at this; exact ⟨a, w1, rfl, this⟩
  | exit s w1 => rw [hm] at this; exact this.elim
  | fuel w1 => rw [hm] at this; exact this.elim

theorem cstr_terminated (bs : List Byte) :
    cstr (bs ++ [0]) = bs.takeWhile (fun b => decide (b ≠ 0)) := by
  induction bs with
  | nil => simp [cstr]
  | cons b t ih =>
    by_cases hb : b = 0
    · simp [cstr, hb]
    · simp only [cstr, List.cons_append, List.takeWhile_cons, hb, ne_eq, not_false_eq_true,
        decide_True, if_true, List.cons.injEq, true_and]
      exact ih

theorem cstr_of_no_zero (bs : List Byte) (h : ∀ b ∈ bs, b ≠ 0) : cstr (bs ++ [0]) = bs := by
  rw [cstr_terminated]
  induction bs with
  | nil => rfl
  | cons b t ih =>
    have hb := h b (List.mem_cons_self _ _)
    simp only [List.takeWhile_cons, hb, ne_eq, not_false_eq_true, decide_True, if_true,
      List.cons.injEq, true_and]
    exact ih (fun x hx => h x (List.mem_cons_of_mem _ hx))

theorem inv_sentVersion :
    Inv (fun o => outs o = client_version) SentVersion where
  inp := fun obs l h => by simpa using h
  malloc := fun obs n h => by simpa using h
  die_recv := fun obs l w h hw => by
    have e : outs (observe w.trace) = client_version := by rw [hw]; simpa using h
    exact ⟨rfl, e⟩

theorem SentVersion.only {s : Nat} {w : World} (h : SentVersion s w) : OnlyVersion s w :=
  ⟨h.1, by rw [h.2], fun _ => h.2⟩

theorem sentVersion_rejected (hostLE : Bool) :
    Triple (Sees (fun o => outs o = client_version)) (rejected hostLE) (fun _ _ => False)
      SentVersion := by
  unfold rejected
  apply Triple.bind (inv_recv_all inv_sentVersion _); intro _
  apply Triple.bind (inv_malloc inv_sentVersion _); intro _
  apply Triple.bind (inv_recv_all inv_sentVersion _); intro _
  apply Triple.bind (inv_printf (J := fun o => outs o = client_version) _
    (fun obs h => by simpa using h)); intro _
  apply inv_close_ret
  intro w obs h hw
  have e : outs (observe w.trace) = client_version := by rw [hw]; simpa using h
  exact ⟨rfl, e⟩

theorem handshake_zero (hostLE : Bool) (ver tail : List Byte) (hver : ver.length = 12) :
    Triple (At (ver ++ ([0, 0, 0, 0] ++ tail)) []) (handshake hostLE)
      (fun v w => v = 0 ∧ Sees (fun o => outs o = client_version) w) OnlyVersion := by
  unfold handshake
  apply at_recv_all
  · intro _
    rw [List.take_left' hver, List.drop_left' hver]
    apply at_printf
    apply at_send_all
    · apply at_recv_all
      · intro _
        rw [List.take_left' (by rfl : ([0, 0, 0, 0] : List Byte).length = 4),
          List.drop_left' (by rfl : ([0, 0, 0, 0] : List Byte).length = 4)]
        refine Triple.pure (fun w hw => ⟨?_, ?_⟩)
        · rw [ntohl_load hostLE _ (by rfl)]; rfl
        · show outs (observe w.trace) = client_version
          rw [hw.2]
          simp only [List.nil_append, List.append_nil, outs_nil, outs_append, outs_map_inp,
            outs_map_out, outs_cons_inp, outs_cons_out, outs_cons_fail, outs_cons_close,
            outs_cons_print, outs_cons_perror, outs_cons_malloc, outs_cons_rect]
      · intro k _ _ w hw
        have e : outs (observe w.trace) = client_version := by
          rw [hw.2]
          simp only [List.nil_append, List.append_nil, outs_nil, outs_append, outs_map_inp,
            outs_map_out, outs_cons_inp, outs_cons_out, outs_cons_fail, outs_cons_close,
            outs_cons_print, outs_cons_perror, outs_cons_malloc, outs_cons_rect]
        exact ⟨rfl, by rw [e], fun _ => e⟩
    · intro k hk w hw
      have e : outs (observe w.trace) = client_version.take k := by
        rw [hw.2]
        simp only [List.nil_append, List.append_nil, outs_nil, outs_append, outs_map_inp,
          outs_map_out, outs_cons_inp, outs_cons_out, outs_cons_fail, outs_cons_close,
          outs_cons_print, outs_cons_perror, outs_cons_malloc, outs_cons_rect]
      have e2 : (ins (observe w.trace)).length = 12 := by
        rw [hw.2]
        simp only [List.nil_append, List.append_nil, ins_nil, ins_append, ins_map_inp,
          ins_map_out, ins_cons_inp, ins_cons_out, ins_cons_fail, ins_cons_close, ins_cons_print,
          ins_cons_perror, ins_cons_malloc, ins_cons_rect, hver]
      exact ⟨rfl, by rw [e]; exact List.take_prefix _ _, fun h => by omega⟩
  · intro k hk hk2 w hw
    have e : outs (observe w.trace) = [] := by
      rw [hw.2]
      simp only [List.nil_append, List.append_nil, outs_nil, outs_append, outs_map_inp,
        outs_map_out, outs_cons_inp, outs_cons_out, outs_cons_fail, outs_cons_close,
        outs_cons_print, outs_cons_perror, outs_cons_malloc, outs_cons_rect]
    have e2 : (ins (observe w.trace)).length ≤ k := by
      rw [hw.2]
      simp only [List.nil_append, List.append_nil, ins_nil, ins_append, ins_map_inp, ins_map_out,
        ins_cons_inp, ins_cons_out, ins_cons_fail, ins_cons_close, ins_cons_print,
        ins_cons_perror, ins_cons_malloc, ins_cons_rect, List.length_take]
      omega
    exact ⟨rfl, by rw [e]; exact List.nil_prefix, fun h => by omega⟩

theorem session_zero (hostLE : Bool) (ver tail : List Byte) (hver : ver.length = 12) :
    Triple (At (ver ++ ([0, 0, 0, 0] ++ tail)) []) (session hostLE) (fun _ _ => False)
      OnlyVersion := by
  unfold session
  apply Triple.bind (handshake_zero hostLE ver tail hver)
  intro sec_type
  apply Triple.and_pre
  intro hv
  subst hv
  apply Triple.ite
  · intro _
    exact (sentVersion_rejected hostLE).post (fun _ _ h => h) (fun _ _ h => h.only)
  · intro h
    exact (h rfl).elim

theorem session_zero_good (hostLE : Bool) (ver tail : List Byte) (hver : ver.length = 12) :
    Triple (AtG (ver ++ ([0, 0, 0, 0] ++ tail)) []) (session hostLE) (fun _ _ => False)
      SentVersion := by
  unfold session
  apply Triple.bind (handshake_exact hostLE ver [0, 0, 0, 0] tail [] hver rfl).weaken
  intro sec_type
  apply Triple.and_pre
  intro hv
  subst hv
  apply Triple.ite
  · intro _
    refine Triple.pre (P := Sees (fun o => outs o = client_version)) ?_ ?_
    · exact sentVersion_rejected hostLE
    · intro w hw
      show outs (observe w.trace) = client_version
      rw [hw.2.2]
      simp only [List.nil_append, List.append_nil, outs_nil, outs_append, outs_map_inp,
        outs_map_out, outs_cons_inp, outs_cons_out, outs_cons_fail, outs_cons_close,
        outs_cons_print, outs_cons_perror, outs_cons_malloc, outs_cons_rect]
  · intro h
    exact (h rfl).elim

theorem session_rejected (hostLE : Bool) (ver lenb reason rest : List Byte)
    (hver : ver.length = 12) (hl : lenb.length = 4) (hreason : reason.length = loadBE lenb) :
    Triple (AtG (ver ++ ([0, 0, 0, 0] ++ (lenb ++ (reason ++ rest)))) []) (session hostLE)
      (fun _ _ => False)
      (fun s w => s = 1 ∧
        At rest (ver.map .inp ++ [.print (.serverVersion (cstr (ver ++ [0])))] ++
          client_version.map .out ++ ([0, 0, 0, 0] : List Byte).map .inp ++ lenb.map .inp ++
          [.malloc (text_size (loadBE lenb))] ++ reason.map .inp ++
          [.print (.connectionFailed (cstr (reason ++ [0])))] ++ [.close]) w) := by
  unfold session
  apply Triple.bind (handshake_exact hostLE ver [0, 0, 0, 0] _ [] hver rfl).weaken
  intro sec_type
  apply Triple.and_pre
  intro hv
  subst hv
  apply Triple.ite
  · intro _
    exact rejected_exact hostLE lenb reason rest _ hl hreason
  · intro h
    exact (h rfl).elim

/-- On a transport that never fails, after a valid prelude, a FramebufferUpdate
that declares `rs.length` rectangles and supplies for each its header and the
`data_len` bytes the loop reads for it: the loop produces exactly `rs`, in
order, the session ends with status 0 and the rest of the stream is left. -/
theorem session_decodes (hostLE : Bool) (p : Prelude) (hp : p.Valid) (pad : Byte)
    (nb : List Byte) (rs : List Rect) (rest : List Byte) (hnb : nb.length = 2)
    (hn : loadBE nb = rs.length) (hrs : ∀ r ∈ rs, r.Coded) :
    Triple (AtG (p.wire ++ ([0] ++ ([pad] ++ (nb ++ (wireRects rs ++ rest))))) [])
      (session hostLE) (fun _ _ => False)
      (fun s w => s = 0 ∧
        At rest (p.seen ++ [.inp 0] ++ [.inp pad] ++ nb.map .inp ++
          [.print (.numRects rs.length)] ++ loopSeen 0 rs ++ [.close]) w) :=
  session_after_prelude hostLE p hp _ _
    (read_update_exact hostLE pad nb rs rest p.seen hnb hn hrs)

theorem rects_prelude_seen (p : Prelude) : rects p.seen = [] := by
  simp [Prelude.seen]

theorem session_huge (hostLE : Bool) (p : Prelude) (hp : p.Valid) (rest : List Byte)
    (recvPlan sendPlan : List Int) (hr : Positive recvPlan) (hs : Positive sendPlan) :
    ∃ w, session hostLE (World.start
          (p.wire ++ ([0] ++ ([0] ++ ([0, 1] ++ (hugeRect.header ++ rest))))) recvPlan sendPlan)
        = .exit 0 w ∧
      w.inbound = rest ∧ rects (observe w.trace) = [hugeRect] ∧
      ins (observe w.trace) = p.wire ++ ([0, 0, 0, 1] ++ hugeRect.header) := by
  have e : hugeRect.header ++ rest = wireRects [hugeRect] ++ rest := by
    simp [wireRects, Rect.wire, hugeRect]
  have hc : ∀ r ∈ [hugeRect], r.Coded := by
    intro r hr
    rw [List.mem_singleton] at hr
    subst hr
    decide
  rw [e]
  obtain ⟨s, w, h1, rfl, h2, h3⟩ :=
    (session_decodes hostLE p hp 0 [0, 1] [hugeRect] rest rfl rfl hc).exits _
      (start_atg _ _ _ hr hs)
  refine ⟨w, h1, h2, ?_, ?_⟩
  · rw [h3]
    simp only [List.nil_append, List.append_nil, rects_nil, rects_append, rects_map_inp,
      rects_map_out, rects_cons_inp, rects_cons_out, rects_cons_fail, rects_cons_close,
      rects_cons_print, rects_cons_perror, rects_cons_malloc, rects_cons_rect,
      rects_prelude_seen, rects_loopSeen]
  · rw [h3]
    simp only [List.nil_append, List.append_nil, ins_nil, ins_append, ins_map_inp, ins_map_out,
      ins_cons_inp, ins_cons_out, ins_cons_fail, ins_cons_close, ins_cons_print, ins_cons_perror,
      ins_cons_malloc, ins_cons_rect, ins_prelude_seen, ins_loopSeen]
    simp only [List.append_assoc, wireRects, Rect.wire, hugeRect, List.append_nil]
    rfl

theorem onePixel_session :
    ∃ w, session true (World.start onePixelStream [] []) = .exit 0 w := by
  have hc : ∀ r ∈ [onePixel], r.Coded := by
    intro r hr
    rw [List.mem_singleton] at hr
    subst hr
    decide
  obtain ⟨s, w, h1, rfl, _⟩ :=
    (session_decodes true prelude800 (by decide) 0 [0, 1] [onePixel] [] rfl rfl hc).exits _
      (start_atg _ [] [] (by decide) (by decide))
  exact ⟨w, h1⟩

/-! ## After the security type -/

/-- On a transport that never fails, `init` writes the ClientInit byte and
then reads from the stream. -/
theorem init_sends_first (hostLE : Bool) (tail : List Byte) (obs : List Obs) :
    Triple (AtG tail obs) (init hostLE)
      (fun _ w => 2 ≤ tail.length ∧
        Sees (Extends (fun _ => True) (obs ++ [.out 1] ++ (tail.take 2).map .inp)) w)
      (fun _ w => ∃ t, observe w.trace = obs ++ [.out 1] ++ t ∧ ReadsNext tail t) := by
  unfold init
  apply atg_send_all
  apply atg_recv_all
  · intro h2
    refine Triple.pre (P := Sees (Extends (fun _ => True)
      (obs ++ [.out 1] ++ (tail.take 2).map .inp))) ?_
      (fun w hw => ⟨[], by simp [hw.2.2], trivial⟩)
    refine Triple.post (X := Stays (fun _ => True)
      (obs ++ [.out 1] ++ (tail.take 2).map .inp)) ?_ (fun _ _ h => ⟨h2, h⟩) ?_
    · apply Triple.bind (inv_recv_all (ext_inv tail_any _) _); intro _
      apply Triple.bind (ext_printf tail_any _ _); intro _
      apply Triple.bind (inv_recv_all (ext_inv tail_any _) _); intro _
      apply Triple.bind (inv_recv_all (ext_inv tail_any _) _); intro _
      apply Triple.bind (inv_malloc (ext_inv tail_any _) _); intro _
      apply Triple.bind (inv_recv_all (ext_inv tail_any _) _); intro _
      apply Triple.bind (ext_printf tail_any _ _); intro _
      exact Triple.pure (fun w h => h)
    · rintro _ w ⟨t, ht, _⟩
      exact ⟨(tail.take 2).map .inp ++ t, by rw [ht]; simp, fun _ => ⟨t, rfl⟩,
        fun h => absurd h2 (by omega)⟩
  · intro hlt w hw
    exact ⟨tail.map .inp ++ [.fail, .perror .recv], by rw [hw.2]; simp,
      fun h => absurd hlt (by omega), fun _ => rfl⟩

/-- On a transport that never fails, after a security type that is not 0 the
session reports it, writes the ClientInit byte and goes on to read. -/
theorem session_accepts (hostLE : Bool) (ver sec tail : List Byte) (hver : ver.length = 12)
    (hsec : sec.length = 4) (hnz : loadBE sec ≠ 0) :
    Triple (AtG (ver ++ (sec ++ tail)) []) (session hostLE) (fun _ _ => False)
      (fun _ w => ∃ t, observe w.trace =
        ver.map .inp ++ [.print (.serverVersion (cstr (ver ++ [0])))] ++
          client_version.map .out ++ sec.map .inp ++ [.print (.securityType (loadBE sec))] ++
          [.out 1] ++ t ∧ ReadsNext tail t) := by
  unfold session
  apply Triple.bind (handshake_exact hostLE ver sec tail [] hver hsec).weaken
  intro sec_type
  apply Triple.and_pre
  intro hv
  subst hv
  apply Triple.ite
  · intro h0
    exact absurd h0 hnz
  · intro _
    apply atg_printf
    apply Triple.bind (init_sends_first hostLE tail _)
    intro size
    apply Triple.and_pre
    intro h2
    refine Triple.post (X := Stays (fun _ => True)
      ([] ++ ver.map .inp ++ [.print (.serverVersion (cstr (ver ++ [0])))] ++
        client_version.map .out ++ sec.map .inp ++ [.print (.securityType (loadBE sec))] ++
        [.out 1] ++ (tail.take 2).map .inp)) ?_ (fun _ _ h => h) ?_
    · apply Triple.bind (inv_send_all (ext_send tail_any tailSend_any _) _); intro _
      exact ext_read_update tail_any _ _
    · rintro _ w ⟨t, ht, _⟩
      exact ⟨(tail.take 2).map .inp ++ t, by rw [ht]; simp, fun _ => ⟨t, rfl⟩,
        fun h => absurd h2 (by omega)⟩

/-! ## Every rectangle produced has its payload -/

theorem Measured.append {obs : List Obs} (h : Measured obs) (t : List Obs)
    (ht : rects t = []) : Measured (obs ++ t) := by
  intro r hr
  rw [rects_append, ht, List.append_nil] at hr
  obtain ⟨h1, h2⟩ := h r hr
  exact ⟨h1, by rw [prints_append]; exact List.mem_append_left _ h2⟩

theorem inv_measured : Inv Measured MeasuredEnd where
  inp := fun _ l h => h.append _ (rects_map_inp l)
  malloc := fun _ _ h => h.append _ rfl
  die_recv := fun obs l w h hw => by
    show Measured (observe w.trace)
    rw [hw]
    exact (h.append _ (rects_map_inp l)).append _ rfl

theorem send_measured : InvSend Measured MeasuredEnd where
  out := fun _ l h => h.append _ (rects_map_out l)
  die_send := fun obs l w h hw => by
    show Measured (observe w.trace)
    rw [hw]
    exact (h.append _ (rects_map_out l)).append _ rfl

theorem measured_printf (r : Report) :
    Triple (Sees Measured) (printf r) (fun _ w => Sees Measured w) MeasuredEnd :=
  inv_printf r (fun _ h => h.append _ rfl)

theorem measured_close_ret (s : Nat) :
    Triple (Sees Measured) (close >>= fun _ => (ret s : Proc Unit)) (fun _ _ => False)
      MeasuredEnd := by
  apply inv_close_ret
  intro w obs h hw
  show Measured (observe w.trace)
  rw [hw]
  exact h.append _ rfl

theorem measured_rect_loop (hostLE : Bool) : ∀ (todo i : Nat),
    Triple (Sees Measured) (rect_loop hostLE todo i) (fun _ w => Sees Measured w)
      MeasuredEnd := by
  intro todo
  induction todo with
  | zero => intro i; exact Triple.pure (fun w h => h)
  | succ todo ih =>
    intro i
    unfold rect_loop
    apply Triple.bind (inv_recv_all inv_measured _); intro rx0
    apply Triple.bind (inv_recv_all inv_measured _); intro ry0
    apply Triple.bind (inv_recv_all inv_measured _); intro rw0
    apply Triple.bind (inv_recv_all inv_measured _); intro rh0
    apply Triple.bind (inv_recv_all inv_measured _); intro encoding0
    apply Triple.bind (measured_printf _); intro _
    apply Triple.bind (inv_malloc inv_measured _); intro _
    apply Triple.bind (inv_recv_all_length inv_measured _); intro pixel_data
    apply Triple.and_pre
    intro hlen
    apply Triple.bind
      (inv_printf (J := fun o => Measured o ∧
        Report.firstPixel pixel_data[0]? pixel_data[1]? pixel_data[2]? ∈ prints o) _
        (fun obs h => ⟨h.append _ rfl, by simp⟩))
    intro _
    apply Triple.bind (inv_produced (J := Measured) _ ?_)
    · intro _
      exact ih (i + 1)
    · rintro obs ⟨h, hp⟩ r hr
      simp only [rects_append, rects_cons_rect, rects_nil, List.mem_append,
        List.mem_singleton] at hr
      rcases hr with hr | rfl
      · obtain ⟨h1, h2⟩ := h r hr
        exact ⟨h1, by rw [prints_append]; exact List.mem_append_left _ h2⟩
      · exact ⟨hlen, by rw [prints_append]; exact List.mem_append_left _ hp⟩

theorem measured_handshake (hostLE : Bool) :
    Triple (Sees Measured) (handshake hostLE) (fun _ w => Sees Measured w) MeasuredEnd := by
  unfold handshake
  apply Triple.bind (inv_recv_all inv_measured _); intro _
  apply Triple.bind (measured_printf _); intro _
  apply Triple.bind (inv_send_all send_measured _); intro _
  apply Triple.bind (inv_recv_all inv_measured _); intro _
  exact Triple.pure (fun w h => h)

theorem measured_rejected (hostLE : Bool) :
    Triple (Sees Measured) (rejected hostLE) (fun _ _ => False) MeasuredEnd := by
  unfold rejected
  apply Triple.bind (inv_recv_all inv_measured _); intro _
  apply Triple.bind (inv_malloc inv_measured _); intro _
  apply Triple.bind (inv_recv_all inv_measured _); intro _
  apply Triple.bind (measured_printf _); intro _
  exact measured_close_ret _

theorem measured_init (hostLE : Bool) :
    Triple (Sees Measured) (init hostLE) (fun _ w => Sees Measured w) MeasuredEnd := by
  unfold init
  apply Triple.bind (inv_send_all send_measured _); intro _
  apply Triple.bind (inv_recv_all inv_measured _); intro _
  apply Triple.bind (inv_recv_all inv_measured _); intro _
  apply Triple.bind (measured_printf _); intro _
  apply Triple.bind (inv_recv_all inv_measured _); intro _
  apply Triple.bind (inv_recv_all inv_measured _); intro _
  apply Triple.bind (inv_malloc inv_measured _); intro _
  apply Triple.bind (inv_recv_all inv_measured _); intro _
  apply Triple.bind (measured_printf _); intro _
  exact Triple.pure (fun w h => h)

theorem measured_read_update (hostLE : Bool) :
    Triple (Sees Measured) (read_update hostLE) (fun _ _ => False) MeasuredEnd := by
  unfold read_update
  apply Triple.bind (inv_recv_all inv_measured _); intro _
  apply Triple.ite <;> intro _
  · apply Triple.bind (measured_printf _); intro _
    exact measured_close_ret _
  · apply Triple.bind (inv_recv_all inv_measured _); intro _
    apply Triple.bind (inv_recv_all inv_measured _); intro _
    apply Triple.bind (measured_printf _); intro _
    apply Triple.bind (measured_rect_loop _ _ _); intro _
    exact measured_close_ret _

/-- On every transport and every stream, at the end of the session every
rectangle produced has its `data_len` payload bytes and its first-pixel
report. -/
theorem session_measured (hostLE : Bool) :
    Triple (Sees Measured) (session hostLE) (fun _ _ => False) MeasuredEnd := by
  unfold session
  apply Triple.bind (measured_handshake _); intro _
  apply Triple.ite <;> intro _
  · exact measured_rejected _
  · apply Triple.bind (measured_printf _); intro _
    apply Triple.bind (measured_init _); intro _
    apply Triple.bind (inv_send_all send_measured _); intro _
    exact measured_read_update _

theorem start_measured (inbound : List Byte) (recvPlan sendPlan : List Int) :
    Sees Measured (World.start inbound recvPlan sendPlan) := by
  intro r hr
  simp [World.start, observe] at hr

theorem dies_prelude_seen (p : Prelude) : dies p.seen = [] := by
  simp [Prelude.seen]

theorem closes_prelude_seen (p : Prelude) : closes p.seen = 0 := by
  simp [Prelude.seen]

theorem dies_loopSeen : ∀ (rs : List Rect) (i : Nat), dies (loopSeen i rs) = [] := by
  intro rs
  induction rs with
  | nil => intro i; rfl
  | cons r rs ih => intro i; simp [loopSeen, Rect.seen, ih]

/-- On a transport that never fails, a stream with a valid prelude and a
FramebufferUpdate whose rectangles come with `data_len` payload bytes is
decoded to the end, whatever the encoding codes are. -/
theorem session_decodes_all (hostLE : Bool) (p : Prelude) (hp : p.Valid) (pad : Byte)
    (nb : List Byte) (rs : List Rect) (rest : List Byte) (recvPlan sendPlan : List Int)
    (hnb : nb.length = 2) (hn : loadBE nb = rs.length) (hrs : ∀ r ∈ rs, r.Coded)
    (hr : Positive recvPlan) (hs : Positive sendPlan) :
    ∃ w, session hostLE (World.start
          (p.wire ++ ([0] ++ ([pad] ++ (nb ++ (wireRects rs ++ rest))))) recvPlan sendPlan)
        = .exit 0 w ∧
      w.inbound = rest ∧ rects (observe w.trace) = rs ∧ fails (observe w.trace) = 0 ∧
      dies (observe w.trace) = [] ∧ closes (observe w.trace) = 1 := by
  obtain ⟨s, w, h1, rfl, h2, h3⟩ :=
    (session_decodes hostLE p hp pad nb rs rest hnb hn hrs).exits _ (start_atg _ _ _ hr hs)
  refine ⟨w, h1, h2, ?_, ?_, ?_, ?_⟩
  · rw [h3]
    simp only [List.nil_append, List.append_nil, rects_nil, rects_append, rects_map_inp,
      rects_map_out, rects_cons_inp, rects_cons_out, rects_cons_fail, rects_cons_close,
      rects_cons_print, rects_cons_perror, rects_cons_malloc, rects_cons_rect,
      rects_prelude_seen, rects_loopSeen]
  · rw [h3]
    simp only [Nat.add_zero, Nat.zero_add, fails_nil, fails_append, fails_map_inp,
      fails_map_out, fails_cons_inp, fails_cons_out, fails_cons_fail, fails_cons_close,
      fails_cons_print, fails_cons_perror, fails_cons_malloc, fails_cons_rect,
      fails_prelude_seen, fails_loopSeen]
  · rw [h3]
    simp only [List.nil_append, List.append_nil, dies_nil, dies_append, dies_map_inp,
      dies_map_out, dies_cons_inp, dies_cons_out, dies_cons_fail, dies_cons_close,
      dies_cons_print, dies_cons_perror, dies_cons_malloc, dies_cons_rect,
      dies_prelude_seen, dies_loopSeen]
  · rw [h3]
    simp only [Nat.add_zero, Nat.zero_add, closes_nil, closes_append, closes_map_inp,
      closes_map_out, closes_cons_inp, closes_cons_out, closes_cons_fail, closes_cons_close,
      closes_cons_print, closes_cons_perror, closes_cons_malloc, closes_cons_rect,
      closes_prelude_seen, closes_loopSeen]

/-! ## Two runs side by side -/

/-- On a transport that never fails `recv_all` is decided by the stream: with
`len` bytes to come it returns them; with fewer it reads what there is and
dies at the end of the stream. -/
theorem recv_all_good (len : Nat) (w : World) (hg : Good w) :
    (len ≤ w.inbound.length ∧ ∃ w1, recv_all len w = .ok (w.inbound.take len) w1 ∧ Good w1 ∧
        w1.inbound = w.inbound.drop len ∧
        observe w1.trace = observe w.trace ++ (w.inbound.take len).map .inp) ∨
    (w.inbound.length < len ∧ ∃ w1, recv_all len w = .exit 1 w1 ∧ w1.inbound = [] ∧
        observe w1.trace = observe w.trace ++ w.inbound.map .inp ++ [.fail, .perror .recv]) := by
  rcases recv_all_cases len w with ⟨cs, h1, h2, heq⟩ | ⟨cs, k, r, h1, h2, h3, h4, h5, heq⟩
  · left
    exact ⟨h1, _, heq, hg.recvd _ _, rfl, by simp [World.recvd, observe_recvEvents h2]⟩
  · right
    have hkeq : k = w.inbound.length := by
      rcases h5 with h | ⟨_, h⟩
      · have := planned_pos (w.recvPlan.drop cs.length) (len - k) (by omega)
          (fun x hx => hg.1 x (List.mem_of_mem_drop hx))
        omega
      · exact h
    subst hkeq
    rw [List.take_length] at h3
    exact ⟨h1, _, heq, by simp [World.recvDied],
      by simp [World.recvDied, observe_recvEvents h3, observe, Event.observe, h4]⟩

/-- On a transport that never fails `send_all` writes the whole buffer. -/
theorem send_all_good (buf : List Byte) (w : World) (hg : Good w) :
    ∃ w1, send_all buf w = .ok () w1 ∧ Good w1 ∧ w1.inbound = w.inbound ∧
      observe w1.trace = observe w.trace ++ buf.map .out := by
  rcases send_all_cases buf w with ⟨cs, h2, heq⟩ | ⟨cs, k, r, h1, h3, h4, h5, heq⟩
  · exact ⟨_, heq, hg.sent _, rfl, by simp [World.sent, observe_sendEvents h2]⟩
  · have := planned_pos (w.sendPlan.drop cs.length) (buf.length - k) (by omega)
      (fun x hx => hg.2 x (List.mem_of_mem_drop hx))
    omega

theorem Triple2.bind_both {α β : Type} {P : World → World → Prop} {m m' : Proc α}
    {R : α → α → World → World → Prop} {f f' : α → Proc β}
    {Q : β → β → World → World → Prop} {X : World → World → Prop}
    (h1 : Triple2 P m m' R X) (h2 : ∀ a a', Triple2 (R a a') (f a) (f' a') Q X) :
    Triple2 P (m >>= f) (m' >>= f') Q X := by
  intro w w' hw
  have h := h1 w w' hw
  show Res.Rel Q X (Proc.bind m f w) (Proc.bind m' f' w')
  unfold Proc.bind
  cases hm : m w <;> cases hm' : m' w' <;> rw [hm, hm'] at h <;>
    first
      | exact h.elim
      | exact h
      | exact h2 _ _ _ _ h

theorem Triple2.pure_both {α : Type} {P : World → World → Prop} {a a' : α}
    {Q : α → α → World → World → Prop} {X : World → World → Prop}
    (h : ∀ w w', P w w' → Q a a' w w') : Triple2 P (Proc.pure a) (Proc.pure a') Q X :=
  fun w w' hw => h w w' hw

theorem Triple2.ret_both {α : Type} {P : World → World → Prop} {s : Nat}
    {Q : α → α → World → World → Prop} {X : World → World → Prop}
    (h : ∀ w w', P w w' → X w w') : Triple2 P (ret s) (ret s) Q X :=
  fun w w' hw => ⟨rfl, h w w' hw⟩

/-- Two runs that end alike and end the process: the exit status is the same
and the worlds are related. -/
theorem Triple2.exits_both {α : Type} {P : World → World → Prop} {m m' : Proc α}
    {X : World → World → Prop} (h : Triple2 P m m' (fun _ _ _ _ => False) X) (w w' : World)
    (hw : P w w') : ∃ s w1 w1', m w = .exit s w1 ∧ m' w' = .exit s w1' ∧ X w1 w1' := by
  have := h w w' hw
  cases hm : m w <;> cases hm' : m' w' <;> rw [hm, hm'] at this <;>
    first
      | exact this.elim
      | (obtain ⟨h1, h2⟩ := this; subst h1; exact ⟨_, _, _, rfl, rfl, h2⟩)

/-! ## Two runs on streams that differ in the encoding codes -/

theorem blank_map_inp {l l' : List Byte} (h : l.length = l'.length) :
    (l.map Obs.inp).map Obs.blank = (l'.map Obs.inp).map Obs.blank := by
  induction l generalizing l' with
  | nil =>
    cases l' with
    | nil => rfl
    | cons b t => simp at h
  | cons a t ih =>
    cases l' with
    | nil => simp at h
    | cons b t' =>
      simp only [List.map_cons, Obs.blank, List.cons.injEq, true_and]
      exact ih (by simpa using h)

theorem Report.blank_twice (r : Report) : r.blank.blank = r.blank := by
  cases r <;> rfl

theorem Rect.blank_again (r : Rect) : r.blank.blank = r.blank := rfl

/-- What an observer sees of an event, the values of bytes read and the
encoding codes forgotten, is decided by the event with those forgotten. -/
theorem Event.observe_blank (e : Event) :
    e.observe.map Obs.blank = e.blank.observe.map Obs.blank := by
  cases e with
  | recv n r d =>
    simp only [Event.observe, Event.blank]
    split
    · rfl
    · exact blank_map_inp (by simp)
  | print r => simp [Event.observe, Event.blank, Obs.blank, Report.blank_twice]
  | rect r => simp [Event.observe, Event.blank, Obs.blank, Rect.blank_again]
  | send n r d => rfl
  | close => rfl
  | perror m => rfl
  | malloc n => rfl

theorem observe_map_blank (tr : List Event) :
    (observe tr).map Obs.blank = (observe (tr.map Event.blank)).map Obs.blank := by
  induction tr with
  | nil => rfl
  | cons e t ih =>
    simp only [observe, List.map_cons, List.map_append, ih, Event.observe_blank e]

theorem map_zero_eq {l l' : List Byte} (h : l.length = l'.length) :
    l.map (fun _ => (0 : Byte)) = l'.map (fun _ => (0 : Byte)) := by
  induction l generalizing l' with
  | nil =>
    cases l' with
    | nil => rfl
    | cons b t => simp at h
  | cons a t ih =>
    cases l' with
    | nil => simp at h
    | cons b t' =>
      simp only [List.map_cons, List.cons.injEq, true_and]
      exact ih (by simpa using h)

theorem recv_blank (n : Nat) (w : World) :
    recv n w.blank =
      ((recv n w).1, (recv n w).2.1.map (fun _ => 0), (recv n w).2.2.blank) := by
  unfold recv
  by_cases h : planned w.recvPlan n ≤ 0
  · simp [World.blank, Event.blank, h]
  · simp [World.blank, Event.blank, h, List.map_take, List.map_drop]

theorem die_blank {α : Type} (g : α → α) (msg : Msg) (w : World) :
    (die msg : Proc α) w.blank = ((die msg : Proc α) w).blank g := by
  simp [die, Res.blank, World.blank, World.log, Event.blank]

theorem recv_all_loop_blank (len : Nat) : ∀ (fuel total : Nat) (buf : List Byte) (w : World),
    recv_all_loop len fuel total (buf.map (fun _ => 0)) w.blank =
      (recv_all_loop len fuel total buf w).blank (List.map (fun _ => 0)) := by
  intro fuel
  induction fuel with
  | zero =>
    intro total buf w
    unfold recv_all_loop
    by_cases h : total < len <;> simp [h, Res.blank]
  | succ fuel ih =>
    intro total buf w
    unfold recv_all_loop
    by_cases h : total < len
    · simp only [h, if_true, recv_blank]
      by_cases hr : (recv (len - total) w).1 ≤ 0
      · simp only [hr, if_true]
        exact die_blank _ _ _
      · simp only [hr, if_false]
        rw [← List.map_append]
        exact ih _ _ _
    · simp [h, Res.blank]

theorem recv_all_blank (len : Nat) (w : World) :
    recv_all len w.blank = (recv_all len w).blank (List.map (fun _ => 0)) :=
  recv_all_loop_blank len len 0 [] w

theorem send_blank (buf : List Byte) (w : World) :
    send buf w.blank = ((send buf w).1, (send buf w).2.blank) := by
  unfold send
  by_cases h : planned w.sendPlan buf.length ≤ 0
  · simp [World.blank, Event.blank, h]
  · simp [World.blank, Event.blank, h]

theorem send_all_loop_blank (buf : List Byte) : ∀ (fuel total : Nat) (w : World),
    send_all_loop buf fuel total w.blank = (send_all_loop buf fuel total w).blank id := by
  intro fuel
  induction fuel with
  | zero =>
    intro total w
    unfold send_all_loop
    by_cases h : total < buf.length <;> simp [h, Res.blank]
  | succ fuel ih =>
    intro total w
    unfold send_all_loop
    by_cases h : total < buf.length
    · simp only [h, if_true, send_blank]
      by_cases hr : (send (List.drop total buf) w).1 ≤ 0
      · simp only [hr, if_true]
        exact die_blank _ _ _
      · simp only [hr, if_false]
        exact ih _ _
    · simp [h, Res.blank]

theorem send_all_blank (buf : List Byte) (w : World) :
    send_all buf w.blank = (send_all buf w).blank id :=
  send_all_loop_blank buf buf.length 0 w




theorem Twin.length {w w' : World} (h : Twin w w') : w.inbound.length = w'.inbound.length := by
  have := congrArg (fun v => v.inbound.length) h
  simpa [World.blank] using this

theorem Twin.alikeEnd {w w' : World} (h : Twin w w') : AlikeEnd w w' := by
  refine ⟨h.length, ?_⟩
  have := congrArg World.trace h
  simp only [World.blank] at this
  rw [observe_map_blank w.trace, observe_map_blank w'.trace, this]

/-- On one transport behaviour, failures included, two runs on streams of the
same length make the same calls with the same results. -/
theorem coupled_twin : Coupled Twin Twin where
  recv := fun len w w' h => by
    have e : (recv_all len w).blank (List.map (fun _ => 0)) =
        (recv_all len w').blank (List.map (fun _ => 0)) := by
      rw [← recv_all_blank, ← recv_all_blank, show w.blank = w'.blank from h]
    rcases recv_all_cases len w with ⟨cs, h1, _, heq⟩ | ⟨cs, k, r, _, _, _, _, _, heq⟩ <;>
      rcases recv_all_cases len w' with ⟨cs', _, _, heq'⟩ | ⟨cs', k', r', _, _, _, _, _, heq'⟩
    · rw [heq, heq'] at e ⊢
      simp only [Res.blank, Res.ok.injEq] at e
      exact ⟨h1, rfl, rfl, rfl, rfl, e.2⟩
    · rw [heq, heq'] at e
      simp [Res.blank] at e
    · rw [heq, heq'] at e
      simp [Res.blank] at e
    · rw [heq, heq'] at e ⊢
      simp only [Res.blank, Res.exit.injEq] at e
      exact ⟨rfl, e.2⟩
  send := fun buf w w' h => by
    have e : (send_all buf w).blank id = (send_all buf w').blank id := by
      rw [← send_all_blank, ← send_all_blank, show w.blank = w'.blank from h]
    rcases send_all_cases buf w with ⟨cs, _, heq⟩ | ⟨cs, k, r, _, _, _, _, heq⟩ <;>
      rcases send_all_cases buf w' with ⟨cs', _, heq'⟩ | ⟨cs', k', r', _, _, _, _, heq'⟩
    · rw [heq, heq'] at e ⊢
      simp only [Res.blank, Res.ok.injEq] at e
      exact ⟨rfl, rfl, e.2⟩
    · rw [heq, heq'] at e
      simp [Res.blank] at e
    · rw [heq, heq'] at e
      simp [Res.blank] at e
    · rw [heq, heq'] at e ⊢
      simp only [Res.blank, Res.exit.injEq] at e
      exact ⟨rfl, e.2⟩
  log := fun e e' w w' he h => by
    have h1 := congrArg World.inbound h
    have h2 := congrArg World.recvPlan h
    have h3 := congrArg World.sendPlan h
    have h4 := congrArg World.trace h
    simp only [World.blank] at h1 h2 h3 h4
    show (w.log e).blank = (w'.log e').blank
    simp only [World.blank, World.log, List.map_append, List.map_cons, List.map_nil, h1, h2, h3,
      h4, he]
  done := fun _ _ h => h
  length := fun _ _ h => h.length

/-- On transports that never fail, however they split the bytes, two runs on
streams of the same length go the same way. -/
theorem coupled_good : Coupled GoodPair AlikeEnd where
  recv := fun len w w' h => by
    obtain ⟨hg, hg', hlen, ho⟩ := h
    rcases recv_all_good len w hg with ⟨h1, w1, e1, g1, i1, o1⟩ | ⟨h1, w1, e1, i1, o1⟩ <;>
      rcases recv_all_good len w' hg' with
        ⟨h1', w1', e1', g1', i1', o1'⟩ | ⟨h1', w1', e1', i1', o1'⟩
    · rw [e1, e1']
      refine ⟨h1, rfl, rfl, i1, i1', g1, g1', ?_, ?_⟩
      · rw [i1, i1']
        simp only [List.length_drop, hlen]
      · rw [o1, o1', List.map_append, List.map_append, ho,
          @blank_map_inp (w.inbound.take len) (w'.inbound.take len)
            (by simp only [List.length_take, hlen])]
    · omega
    · omega
    · rw [e1, e1']
      refine ⟨rfl, by rw [i1, i1'], ?_⟩
      rw [o1, o1', List.map_append, List.map_append, List.map_append, List.map_append, ho,
        blank_map_inp hlen]
  send := fun buf w w' h => by
    obtain ⟨hg, hg', hlen, ho⟩ := h
    obtain ⟨w1, e1, g1, i1, o1⟩ := send_all_good buf w hg
    obtain ⟨w1', e1', g1', i1', o1'⟩ := send_all_good buf w' hg'
    rw [e1, e1']
    exact ⟨i1, i1', g1, g1', by rw [i1, i1']; exact hlen,
      by rw [o1, o1', List.map_append, List.map_append, ho]⟩
  log := fun e e' w w' he h => by
    obtain ⟨hg, hg', hlen, ho⟩ := h
    refine ⟨hg.log e, hg'.log e', hlen, ?_⟩
    simp only [World.log, observe_append, observe, List.append_nil, List.map_append, ho,
      Event.observe_blank e, Event.observe_blank e', he]
  done := fun _ _ h => ⟨h.2.2.1, h.2.2.2⟩
  length := fun _ _ h => h.2.2.1

theorem coupled_recv_all {R E : World → World → Prop} (hC : Coupled R E) {β : Type}
    {inb inb' : List Byte} {len : Nat} {f f' : List Byte → Proc β}
    {Q : β → β → World → World → Prop}
    (hok : len ≤ inb.length →
      Triple2 (Tracked R (inb.drop len) (inb'.drop len)) (f (inb.take len))
        (f' (inb'.take len)) Q E) :
    Triple2 (Tracked R inb inb') (recv_all len >>= f) (recv_all len >>= f') Q E := by
  rintro w w' ⟨hi, hi', hR⟩
  subst hi
  subst hi'
  have h := hC.recv len w w' hR
  show Res.Rel Q E (Proc.bind (recv_all len) f w) (Proc.bind (recv_all len) f' w')
  unfold Proc.bind
  cases hm : recv_all len w <;> cases hm' : recv_all len w' <;> rw [hm, hm'] at h <;>
    first
      | exact h.elim
      | exact h
      | (obtain ⟨h1, ha, ha', i1, i1', r1⟩ := h
         subst ha
         subst ha'
         exact hok h1 _ _ ⟨i1, i1', r1⟩)

theorem coupled_recv_exact {R E : World → World → Prop} (hC : Coupled R E) {β : Type}
    {a rest rest' : List Byte} {len : Nat} {f f' : List Byte → Proc β}
    {Q : β → β → World → World → Prop} (hlen : a.length = len)
    (hok : Triple2 (Tracked R rest rest') (f a) (f' a) Q E) :
    Triple2 (Tracked R (a ++ rest) (a ++ rest')) (recv_all len >>= f) (recv_all len >>= f')
      Q E := by
  apply coupled_recv_all hC
  intro _
  rw [List.take_left' hlen, List.drop_left' hlen, List.take_left' hlen, List.drop_left' hlen]
  exact hok

theorem coupled_send_all {R E : World → World → Prop} (hC : Coupled R E) {β : Type}
    {inb inb' : List Byte} {buf : List Byte} {f f' : Unit → Proc β}
    {Q : β → β → World → World → Prop}
    (hok : Triple2 (Tracked R inb inb') (f ()) (f' ()) Q E) :
    Triple2 (Tracked R inb inb') (send_all buf >>= f) (send_all buf >>= f') Q E := by
  rintro w w' ⟨hi, hi', hR⟩
  have h := hC.send buf w w' hR
  show Res.Rel Q E (Proc.bind (send_all buf) f w) (Proc.bind (send_all buf) f' w')
  unfold Proc.bind
  cases hm : send_all buf w <;> cases hm' : send_all buf w' <;> rw [hm, hm'] at h <;>
    first
      | exact h.elim
      | exact h
      | (obtain ⟨i1, i1', r1⟩ := h
         exact hok _ _ ⟨i1.trans hi, i1'.trans hi', r1⟩)

theorem coupled_log {R E : World → World → Prop} (hC : Coupled R E) {β : Type}
    {inb inb' : List Byte} (e e' : Event) {m m' : Proc Unit} {f f' : Unit → Proc β}
    {Q : β → β → World → World → Prop}
    (hm : ∀ w, m w = .ok () (w.log e)) (hm' : ∀ w, m' w = .ok () (w.log e'))
    (he : e.blank = e'.blank)
    (hok : Triple2 (Tracked R inb inb') (f ()) (f' ()) Q E) :
    Triple2 (Tracked R inb inb') (m >>= f) (m' >>= f') Q E := by
  rintro w w' ⟨hi, hi', hR⟩
  show Res.Rel Q E (Proc.bind m f w) (Proc.bind m' f' w')
  unfold Proc.bind
  rw [hm, hm']
  exact hok _ _ ⟨hi, hi', hC.log e e' w w' he hR⟩

theorem coupled_printf {R E : World → World → Prop} (hC : Coupled R E) {β : Type}
    {inb inb' : List Byte} {r r' : Report} {f f' : Unit → Proc β}
    {Q : β → β → World → World → Prop} (hr : r.blank = r'.blank)
    (hok : Triple2 (Tracked R inb inb') (f ()) (f' ()) Q E) :
    Triple2 (Tracked R inb inb') (printf r >>= f) (printf r' >>= f') Q E :=
  coupled_log hC (.print r) (.print r') (fun _ => rfl) (fun _ => rfl)
    (by simp only [Event.blank, hr]) hok

theorem coupled_malloc {R E : World → World → Prop} (hC : Coupled R E) {β : Type}
    {inb inb' : List Byte} {n : Nat} {f f' : Unit → Proc β}
    {Q : β → β → World → World → Prop}
    (hok : Triple2 (Tracked R inb inb') (f ()) (f' ()) Q E) :
    Triple2 (Tracked R inb inb') (malloc n >>= f) (malloc n >>= f') Q E :=
  coupled_log hC (.malloc n) (.malloc n) (fun _ => rfl) (fun _ => rfl) rfl hok

theorem coupled_produced {R E : World → World → Prop} (hC : Coupled R E) {β : Type}
    {inb inb' : List Byte} {r r' : Rect} {f f' : Unit → Proc β}
    {Q : β → β → World → World → Prop} (hr : r.blank = r'.blank)
    (hok : Triple2 (Tracked R inb inb') (f ()) (f' ()) Q E) :
    Triple2 (Tracked R inb inb') (produced r >>= f) (produced r' >>= f') Q E :=
  coupled_log hC (.rect r) (.rect r') (fun _ => rfl) (fun _ => rfl)
    (by simp only [Event.blank, hr]) hok

theorem coupled_close_ret {R E : World → World → Prop} (hC : Coupled R E)
    {inb inb' : List Byte} (s : Nat) :
    Triple2 (Tracked R inb inb') (close >>= fun _ => (ret s : Proc Unit))
      (close >>= fun _ => (ret s : Proc Unit)) (fun _ _ _ _ => False) E :=
  coupled_log hC .close .close (fun _ => rfl) (fun _ => rfl) rfl
    (Triple2.ret_both (fun w w' h => hC.done w w' h.2.2))

/-- Equal prefixes give equal pieces inside the prefix. -/
theorem take_drop_of_take_eq {s s' : List Byte} {n : Nat} (h : s.take n = s'.take n)
    (k m : Nat) (hkm : k + m ≤ n) : (s.drop k).take m = (s'.drop k).take m := by
  have e : ∀ l : List Byte, (l.drop k).take m = ((l.take n).drop k).take m := by
    intro l
    rw [List.drop_take, List.take_take, Nat.min_eq_left (by omega)]
  rw [e s, e s', h]

theorem Report.blank_rectangle (i rw rh rx ry e e' : Nat) :
    (Report.rectangle i rw rh rx ry e).blank = (Report.rectangle i rw rh rx ry e').blank := rfl

theorem Rect.blank_encoding (rx ry rw rh e e' : Nat) (pixel_data : List Byte) :
    Rect.blank ⟨rx, ry, rw, rh, e, pixel_data⟩ = Rect.blank ⟨rx, ry, rw, rh, e', pixel_data⟩ :=
  rfl

/-- The rectangle loop on two streams that are the same except for the encoding
fields, from two related worlds, ends alike. -/
theorem coupled_rect_loop {R E : World → World → Prop} (hC : Coupled R E) (hostLE : Bool) :
    ∀ (todo i : Nat) (inb inb' : List Byte), SameButEncoding todo inb inb' →
    Triple2 (Tracked R inb inb') (rect_loop hostLE todo i) (rect_loop hostLE todo i)
      (fun _ _ w w' => ∃ rest rest', Tracked R rest rest' w w') E := by
  intro todo
  induction todo with
  | zero =>
    intro i inb inb' h
    exact Triple2.pure_both (fun w w' hw => ⟨inb, inb', hw⟩)
  | succ todo ih =>
    intro i inb inb' h
    obtain ⟨hlen, h8, hpix, hrest⟩ := h
    have e1 : inb'.take 2 = inb.take 2 := by
      simpa using (take_drop_of_take_eq h8 0 2 (by omega)).symm
    have e2 : (inb'.drop 2).take 2 = (inb.drop 2).take 2 :=
      (take_drop_of_take_eq h8 2 2 (by omega)).symm
    have e3 : ((inb'.drop 2).drop 2).take 2 = ((inb.drop 2).drop 2).take 2 := by
      simpa [List.drop_drop] using (take_drop_of_take_eq h8 4 2 (by omega)).symm
    have e4 : (((inb'.drop 2).drop 2).drop 2).take 2 = (((inb.drop 2).drop 2).drop 2).take 2 := by
      simpa [List.drop_drop] using (take_drop_of_take_eq h8 6 2 (by omega)).symm
    unfold rect_loop
    apply coupled_recv_all hC; intro l1; rw [e1]
    apply coupled_recv_all hC; intro l2; rw [e2]
    apply coupled_recv_all hC; intro l3; rw [e3]
    apply coupled_recv_all hC; intro l4; rw [e4]
    apply coupled_recv_all hC; intro l5
    refine coupled_printf hC (Report.blank_rectangle _ _ _ _ _ _ _) ?_
    apply coupled_malloc hC
    apply coupled_recv_all hC; intro l6
    have hw2 : (List.take 2 (List.drop 2 (List.drop 2 inb))).length = 2 := by
      rw [List.length_take]; exact Nat.min_eq_left l3
    have hh2 : (List.take 2 (List.drop 2 (List.drop 2 (List.drop 2 inb)))).length = 2 := by
      rw [List.length_take]; exact Nat.min_eq_left l4
    simp only [ntohs_load hostLE _ hw2, ntohs_load hostLE _ hh2]
    simp only [List.drop_drop] at hrest hpix ⊢
    rw [← hpix]
    refine coupled_printf hC rfl ?_
    refine coupled_produced hC (Rect.blank_encoding _ _ _ _ _ _ _) ?_
    exact ih (i + 1) _ _ hrest




theorem coupled_handshake {R E : World → World → Prop} (hC : Coupled R E) (hostLE : Bool)
    (ver sec rest rest' : List Byte) (hver : ver.length = 12) (hsec : sec.length = 4) :
    Triple2 (Tracked R (ver ++ (sec ++ rest)) (ver ++ (sec ++ rest'))) (handshake hostLE)
      (handshake hostLE)
      (fun v v' w w' => v = loadBE sec ∧ v' = loadBE sec ∧ Tracked R rest rest' w w') E := by
  unfold handshake
  apply coupled_recv_exact hC hver
  apply coupled_printf hC rfl
  apply coupled_send_all hC
  apply coupled_recv_exact hC hsec
  exact Triple2.pure_both
    (fun w w' h => ⟨ntohl_load hostLE sec hsec, ntohl_load hostLE sec hsec, h⟩)

theorem coupled_init {R E : World → World → Prop} (hC : Coupled R E) (hostLE : Bool)
    (wb hb pf nl name rest rest' : List Byte) (hw : wb.length = 2) (hh : hb.length = 2)
    (hpf : pf.length = 16) (hnl : nl.length = 4) (hname : name.length = loadBE nl) :
    Triple2
      (Tracked R (wb ++ (hb ++ (pf ++ (nl ++ (name ++ rest)))))
        (wb ++ (hb ++ (pf ++ (nl ++ (name ++ rest'))))))
      (init hostLE) (init hostLE)
      (fun size size' w w' => size = (loadBE wb, loadBE hb) ∧ size' = (loadBE wb, loadBE hb) ∧
        Tracked R rest rest' w w') E := by
  unfold init
  apply coupled_send_all hC
  apply coupled_recv_exact hC hw
  apply coupled_recv_exact hC hh
  simp only [ntohs_load hostLE wb hw, ntohs_load hostLE hb hh]
  apply coupled_printf hC rfl
  apply coupled_recv_exact hC hpf
  apply coupled_recv_exact hC hnl
  simp only [ntohl_load hostLE nl hnl]
  apply coupled_malloc hC
  apply coupled_recv_exact hC hname
  apply coupled_printf hC rfl
  exact Triple2.pure_both (fun w w' h => ⟨rfl, rfl, h⟩)

theorem coupled_read_update {R E : World → World → Prop} (hC : Coupled R E) (hostLE : Bool)
    (pad : Byte) (nb body body' : List Byte) (hnb : nb.length = 2)
    (hsame : SameButEncoding (loadBE nb) body body') :
    Triple2 (Tracked R ([0] ++ ([pad] ++ (nb ++ body))) ([0] ++ ([pad] ++ (nb ++ body'))))
      (read_update hostLE) (read_update hostLE) (fun _ _ _ _ => False) E := by
  unfold read_update
  apply coupled_recv_exact hC (by rfl)
  simp only [load_one]
  rw [if_neg (by decide)]
  apply coupled_recv_exact hC (by rfl)
  apply coupled_recv_exact hC hnb
  simp only [ntohs_load hostLE nb hnb]
  apply coupled_printf hC rfl
  apply Triple2.bind_both (coupled_rect_loop hC hostLE (loadBE nb) 0 body body' hsame)
  rintro _ _ w w' ⟨rest, rest', h⟩
  exact coupled_close_ret hC 0 w w' h

/-- Two sessions from related worlds, on streams with the same valid prelude
and the same FramebufferUpdate header whose rectangle parts are the same except
for the encoding fields, end alike. -/
theorem coupled_session {R E : World → World → Prop} (hC : Coupled R E) (hostLE : Bool)
    (p : Prelude) (hp : p.Valid) (pad : Byte) (nb body body' : List Byte) (hnb : nb.length = 2)
    (hsame : SameButEncoding (loadBE nb) body body') :
    Triple2
      (Tracked R (p.wire ++ ([0] ++ ([pad] ++ (nb ++ body))))
        (p.wire ++ ([0] ++ ([pad] ++ (nb ++ body')))))
      (session hostLE) (session hostLE) (fun _ _ _ _ => False) E := by
  obtain ⟨hver, hsec, hne, hw, hh, hpf, hnl, hname⟩ := hp
  unfold session
  simp only [Prelude.wire, List.append_assoc]
  apply Triple2.bind_both (coupled_handshake hC hostLE p.ver p.sec _ _ hver hsec)
  rintro v v' w w' ⟨hv, hv', h⟩
  subst hv
  subst hv'
  revert w w'
  rw [if_neg hne]
  apply coupled_printf hC rfl
  apply Triple2.bind_both (coupled_init hC hostLE p.wb p.hb p.pf p.nl p.name _ _ hw hh hpf hnl
    hname)
  rintro size size' w w' ⟨hv, hv', h⟩
  subst hv
  subst hv'
  revert w w'
  apply coupled_send_all hC
  exact coupled_read_update hC hostLE pad nb body body' hnb hsame

theorem SameButEncoding.length_eq : ∀ {n : Nat} {s s' : List Byte},
    SameButEncoding n s s' → s.length = s'.length
  | 0, _, _, h => congrArg List.length h
  | _ + 1, _, _, h => h.1

theorem rects_map_blank (obs : List Obs) :
    rects (obs.map Obs.blank) = (rects obs).map Rect.blank := by
  induction obs with
  | nil => rfl
  | cons o t ih => cases o <;> simp [Obs.blank, ih]

theorem prints_map_blank (obs : List Obs) :
    prints (obs.map Obs.blank) = (prints obs).map Report.blank := by
  induction obs with
  | nil => rfl
  | cons o t ih => cases o <;> simp [Obs.blank, ih]

theorem outs_map_blank (obs : List Obs) : outs (obs.map Obs.blank) = outs obs := by
  induction obs with
  | nil => rfl
  | cons o t ih => cases o <;> simp [Obs.blank, ih]

theorem ins_map_blank (obs : List Obs) :
    ins (obs.map Obs.blank) = (ins obs).map (fun _ => 0) := by
  induction obs with
  | nil => rfl
  | cons o t ih => cases o <;> simp [Obs.blank, ih]

/-- What two worlds that ended alike have in common. -/
theorem AlikeEnd.facts {w w' : World} (h : AlikeEnd w w') :
    (ins (observe w.trace)).length = (ins (observe w'.trace)).length ∧
    w.inbound.length = w'.inbound.length ∧
    outs (observe w.trace) = outs (observe w'.trace) ∧
    (rects (observe w.trace)).length = (rects (observe w'.trace)).length ∧
    (rects (observe w.trace)).map Rect.blank = (rects (observe w'.trace)).map Rect.blank ∧
    (prints (observe w.trace)).map Report.blank =
      (prints (observe w'.trace)).map Report.blank := by
  obtain ⟨hi, ho⟩ := h
  refine ⟨?_, hi, ?_, ?_, ?_, ?_⟩
  · have := congrArg (fun o => (ins o).length) ho
    simpa [ins_map_blank] using this
  · have := congrArg outs ho
    simpa [outs_map_blank] using this
  · have := congrArg (fun o => (rects o).length) ho
    simpa [rects_map_blank] using this
  · have := congrArg rects ho
    simpa [rects_map_blank] using this
  · have := congrArg prints ho
    simpa [prints_map_blank] using this

/-! ## The host byte order does not show -/

theorem recv_all_length {len : Nat} {w w1 : World} {a : List Byte}
    (h : recv_all len w = .ok a w1) : a.length = len := by
  rcases recv_all_cases len w with ⟨cs, h1, _, heq⟩ | ⟨cs, k, r, _, _, _, _, _, heq⟩
  · rw [heq] at h
    injection h with ha _
    rw [← ha, List.length_take]
    exact Nat.min_eq_left h1
  · rw [heq] at h
    cases h

theorem bind_congr {α β : Type} {m : Proc α} {f g : α → Proc β} (w : World)
    (h : ∀ a w1, f a w1 = g a w1) : (m >>= f) w = (m >>= g) w := by
  show Proc.bind m f w = Proc.bind m g w
  unfold Proc.bind
  cases m w with
  | ok a w1 => exact h a w1
  | exit s w1 => rfl
  | fuel w1 => rfl

theorem bind_recv_congr {β : Type} {len : Nat} {f g : List Byte → Proc β} (w : World)
    (h : ∀ a, a.length = len → ∀ w1, f a w1 = g a w1) :
    (recv_all len >>= f) w = (recv_all len >>= g) w := by
  show Proc.bind (recv_all len) f w = Proc.bind (recv_all len) g w
  unfold Proc.bind
  cases hm : recv_all len w with
  | ok a w1 => exact h a (recv_all_length hm) w1
  | exit s w1 => rfl
  | fuel w1 => rfl

theorem load_length_one (hostLE : Bool) (a : List Byte) (h : a.length = 1) :
    load hostLE a = loadBE a := by
  match a, h with
  | [b], _ => rw [load_one]; simp [loadBE]

theorem store16_htons_any (hostLE : Bool) (v : Nat) :
    store16 hostLE (htons hostLE v) = [lowByte (v / 256), lowByte v] := by
  cases hostLE
  · simp only [store16, htons, lowByte, Bool.false_eq_true, if_false, List.cons.injEq,
      Fin.mk.injEq, and_true]
    constructor <;> omega
  · simp only [store16, htons, bswap16, if_true, lowByte, List.cons.injEq, Fin.mk.injEq,
      and_true]
    have hb : v / 256 % 256 < 256 := Nat.mod_lt _ (by decide)
    generalize v / 256 % 256 = q at hb
    have h1 : (v % 256 * 256 + q) % 256 = q := by omega
    have h0 : (v % 256 * 256 + q) / 256 = v % 256 := by omega
    rw [h0]
    exact ⟨h1, Nat.mod_mod _ _⟩

theorem fbuf_req_host (hostLE hostLE' : Bool) (width height : Nat) :
    fbuf_req hostLE width height = fbuf_req hostLE' width height := by
  simp only [fbuf_req, store16_htons_any]

theorem handshake_host (hostLE hostLE' : Bool) (w : World) :
    handshake hostLE w = handshake hostLE' w := by
  unfold handshake
  apply bind_recv_congr; intro version _ w
  apply bind_congr; intro _ w
  apply bind_congr; intro _ w
  apply bind_recv_congr; intro sec_type0 h w
  rw [ntohl_load hostLE _ h, ntohl_load hostLE' _ h]

theorem rejected_host (hostLE hostLE' : Bool) (w : World) :
    rejected hostLE w = rejected hostLE' w := by
  unfold rejected
  apply bind_recv_congr; intro reason_len0 h w
  rw [ntohl_load hostLE _ h, ntohl_load hostLE' _ h]

theorem init_host (hostLE hostLE' : Bool) (w : World) :
    init hostLE w = init hostLE' w := by
  unfold init
  apply bind_congr; intro _ w
  apply bind_recv_congr; intro width0 hw w
  apply bind_recv_congr; intro height0 hh w
  rw [ntohs_load hostLE _ hw, ntohs_load hostLE' _ hw, ntohs_load hostLE _ hh,
    ntohs_load hostLE' _ hh]
  apply bind_congr; intro _ w
  apply bind_recv_congr; intro _ _ w
  apply bind_recv_congr; intro name_len0 hn w
  rw [ntohl_load hostLE _ hn, ntohl_load hostLE' _ hn]

theorem rect_loop_host (hostLE hostLE' : Bool) : ∀ (todo i : Nat) (w : World),
    rect_loop hostLE todo i w = rect_loop hostLE' todo i w := by
  intro todo
  induction todo with
  | zero => intro i w; rfl
  | succ todo ih =>
    intro i w
    unfold rect_loop
    apply bind_recv_congr; intro rx0 hx w
    apply bind_recv_congr; intro ry0 hy w
    apply bind_recv_congr; intro rw0 hw w
    apply bind_recv_congr; intro rh0 hh w
    apply bind_recv_congr; intro encoding0 he w
    rw [ntohs_load hostLE _ hx, ntohs_load hostLE' _ hx, ntohs_load hostLE _ hy,
      ntohs_load hostLE' _ hy, ntohs_load hostLE _ hw, ntohs_load hostLE' _ hw,
      ntohs_load hostLE _ hh, ntohs_load hostLE' _ hh, ntohl_load hostLE _ he,
      ntohl_load hostLE' _ he]
    apply bind_congr; intro _ w
    apply bind_congr; intro _ w
    apply bind_congr; intro pixel_data w
    apply bind_congr; intro _ w
    apply bind_congr; intro _ w
    exact ih (i + 1) w

theorem read_update_host (hostLE hostLE' : Bool) (w : World) :
    read_update hostLE w = read_update hostLE' w := by
  unfold read_update
  apply bind_recv_congr; intro update_msg_type0 ht w
  rw [load_length_one hostLE _ ht, load_length_one hostLE' _ ht]
  split
  · rfl
  · apply bind_congr; intro _ w
    apply bind_recv_congr; intro num_rects0 hn w
    rw [ntohs_load hostLE _ hn, ntohs_load hostLE' _ hn]
    apply bind_congr; intro _ w
    rw [show rect_loop hostLE = rect_loop hostLE' from
      funext fun todo => funext fun i => funext fun w => rect_loop_host hostLE hostLE' todo i w]

/-- The session does the same on a little-endian and on a big-endian host. -/
theorem session_host (hostLE hostLE' : Bool) (w : World) :
    session hostLE w = session hostLE' w := by
  unfold session
  rw [show handshake hostLE = handshake hostLE' from funext (handshake_host hostLE hostLE')]
  apply bind_congr; intro sec_type w
  rw [show rejected hostLE = rejected hostLE' from funext (rejected_host hostLE hostLE'),
    show init hostLE = init hostLE' from funext (init_host hostLE hostLE'),
    show read_update hostLE = read_update hostLE' from
      funext (read_update_host hostLE hostLE')]
  simp only [fbuf_req_host hostLE hostLE']

theorem start_early (inbound : List Byte) (recvPlan sendPlan : List Int) :
    Sees Early (World.start inbound recvPlan sendPlan) :=
  ⟨rfl, rfl, rfl, by simp [World.start, observe]⟩

/-! ## The first pixel -/

theorem data_len_mod_four (rw rh : Nat) : data_len rw rh % 4 = 0 := by
  simp only [data_len]
  split <;> omega

theorem isSome_lookup (l : List Byte) (i : Nat) : l[i]?.isSome = true ↔ i < l.length := by
  by_cases h : i < l.length
  · simp [h]
  · simp [h]
    omega

/-! ## Two runs on transports that split the bytes differently -/

theorem Same.bind_same {α β : Type} {m : Proc α} {f : α → Proc β} (h1 : Same m)
    (h2 : ∀ a, Same (f a)) : Same (m >>= f) := by
  apply Triple2.bind_both h1
  rintro a a' w w' ⟨rfl, h⟩
  exact h2 a w w' h

theorem same_recv_all (len : Nat) : Same (recv_all len) := by
  rintro w w' ⟨hg, hg', hi, ho⟩
  rcases recv_all_good len w hg with ⟨h1, w1, e1, g1, i1, o1⟩ | ⟨h1, w1, e1, i1, o1⟩ <;>
    rcases recv_all_good len w' hg' with ⟨h1', w1', e1', g1', i1', o1'⟩ | ⟨h1', w1', e1', i1', o1'⟩
  · rw [e1, e1']
    exact ⟨by rw [hi], g1, g1', by rw [i1, i1', hi], by rw [o1, o1', ho, hi]⟩
  · rw [hi] at h1
    omega
  · rw [hi] at h1
    omega
  · rw [e1, e1']
    exact ⟨rfl, by rw [i1, i1'], by rw [o1, o1', ho, hi]⟩

theorem same_send_all (buf : List Byte) : Same (send_all buf) := by
  rintro w w' ⟨hg, hg', hi, ho⟩
  obtain ⟨w1, e1, g1, i1, o1⟩ := send_all_good buf w hg
  obtain ⟨w1', e1', g1', i1', o1'⟩ := send_all_good buf w' hg'
  rw [e1, e1']
  exact ⟨rfl, g1, g1', by rw [i1, i1', hi], by rw [o1, o1', ho]⟩

theorem same_log (e : Event) {m : Proc Unit} (hm : ∀ w, m w = .ok () (w.log e)) : Same m := by
  rintro w w' ⟨hg, hg', hi, ho⟩
  rw [hm, hm]
  exact ⟨rfl, hg.log e, hg'.log e, hi, by simp only [World.log, observe_append, ho]⟩

theorem same_printf (r : Report) : Same (printf r) := same_log (.print r) (fun _ => rfl)

theorem same_malloc (n : Nat) : Same (malloc n) := same_log (.malloc n) (fun _ => rfl)

theorem same_produced (r : Rect) : Same (produced r) := same_log (.rect r) (fun _ => rfl)

theorem same_close : Same close := same_log .close (fun _ => rfl)

theorem same_ret {α : Type} (s : Nat) : Same (ret s : Proc α) :=
  fun _ _ h => ⟨rfl, h.2.2⟩

theorem same_pure {α : Type} (a : α) : Same (Proc.pure a) :=
  fun _ _ h => ⟨rfl, h⟩

theorem same_ite {α : Type} {c : Prop} [Decidable c] {a b : Proc α} (ha : c → Same a)
    (hb : ¬ c → Same b) : Same (if c then a else b) := by
  by_cases h : c
  · simpa [h] using ha h
  · simpa [h] using hb h

theorem same_rect_loop (hostLE : Bool) : ∀ (todo i : Nat), Same (rect_loop hostLE todo i) := by
  intro todo
  induction todo with
  | zero => intro i; exact same_pure ()
  | succ todo ih =>
    intro i
    unfold rect_loop
    apply Same.bind_same (same_recv_all _); intro _
    apply Same.bind_same (same_recv_all _); intro _
    apply Same.bind_same (same_recv_all _); intro _
    apply Same.bind_same (same_recv_all _); intro _
    apply Same.bind_same (same_recv_all _); intro _
    apply Same.bind_same (same_printf _); intro _
    apply Same.bind_same (same_malloc _); intro _
    apply Same.bind_same (same_recv_all _); intro _
    apply Same.bind_same (same_printf _); intro _
    apply Same.bind_same (same_produced _); intro _
    exact ih _

theorem same_handshake (hostLE : Bool) : Same (handshake hostLE) := by
  unfold handshake
  apply Same.bind_same (same_recv_all _); intro _
  apply Same.bind_same (same_printf _); intro _
  apply Same.bind_same (same_send_all _); intro _
  apply Same.bind_same (same_recv_all _); intro _
  exact same_pure _

theorem same_rejected (hostLE : Bool) : Same (rejected hostLE) := by
  unfold rejected
  apply Same.bind_same (same_recv_all _); intro _
  apply Same.bind_same (same_malloc _); intro _
  apply Same.bind_same (same_recv_all _); intro _
  apply Same.bind_same (same_printf _); intro _
  apply Same.bind_same same_close; intro _
  exact same_ret _

theorem same_init (hostLE : Bool) : Same (init hostLE) := by
  unfold init
  apply Same.bind_same (same_send_all _); intro _
  apply Same.bind_same (same_recv_all _); intro _
  apply Same.bind_same (same_recv_all _); intro _
  apply Same.bind_same (same_printf _); intro _
  apply Same.bind_same (same_recv_all _); intro _
  apply Same.bind_same (same_recv_all _); intro _
  apply Same.bind_same (same_malloc _); intro _
  apply Same.bind_same (same_recv_all _); intro _
  apply Same.bind_same (same_printf _); intro _
  exact same_pure _

theorem same_read_update (hostLE : Bool) : Same (read_update hostLE) := by
  unfold read_update
  apply Same.bind_same (same_recv_all _); intro _
  apply same_ite <;> intro _
  · apply Same.bind_same (same_printf _); intro _
    apply Same.bind_same same_close; intro _
    exact same_ret _
  · apply Same.bind_same (same_recv_all _); intro _
    apply Same.bind_same (same_recv_all _); intro _
    apply Same.bind_same (same_printf _); intro _
    apply Same.bind_same (same_rect_loop _ _ _); intro _
    apply Same.bind_same same_close; intro _
    exact same_ret _

/-- The session does not see how the transport splits the bytes. -/
theorem same_session (hostLE : Bool) : Same (session hostLE) := by
  unfold session
  apply Same.bind_same (same_handshake _); intro _
  apply same_ite <;> intro _
  · exact same_rejected _
  · apply Same.bind_same (same_printf _); intro _
    apply Same.bind_same (same_init _); intro _
    apply Same.bind_same (same_send_all _); intro _
    exact same_read_update _

/-! ## A name length of `2^32 - 1` -/

/-- On a transport that never fails, `init` on a ServerInit whose name length
is `FF FF FF FF`: the size passed to `malloc` is 0, and the next thing the
program does is to store the first name byte `b` in that block. -/
theorem init_name_block_empty (hostLE : Bool) (wb hb pf : List Byte) (b : Byte)
    (tail : List Byte) (obs : List Obs) (hw : wb.length = 2) (hh : hb.length = 2)
    (hpf : pf.length = 16) :
    Triple (AtG (wb ++ (hb ++ (pf ++ ([255, 255, 255, 255] ++ (b :: tail))))) obs) (init hostLE)
      (fun _ w => Sees (Extends (fun _ => True)
        (obs ++ [.out 1] ++ wb.map .inp ++ hb.map .inp ++
          [.print (.framebuffer (loadBE wb) (loadBE hb))] ++ pf.map .inp ++
          ([255, 255, 255, 255] : List Byte).map .inp ++ [.malloc 0] ++ [.inp b])) w)
      (Stays (fun _ => True)
        (obs ++ [.out 1] ++ wb.map .inp ++ hb.map .inp ++
          [.print (.framebuffer (loadBE wb) (loadBE hb))] ++ pf.map .inp ++
          ([255, 255, 255, 255] : List Byte).map .inp ++ [.malloc 0] ++ [.inp b])) := by
  have e : text_size (loadBE [255, 255, 255, 255]) = 0 := by decide
  have eL : loadBE [255, 255, 255, 255] = 4294967294 + 1 := by decide
  unfold init
  apply atg_send_all
  apply atg_recv_exact hw
  apply atg_recv_exact hh
  simp only [ntohs_load hostLE wb hw, ntohs_load hostLE hb hh]
  apply atg_printf
  apply atg_recv_exact hpf
  apply atg_recv_exact (by rfl)
  simp only [ntohl_load hostLE [255, 255, 255, 255] rfl, e]
  apply atg_malloc
  rw [eL]
  apply atg_recv_all
  · intro _
    rw [List.take_succ_cons, List.map_cons]
    refine Triple.pre (P := Sees (Extends (fun _ => True)
      (obs ++ [.out 1] ++ wb.map .inp ++ hb.map .inp ++
        [.print (.framebuffer (loadBE wb) (loadBE hb))] ++ pf.map .inp ++
        ([255, 255, 255, 255] : List Byte).map .inp ++ [.malloc 0] ++ [.inp b]))) ?_
      (fun w hw => ⟨(tail.take 4294967294).map .inp, by simp [hw.2.2], trivial⟩)
    apply Triple.bind (ext_printf tail_any _ _); intro _
    exact Triple.pure (fun w h => h)
  · intro _ w hw
    exact ⟨tail.map .inp ++ [.fail, .perror .recv], by rw [hw.2]; simp, trivial⟩

/-- What holds however a piece ends holds of the world it ends in. -/
theorem Triple.ends {α : Type} {P : World → Prop} {m : Proc α} {Q : α → World → Prop}
    {X : Nat → World → Prop} {R : World → Prop} (h : Triple P m Q X) (w : World) (hw : P w)
    (hq : ∀ a w1, Q a w1 → R w1) (hx : ∀ s w1, X s w1 → R w1) : R (m w).world := by
  have := h w hw
  cases hm : m w with
  | ok a w1 => rw [hm] at this; exact hq a w1 this
  | exit s w1 => rw [hm] at this; exact hx s w1 this
  | fuel w1 => rw [hm] at this; exact this.elim

/-- The same on the start state, for an 800x600 ServerInit with a zero pixel
format, whatever the outcome of the block. -/
theorem init_name_block_empty_start (b : Byte) (tail : List Byte) :
    ∃ t, observe (init true (World.start
          ([3, 32] ++ ([2, 88] ++ (List.replicate 16 0 ++ ([255, 255, 255, 255] ++
            (b :: tail))))) [] [])).world.trace =
        [.out 1, .inp 3, .inp 32, .inp 2, .inp 88, .print (.framebuffer 800 600)] ++
          (List.replicate 16 (0 : Byte)).map .inp ++
          [.inp 255, .inp 255, .inp 255, .inp 255, .malloc 0, .inp b] ++ t := by
  have e800 : loadBE [3, 32] = 800 := by decide
  have e600 : loadBE [2, 88] = 600 := by decide
  have h := init_name_block_empty true [3, 32] [2, 88] (List.replicate 16 0) b tail []
    (by decide) (by decide) (by decide)
  have hw := start_atg ([3, 32] ++ ([2, 88] ++ (List.replicate 16 0 ++ ([255, 255, 255, 255] ++
    (b :: tail))))) [] [] (by decide) (by decide)
  have hend := Triple.ends (R := fun w1 => ∃ t, observe w1.trace =
      [.out 1, .inp 3, .inp 32, .inp 2, .inp 88, .print (.framebuffer 800 600)] ++
        (List.replicate 16 (0 : Byte)).map .inp ++
        [.inp 255, .inp 255, .inp 255, .inp 255, .malloc 0, .inp b] ++ t) h _ hw
  refine hend ?_ ?_
  · rintro _ w1 ⟨t, ht, _⟩
    exact ⟨t, by
      rw [ht, e800, e600]
      simp only [List.nil_append, List.append_assoc, List.map_cons, List.map_nil,
        List.cons_append, List.singleton_append]⟩
  · rintro _ w1 ⟨t, ht, _⟩
    exact ⟨t, by
      rw [ht, e800, e600]
      simp only [List.nil_append, List.append_assoc, List.map_cons, List.map_nil,
        List.cons_append, List.singleton_append]⟩

/-! ## One session in full -/

/-- The whole trace of the session on `onePixelStream`, with the first `recv`
delivering 5 bytes and the first `send` taking 3. -/
theorem session_on_onePixelStream :
    session true (World.start onePixelStream [5] [3]) =
      .exit 0 ⟨[], [], [],
        [.recv 12 5 [82, 70, 66, 32, 48],
          .recv 7 7 [48, 51, 46, 48, 48, 56, 10],
          .print (.serverVersion [82, 70, 66, 32, 48, 48, 51, 46, 48, 48, 56, 10]),
          .send 12 3 [82, 70, 66],
          .send 9 9 [32, 48, 48, 51, 46, 48, 48, 51, 10],
          .recv 4 4 [0, 0, 0, 1],
          .print (.securityType 1),
          .send 1 1 [1],
          .recv 2 2 [3, 32],
          .recv 2 2 [2, 88],
          .print (.framebuffer 800 600),
          .recv 16 16 [0, 0, 0, 0, 0, 0, 0, 0, 0, 0, 0, 0, 0, 0, 0, 0],
          .recv 4 4 [0, 0, 0, 0],
          .malloc 1,
          .print (.desktopName []),
          .send 10 10 [3, 0, 0, 0, 0, 0, 3, 32, 2, 88],
          .recv 1 1 [0],
          .recv 1 1 [0],
          .recv 2 2 [0, 1],
          .print (.numRects 1),
          .recv 2 2 [0, 0],
          .recv 2 2 [0, 0],
          .recv 2 2 [0, 1],
          .recv 2 2 [0, 1],
          .recv 4 4 [0, 0, 0, 0],
          .print (.rectangle 1 1 1 0 0 0),
          .malloc 4,
          .recv 4 4 [9, 8, 7, 6],
          .print (.firstPixel (some 9) (some 8) (some 7)),
          .rect ⟨0, 0, 1, 1, 0, [9, 8, 7, 6]⟩,
          .close]⟩ := by
  decide!

/-! ## C1: the rectangles of a FramebufferUpdate -/

/-- C1, the failing input.  After the 800x600 prelude the server sends a
FramebufferUpdate with one rectangle of 32768 x 32768 pixels and its
32768 * 32768 * 4 = 2^32 pixel bytes.  The session ends with status 0 having
read the 4-byte update header and the 12-byte rectangle header only: the
rectangle it produces has no pixel bytes and all 2^32 pixel bytes are left
unread on the stream. -/
theorem huge_rectangle_pixels_unread :
    hugeRect.rw * hugeRect.rh * 4 = 4294967296 ∧ data_len hugeRect.rw hugeRect.rh = 0 ∧
    ∃ w, session true (World.start
          (prelude800.wire ++ ([0] ++ ([0] ++ ([0, 1] ++
            (hugeRect.header ++ List.replicate 4294967296 0))))) [] [])
        = .exit 0 w ∧
      w.inbound = List.replicate 4294967296 0 ∧ rects (observe w.trace) = [hugeRect] ∧
      ins (observe w.trace) = prelude800.wire ++ ([0, 0, 0, 1] ++ hugeRect.header) :=
  ⟨by decide, by decide,
    session_huge true prelude800 (by decide) (List.replicate 4294967296 0) [] []
      (by decide) (by decide)⟩

/-! ## C2: security type 0, what the client writes -/

/-- C2.  For every server stream whose security type is 0 (a 12-byte version,
then four zero bytes, then anything: a complete reason, a truncated one or
nothing), the session ends with `EXIT_FAILURE`.  On every transport the client
writes at most a prefix of `"RFB 003.003\n"`, and exactly that string once the
16 bytes up to the security type have been read; on a transport that never
fails all it ever writes is exactly that string, whether the reason text is
read in full or its read fails. -/
theorem security_zero_only_version (hostLE : Bool) (ver tail : List Byte)
    (recvPlan sendPlan : List Int) (hver : ver.length = 12) :
    (∃ w, session hostLE (World.start (ver ++ ([0, 0, 0, 0] ++ tail)) recvPlan sendPlan)
        = .exit EXIT_FAILURE w ∧
      outs (observe w.trace) <+: client_version ∧
      (16 ≤ (ins (observe w.trace)).length → outs (observe w.trace) = client_version)) ∧
    (Positive recvPlan → Positive sendPlan →
      ∃ w, session hostLE (World.start (ver ++ ([0, 0, 0, 0] ++ tail)) recvPlan sendPlan)
          = .exit EXIT_FAILURE w ∧
        outs (observe w.trace) = client_version) := by
  constructor
  · obtain ⟨s, w, h1, rfl, h2, h3⟩ :=
      (session_zero hostLE ver tail hver).exits
        (World.start (ver ++ ([0, 0, 0, 0] ++ tail)) recvPlan sendPlan) ⟨rfl, rfl⟩
    exact ⟨w, h1, h2, h3⟩
  · intro hr hs
    obtain ⟨s, w, h1, rfl, h2⟩ :=
      (session_zero_good hostLE ver tail hver).exits _ (start_atg _ _ _ hr hs)
    exact ⟨w, h1, h2⟩

/-- C2, witness: security type 0 followed by a reason cut short after its
length prefix. -/
theorem security_zero_only_version_witness :
    prelude800.ver.length = 12 ∧ Positive [3, 1, 5] ∧ Positive [2] ∧
      ∃ w, session true (World.start (prelude800.ver ++ ([0, 0, 0, 0] ++ [0, 0, 0, 7, 100]))
          [3, 1, 5] [2]) = .exit EXIT_FAILURE w ∧
        outs (observe w.trace) = client_version :=
  ⟨by decide, by decide, by decide,
    (security_zero_only_version true prelude800.ver [0, 0, 0, 7, 100] [3, 1, 5] [2]
      (by decide)).2 (by decide) (by decide)⟩

/-! ## C3: security type 0, the reason -/

/-- C3, as amended.  On a transport that never fails, when the security type
is 0 and the server then sends a 4-byte big-endian length `L < 2^32 - 1` and
L bytes of reason, the client reads exactly those L bytes (12 + 4 + 4 + L
bytes in all, the rest of the stream is left), keeps them in a buffer of L + 1
bytes, which holds the text and its terminator, and reports the reason as
`printf("%s")` prints it: the bytes before the first zero byte, which is the
whole L-byte text exactly when the text has no zero byte.  It has written only
its version and closes once.  The length `L = 2^32 - 1`, for which the size
`L + 1` of the buffer wraps to 0, is left out. -/
theorem rejection_report (hostLE : Bool) (ver lenb reason rest : List Byte)
    (recvPlan sendPlan : List Int) (hver : ver.length = 12) (hl : lenb.length = 4)
    (hfit : loadBE lenb < 4294967295)
    (hreason : reason.length = loadBE lenb) (hr : Positive recvPlan)
    (hs : Positive sendPlan) :
    ∃ w, session hostLE
        (World.start (ver ++ ([0, 0, 0, 0] ++ (lenb ++ (reason ++ rest)))) recvPlan sendPlan)
        = .exit 1 w ∧
      w.inbound = rest ∧
      ins (observe w.trace) = ver ++ ([0, 0, 0, 0] ++ (lenb ++ reason)) ∧
      (ins (observe w.trace)).length = 12 + 4 + 4 + loadBE lenb ∧
      mallocs (observe w.trace) = [text_size (loadBE lenb)] ∧
      prints (observe w.trace) =
        [.serverVersion (cstr (ver ++ [0])),
          .connectionFailed (reason.takeWhile (fun b => decide (b ≠ 0)))] ∧
      ((∀ b ∈ reason, b ≠ 0) → reason.takeWhile (fun b => decide (b ≠ 0)) = reason) ∧
      ((∃ b ∈ reason, b = 0) →
        (reason.takeWhile (fun b => decide (b ≠ 0))).length < reason.length) ∧
      outs (observe w.trace) = client_version ∧ closes (observe w.trace) = 1 ∧
      text_size (loadBE lenb) = loadBE lenb + 1 ∧
      (reason ++ [0]).length = text_size (loadBE lenb) := by
  obtain ⟨s, w, h1, rfl, h2, h3⟩ :=
    (session_rejected hostLE ver lenb reason rest hver hl hreason).exits _
      (start_atg _ _ _ hr hs)
  have hi : ins (observe w.trace) = ver ++ ([0, 0, 0, 0] ++ (lenb ++ reason)) := by
    rw [h3]; simp
  have hsize : text_size (loadBE lenb) = loadBE lenb + 1 := Nat.mod_eq_of_lt (by omega)
  refine ⟨w, h1, h2, hi, ?_, ?_, ?_, ?_, ?_, ?_, ?_, hsize,
    by rw [hsize, List.length_append, hreason]; rfl⟩
  · rw [hi]
    simp only [List.length_append, hver, hl, hreason, List.length_cons, List.length_nil]
    omega
  · rw [h3]; simp
  · rw [h3, ← cstr_terminated]; simp
  · intro h
    rw [← cstr_terminated]
    exact cstr_of_no_zero reason h
  · rintro ⟨b, hb, rfl⟩
    by_contra hlt
    have hle := (List.takeWhile_sublist (l := reason) (fun b => decide (b ≠ 0))).length_le
    have heq : (reason.takeWhile (fun b => decide (b ≠ 0))).length = reason.length := by omega
    have hall := List.takeWhile_eq_self_iff.mp
      ((List.takeWhile_sublist _).eq_of_length heq)
    simpa using hall 0 hb
  · rw [h3]
    simp only [List.nil_append, List.append_nil, outs_nil, outs_append, outs_map_inp,
      outs_map_out, outs_cons_inp, outs_cons_out, outs_cons_fail, outs_cons_close,
      outs_cons_print, outs_cons_perror, outs_cons_malloc, outs_cons_rect]
  · rw [h3]; simp

/-- C3, witness: the 6-byte reason "denied" is reported in full. -/
theorem rejection_report_witness :
    prelude800.ver.length = 12 ∧ ([0, 0, 0, 6] : List Byte).length = 4 ∧
      loadBE [0, 0, 0, 6] < 4294967295 ∧
      ([100, 101, 110, 105, 101, 100] : List Byte).length = loadBE [0, 0, 0, 6] ∧
      Positive [3, 1, 5] ∧ Positive [2] ∧
      ∃ w, session true (World.start (prelude800.ver ++ ([0, 0, 0, 0] ++ ([0, 0, 0, 6] ++
            ([100, 101, 110, 105, 101, 100] ++ [])))) [3, 1, 5] [2]) = .exit 1 w ∧
        prints (observe w.trace) =
          [.serverVersion prelude800.ver, .connectionFailed [100, 101, 110, 105, 101, 100]] := by
  refine ⟨by decide, by decide, by decide, by decide, by decide, by decide, ?_⟩
  obtain ⟨w, h1, _, _, _, _, h2, _⟩ :=
    rejection_report true prelude800.ver [0, 0, 0, 6] [100, 101, 110, 105, 101, 100] []
      [3, 1, 5] [2] (by decide) (by decide) (by decide) (by decide) (by decide) (by decide)
  exact ⟨w, h1, h2⟩

/-- C3, counterexample.  Security type 0, reason length 7 and the 7 bytes
`"denied\0"`: the reason the client reports is the 6 bytes `"denied"`, not the
7-byte text. -/
theorem rejection_report_stops_at_zero :
    ∃ w, session true (World.start (prelude800.ver ++ ([0, 0, 0, 0] ++ ([0, 0, 0, 7] ++
          (denied0 ++ [])))) [] []) = .exit 1 w ∧
      prints (observe w.trace) =
        [.serverVersion prelude800.ver, .connectionFailed [100, 101, 110, 105, 101, 100]] ∧
      Report.connectionFailed denied0 ∉ prints (observe w.trace) := by
  obtain ⟨s, w, h1, rfl, _, h3⟩ :=
    (session_rejected true prelude800.ver [0, 0, 0, 7] denied0 [] (by decide) (by decide)
      (by decide)).exits _ (start_atg _ [] [] (by decide) (by decide))
  have hp : prints (observe w.trace) =
      [.serverVersion prelude800.ver, .connectionFailed [100, 101, 110, 105, 101, 100]] := by
    rw [h3]
    simp only [List.nil_append, List.append_nil, prints_nil, prints_append, prints_map_inp,
      prints_map_out, prints_cons_inp, prints_cons_out, prints_cons_fail, prints_cons_close,
      prints_cons_print, prints_cons_perror, prints_cons_malloc, prints_cons_rect]
    decide
  exact ⟨w, h1, hp, by rw [hp]; decide⟩

/-! ## C4: the message type after the update request -/

/-- C4.  On a transport that never fails, after a valid prelude and the update
request: a message-type byte `t ≠ 0` ends the session with `EXIT_FAILURE`
after the report of the unexpected type and one `close`, with nothing read or
attempted after the tag byte (the rest of the stream is left unread); a
message-type byte 0 is followed by the read of the padding byte and of the
rectangle count, which is then reported. -/
theorem unexpected_message_type (hostLE : Bool) (p : Prelude) (t pad : Byte)
    (nb rest : List Byte) (recvPlan sendPlan : List Int) (hp : p.Valid)
    (hr : Positive recvPlan) (hs : Positive sendPlan) :
    (t ≠ 0 →
      ∃ w, session hostLE (World.start (p.wire ++ ([t] ++ rest)) recvPlan sendPlan)
          = .exit EXIT_FAILURE w ∧
        w.inbound = rest ∧
        observe w.trace = p.seen ++ [.inp t, .print (.unexpectedType t.val), .close] ∧
        ins (observe w.trace) = p.wire ++ [t] ∧ fails (observe w.trace) = 0) ∧
    (nb.length = 2 →
      ∃ s w tl,
        session hostLE (World.start (p.wire ++ ([0] ++ ([pad] ++ (nb ++ rest)))) recvPlan
          sendPlan) = .exit s w ∧
        observe w.trace = p.seen ++ [.inp 0, .inp pad] ++ nb.map .inp ++
          [.print (.numRects (loadBE nb))] ++ tl) := by
  constructor
  · intro ht
    have h := session_after_prelude hostLE p hp ([t] ++ rest) _
      (read_update_unexpected hostLE t ht rest p.seen)
    obtain ⟨s, w, h1, rfl, h2, h3⟩ := h.exits _ (start_atg _ _ _ hr hs)
    have h4 : observe w.trace = p.seen ++ [.inp t, .print (.unexpectedType t.val), .close] := by
      rw [h3]
      simp only [List.append_assoc, List.cons_append, List.nil_append, List.singleton_append]
    refine ⟨w, h1, h2, h4, ?_, ?_⟩
    · rw [h4, ins_append, ins_prelude_seen]
      rfl
    · rw [h4, fails_append, fails_prelude_seen]
      rfl
  · intro hnb
    have h := session_after_prelude hostLE p hp ([0] ++ ([pad] ++ (nb ++ rest))) _
      (read_update_continues hostLE pad nb rest p.seen hnb)
    obtain ⟨s, w, h1, tl, h2, _⟩ := h.exits _ (start_atg _ _ _ hr hs)
    refine ⟨s, w, tl, h1, ?_⟩
    rw [h2]
    simp only [List.append_assoc, List.cons_append, List.nil_append, List.singleton_append]

/-- C4, witness: the tag byte 5 after the 800x600 prelude, and the tag byte 0
followed by a count of one rectangle. -/
theorem unexpected_message_type_witness :
    prelude800.Valid ∧ Positive [3, 1, 5] ∧ Positive [2] ∧ (5 : Byte) ≠ 0 ∧
      ([0, 1] : List Byte).length = 2 ∧
      (∃ w, session true (World.start (prelude800.wire ++ ([5] ++ [9, 9])) [3, 1, 5] [2])
          = .exit EXIT_FAILURE w ∧ w.inbound = [9, 9]) ∧
      (∃ s w tl,
        session true (World.start (prelude800.wire ++ ([0] ++ ([0] ++ ([0, 1] ++ [9, 9]))))
          [3, 1, 5] [2]) = .exit s w ∧
        observe w.trace = prelude800.seen ++ [.inp 0, .inp 0] ++ ([0, 1] : List Byte).map .inp ++
          [.print (.numRects (loadBE [0, 1]))] ++ tl) := by
  have h := unexpected_message_type true prelude800 5 0 [0, 1] [9, 9] [3, 1, 5] [2]
    (by decide) (by decide) (by decide)
  refine ⟨by decide, by decide, by decide, by decide, by decide, ?_, h.2 (by decide)⟩
  obtain ⟨w, h1, h2, _⟩ := h.1 (by decide)
  exact ⟨w, h1, h2⟩

/-! ## C5: the bytes written up to the update request -/

/-- C5.  On either host byte order, for every session that reaches the update
request (transport without failure, security type not 0, ServerInit read in
full with width `W` and height `H`), and whatever the server sends next, all
the client ever writes is 23 bytes: the 12-byte version, the ClientInit byte
1, then `3, 0, 0,0, 0,0, W div 256, W mod 256, H div 256, H mod 256`, whose last
four bytes are the first four bytes of ServerInit. -/
theorem update_request_bytes (hostLE : Bool) (p : Prelude) (tail : List Byte)
    (recvPlan sendPlan : List Int) (hp : p.Valid) (hr : Positive recvPlan)
    (hs : Positive sendPlan) :
    ∃ s w, session hostLE (World.start (p.wire ++ tail) recvPlan sendPlan) = .exit s w ∧
      outs (observe w.trace) = client_version ++ [1] ++
        [3, 0, 0, 0, 0, 0, lowByte (loadBE p.wb / 256), lowByte (loadBE p.wb),
          lowByte (loadBE p.hb / 256), lowByte (loadBE p.hb)] ∧
      (outs (observe w.trace)).length = 23 ∧
      [lowByte (loadBE p.wb / 256), lowByte (loadBE p.wb),
          lowByte (loadBE p.hb / 256), lowByte (loadBE p.hb)] = p.wb ++ p.hb := by
  obtain ⟨s, w, h1, h2⟩ := session_outs hostLE p tail recvPlan sendPlan hp hr hs
  have hw := be16_bytes p.wb hp.2.2.2.1
  have hh := be16_bytes p.hb hp.2.2.2.2.1
  have e : [lowByte (loadBE p.wb / 256), lowByte (loadBE p.wb),
      lowByte (loadBE p.hb / 256), lowByte (loadBE p.hb)] = p.wb ++ p.hb := by
    calc [lowByte (loadBE p.wb / 256), lowByte (loadBE p.wb),
          lowByte (loadBE p.hb / 256), lowByte (loadBE p.hb)]
        = [lowByte (loadBE p.wb / 256), lowByte (loadBE p.wb)] ++
          [lowByte (loadBE p.hb / 256), lowByte (loadBE p.hb)] := rfl
      _ = p.wb ++ p.hb := by rw [hw, hh]
  refine ⟨s, w, h1, ?_, ?_, e⟩
  · rw [h2, outs_prelude_seen]
    show _ = client_version ++ [1] ++ (([3, 0, 0, 0, 0, 0] : List Byte) ++
      [lowByte (loadBE p.wb / 256), lowByte (loadBE p.wb),
        lowByte (loadBE p.hb / 256), lowByte (loadBE p.hb)])
    rw [e]
    simp
  · rw [h2, outs_prelude_seen]
    simp [client_version, hp.2.2.2.1, hp.2.2.2.2.1]

/-- C5, witness: an 800x600 framebuffer gives the request bytes
`03 00 00 00 00 00 03 20 02 58`. -/
theorem update_request_bytes_800x600 :
    prelude800.Valid ∧ Positive [3, 1, 5] ∧ Positive [2] ∧
      ∃ s w, session true (World.start (prelude800.wire ++ [1]) [3, 1, 5] [2]) = .exit s w ∧
        outs (observe w.trace) = client_version ++ [1] ++ [3, 0, 0, 0, 0, 0, 3, 32, 2, 88] := by
  refine ⟨by decide, by decide, by decide, ?_⟩
  obtain ⟨s, w, h1, h2, _, _⟩ :=
    update_request_bytes true prelude800 [1] [3, 1, 5] [2] (by decide) (by decide) (by decide)
  exact ⟨s, w, h1, h2⟩

/-! ## C6: the version reply -/

/-- C6.  For every 12-byte server version and whatever follows it: on every
transport the client writes nothing before the 12 version bytes have been
read (either it never writes, or what an observer sees starts with the reads
of those 12 bytes); on a transport that never fails, what an observer sees
starts with the 12 bytes read, the report of the server version, and then the
12 bytes `"RFB 003.003\n"` written, whatever the server advertised. -/
theorem version_reply (hostLE : Bool) (ver tail : List Byte) (recvPlan sendPlan : List Int)
    (hver : ver.length = 12) :
    (∃ s w, session hostLE (World.start (ver ++ tail) recvPlan sendPlan) = .exit s w ∧
      (outs (observe w.trace) = [] ∨ ∃ tl, observe w.trace = ver.map .inp ++ tl)) ∧
    (Positive recvPlan → Positive sendPlan →
      ∃ s w tl, session hostLE (World.start (ver ++ tail) recvPlan sendPlan) = .exit s w ∧
        observe w.trace = ver.map .inp ++ [.print (.serverVersion (cstr (ver ++ [0])))] ++
          client_version.map .out ++ tl ∧
        (outs (observe w.trace)).take 12 = client_version) := by
  constructor
  · have h : Triple (At (ver ++ tail) []) (session hostLE) (fun _ _ => False)
        (fun _ w => outs (observe w.trace) = [] ∨
          Sees (Extends (fun _ => True) (ver.map .inp)) w) := by
      unfold session
      apply Triple.bind (handshake_reads_first hostLE ver tail hver)
      intro sec_type
      exact (ext_after_handshake tail_any tailSend_any _ hostLE sec_type).post
        (fun _ _ h => h) (fun _ _ h => Or.inr h)
    obtain ⟨s, w, h1, h2⟩ := h.exits (World.start (ver ++ tail) recvPlan sendPlan) ⟨rfl, rfl⟩
    refine ⟨s, w, h1, ?_⟩
    rcases h2 with h2 | ⟨tl, h2, _⟩
    · exact Or.inl h2
    · exact Or.inr ⟨tl, h2⟩
  · intro hr hs
    have h : Triple (AtG (ver ++ tail) []) (session hostLE) (fun _ _ => False)
        (Stays (fun _ => True)
          (ver.map .inp ++ [.print (.serverVersion (cstr (ver ++ [0])))] ++
            client_version.map .out)) := by
      unfold session
      apply Triple.bind (handshake_sends_version hostLE ver tail hver)
      intro sec_type
      exact ext_after_handshake tail_any tailSend_any _ hostLE sec_type
    obtain ⟨s, w, h1, tl, h2, _⟩ := h.exits _ (start_atg _ _ _ hr hs)
    refine ⟨s, w, tl, h1, h2, ?_⟩
    rw [h2]
    simp only [List.nil_append, List.append_nil, outs_nil, outs_append, outs_map_inp,
      outs_map_out, outs_cons_inp, outs_cons_out, outs_cons_fail, outs_cons_close,
      outs_cons_print, outs_cons_perror, outs_cons_malloc, outs_cons_rect]
    exact List.take_left' rfl

/-- C6, witness: the server advertises `"RFB 003.008\n"` and then closes; the
client has written `"RFB 003.003\n"`. -/
theorem version_reply_witness :
    prelude800.ver.length = 12 ∧ Positive [3, 1, 5] ∧ Positive [2] ∧
      ∃ s w tl, session true (World.start (prelude800.ver ++ []) [3, 1, 5] [2]) = .exit s w ∧
        observe w.trace = prelude800.ver.map .inp ++
          [.print (.serverVersion (cstr (prelude800.ver ++ [0])))] ++
          client_version.map .out ++ tl ∧
        (outs (observe w.trace)).take 12 = client_version :=
  ⟨by decide, by decide, by decide,
    (version_reply true prelude800.ver [] [3, 1, 5] [2] (by decide)).2 (by decide) (by decide)⟩

/-! ## C7: decoding ServerInit -/

/-- ServerInit decoding for a name length below `2^32 - 1`.  On a transport
that never fails, for every ServerInit payload (2 bytes of width, 2 of height,
16 of pixel format, 4 of name length `L < 2^32 - 1`, then L name bytes) the
block of `main` that reads it returns the big-endian values of bytes 0-1 and
2-3 as width and height, reads exactly the 24 + L bytes of the payload and
leaves the rest of the stream, keeps the name in a buffer of L + 1 bytes, which
holds the name and its terminator, reports the framebuffer size and the name
without using the pixel format, and the big-endian encoding of the decoded
length L is the length prefix received. -/
theorem server_init_decoding (hostLE : Bool) (wb hb pf nl name rest : List Byte)
    (recvPlan sendPlan : List Int) (trace : List Event)
    (hw : wb.length = 2) (hh : hb.length = 2) (hpf : pf.length = 16) (hnl : nl.length = 4)
    (hfit : loadBE nl < 4294967295)
    (hname : name.length = loadBE nl) (hr : Positive recvPlan) (hs : Positive sendPlan) :
    ∃ w, init hostLE ⟨wb ++ (hb ++ (pf ++ (nl ++ (name ++ rest)))), recvPlan, sendPlan, trace⟩
        = .ok (loadBE wb, loadBE hb) w ∧
      w.inbound = rest ∧
      ins (observe w.trace) = ins (observe trace) ++ (wb ++ (hb ++ (pf ++ (nl ++ name)))) ∧
      (wb ++ (hb ++ (pf ++ (nl ++ name)))).length = 24 + loadBE nl ∧
      prints (observe w.trace) = prints (observe trace) ++
        [.framebuffer (loadBE wb) (loadBE hb), .desktopName (cstr (name ++ [0]))] ∧
      outs (observe w.trace) = outs (observe trace) ++ [1] ∧
      encodeBE32 (loadBE nl) = nl ∧
      mallocs (observe w.trace) = mallocs (observe trace) ++ [loadBE nl + 1] ∧
      (name ++ [0]).length = loadBE nl + 1 := by
  obtain ⟨a, w, h1, rfl, _, h2, h3⟩ :=
    (init_exact hostLE wb hb pf nl name rest (observe trace) hw hh hpf hnl hname).returns
      ⟨wb ++ (hb ++ (pf ++ (nl ++ (name ++ rest)))), recvPlan, sendPlan, trace⟩
      ⟨⟨hr, hs⟩, rfl, rfl⟩
  have hsize : text_size (loadBE nl) = loadBE nl + 1 := Nat.mod_eq_of_lt (by omega)
  refine ⟨w, h1, h2, ?_, ?_, ?_, ?_, encodeBE32_loadBE nl hnl, ?_,
    by rw [List.length_append, hname]; rfl⟩
  · rw [h3]; simp
  · simp only [List.length_append, hw, hh, hpf, hnl, hname]; omega
  · rw [h3]; simp
  · rw [h3]; simp
  · rw [h3, ← hsize]; simp

/-- C7, the failing input.  A ServerInit of 800x600 with a zero pixel format
whose name length is `FF FF FF FF`, followed by the `2^32 - 1` name bytes it
declares.  The decoded length is `2^32 - 1`, the size `name_len + 1` passed to
`malloc` wraps to 0, and the next thing the program does is to store the first
name byte in that block of 0 bytes: the name bytes and the terminator are
written past the end of the buffer. -/
theorem name_buffer_overflow :
    loadBE [255, 255, 255, 255] = 4294967295 ∧ text_size 4294967295 = 0 ∧
    (List.replicate 4294967295 (0 : Byte)).length = loadBE [255, 255, 255, 255] ∧
    ∃ t, observe (init true (World.start
          ([3, 32] ++ ([2, 88] ++ (List.replicate 16 0 ++ ([255, 255, 255, 255] ++
            List.replicate 4294967295 0)))) [] [])).world.trace =
        [.out 1, .inp 3, .inp 32, .inp 2, .inp 88, .print (.framebuffer 800 600)] ++
          (List.replicate 16 (0 : Byte)).map .inp ++
          [.inp 255, .inp 255, .inp 255, .inp 255, .malloc 0, .inp 0] ++ t := by
  refine ⟨by decide, by decide, by rw [List.length_replicate]; decide, ?_⟩
  rw [List.replicate_succ 0 4294967294]
  exact init_name_block_empty_start 0 (List.replicate 4294967294 0)

/-! ## C8: the exit status -/

/-- The exit status on every transport.  The session ends the process with a
status that is 0 or `EXIT_FAILURE`; it is 0 exactly when the rectangle count
was declared and the loop completed that many iterations, and then `data_len`
bytes were read for every rectangle produced (the declared payload
`rw * rh * 4` only where `data_len` is that product); it is `EXIT_FAILURE`
whenever a `send` or `recv` returned zero or less, whenever `die` ran, whenever
a security rejection was reported and whenever an unexpected message type was
reported. -/
theorem exit_status_cases (hostLE : Bool) (inbound : List Byte)
    (recvPlan sendPlan : List Int) :
    ∃ s w, session hostLE (World.start inbound recvPlan sendPlan) = .exit s w ∧
      (s = 0 ∨ s = EXIT_FAILURE) ∧
      (s = 0 ↔ ∃ n, Report.numRects n ∈ prints (observe w.trace) ∧
        (rects (observe w.trace)).length = n) ∧
      (0 < fails (observe w.trace) → s = EXIT_FAILURE) ∧
      (dies (observe w.trace) ≠ [] → s = EXIT_FAILURE) ∧
      ((∃ t, Report.connectionFailed t ∈ prints (observe w.trace)) → s = EXIT_FAILURE) ∧
      ((∃ t, Report.unexpectedType t ∈ prints (observe w.trace)) → s = EXIT_FAILURE) ∧
      (s = 0 → ∀ r ∈ rects (observe w.trace), r.pixel_data.length = data_len r.rw r.rh) :=
  Triple.exits (exit_session hostLE) (World.start inbound recvPlan sendPlan)
    ⟨rfl, rfl, rfl, by simp [World.start, observe]⟩

/-- C8, the failing input (the input of C1: the defect is the same, the 32-bit
product `rw * rh * 4`).  After the 800x600 prelude the server sends a
FramebufferUpdate that declares one rectangle of 32768 x 32768 pixels, and
its 32768 * 32768 * 4 = 2^32 pixel bytes.  The session ends with status 0, and
the declared rectangle was not decoded in full: the one rectangle produced has
no pixel bytes, and the 2^32 bytes of its payload are still on the stream. -/
theorem exit_zero_payload_unread :
    ∃ w, session true (World.start
          (prelude800.wire ++ ([0] ++ ([0] ++ ([0, 1] ++
            (hugeRect.header ++ List.replicate 4294967296 0))))) [] [])
        = .exit 0 w ∧
      Report.numRects 1 ∈ prints (observe w.trace) ∧
      (rects (observe w.trace)).length = 1 ∧
      (∀ r ∈ rects (observe w.trace),
        r.rw * r.rh * 4 = 4294967296 ∧ r.pixel_data.length = 0) ∧
      w.inbound = List.replicate 4294967296 0 := by
  obtain ⟨w, h1, h2, h3, _⟩ := session_huge true prelude800 (by decide)
    (List.replicate 4294967296 0) [] [] (by decide) (by decide)
  obtain ⟨s, w', e1, _, hz, _⟩ := Triple.exits (exit_session true)
    (World.start (prelude800.wire ++ ([0] ++ ([0] ++ ([0, 1] ++
      (hugeRect.header ++ List.replicate 4294967296 0))))) [] [])
    ⟨rfl, rfl, rfl, by simp [World.start, observe]⟩
  rw [h1] at e1
  injection e1 with es ew
  subst es
  subst ew
  obtain ⟨n, hn, hlen⟩ := hz.mp rfl
  rw [h3] at hlen
  refine ⟨w, h1, ?_, by rw [h3]; rfl, ?_, h2⟩
  · rw [show (1 : Nat) = n from hlen]
    exact hn
  · intro r hr
    rw [h3, List.mem_singleton] at hr
    subst hr
    exact ⟨by decide, rfl⟩

/-! ## C9: closing the connection -/

/-- C9, as amended.  On every exit path of a session on a connected socket the
program calls `close(sock)` at most once: exactly once when it ends by a
`return` of `main` (success, security rejection, unexpected message type; no
`die`), and not at all when `send_all` or `recv_all` ends the process through
`die`, whose exit status is `EXIT_FAILURE`. -/
theorem close_once_unless_died (hostLE : Bool) (inbound : List Byte)
    (recvPlan sendPlan : List Int) :
    ∃ s w, session hostLE (World.start inbound recvPlan sendPlan) = .exit s w ∧
      ((perrors w.trace = [] ∧ closeCount w.trace = 1) ∨
        (perrors w.trace ≠ [] ∧ closeCount w.trace = 0 ∧ s = EXIT_FAILURE)) :=
  Triple.exits (session_closes hostLE) (World.start inbound recvPlan sendPlan) ⟨rfl, rfl⟩

/-- C9, counterexample.  The server closes its end at once: the first `recv`
returns 0, `recv_all` dies, and the process ends with status 1 without any
`close(sock)`. -/
theorem io_failure_without_close :
    session true (World.start [] [] []) =
        .exit 1 ⟨[], [], [], [.recv 12 0 [], .perror .recv]⟩ ∧
      closeCount (session true (World.start [] [] [])).world.trace ≠ 1 := by
  decide

/-- C9, witness: the session on `onePixelStream` ends with status 0 and has
closed the socket exactly once. -/
theorem close_once_unless_died_witness :
    ∃ w, session true (World.start onePixelStream [] []) = .exit 0 w ∧
      perrors w.trace = [] ∧ closeCount w.trace = 1 := by
  obtain ⟨s, w, h1, h2⟩ := close_once_unless_died true onePixelStream [] []
  obtain ⟨w0, h0⟩ := onePixel_session
  rw [h0] at h1
  injection h1 with hs hw
  subst hs
  subst hw
  rcases h2 with h2 | ⟨_, _, h3⟩
  · exact ⟨w0, h0, h2⟩
  · exact absurd h3 (by decide)

/-! ## C10: the transport adapter -/

/-- C10.  On every transport and for every length: `recv_all` returns only
with exactly the next `len` bytes of the stream in its buffer, stored by calls
that each returned a positive count, and `send_all` returns only when calls
with positive results have taken all of the buffer, in order; otherwise a call
returned zero or less while bytes were outstanding, it is the last call made,
and the process ends through `die` with `EXIT_FAILURE`.  At most `len` calls
are made, none for length 0, and the iteration bound is never reached. -/
theorem transport_adapter (len : Nat) (buf : List Byte) (w : World) :
    ((∃ cs, len ≤ w.inbound.length ∧ (w.inbound.take len).length = len ∧
          Chunks cs (w.inbound.take len) ∧ cs.length ≤ len ∧
          recv_all len w = .ok (w.inbound.take len) (w.recvd len cs)) ∨
      (∃ cs k r, k < len ∧ Chunks cs (w.inbound.take k) ∧ r ≤ 0 ∧ cs.length + 1 ≤ len ∧
          recv_all len w = .exit EXIT_FAILURE (w.recvDied k cs (len - k) r))) ∧
    ((∃ cs, Chunks cs buf ∧ cs.length ≤ buf.length ∧ send_all buf w = .ok () (w.sent cs)) ∨
      (∃ cs k r, k < buf.length ∧ Chunks cs (buf.take k) ∧ r ≤ 0 ∧
          cs.length + 1 ≤ buf.length ∧
          send_all buf w = .exit EXIT_FAILURE (w.sendDied cs (buf.length - k) r))) ∧
    recv_all 0 w = .ok [] w ∧ send_all [] w = .ok () w := by
  refine ⟨?_, ?_, ?_, ?_⟩
  · rcases recv_all_cases len w with ⟨cs, h1, h2, heq⟩ | ⟨cs, k, r, h1, h2, h3, h4, _, heq⟩
    · have hl : (w.inbound.take len).length = len := by
        rw [List.length_take]; exact Nat.min_eq_left h1
      exact Or.inl ⟨cs, h1, hl, h2, by have := h2.length_le; omega, heq⟩
    · have hl : (w.inbound.take k).length = k := by
        rw [List.length_take]; exact Nat.min_eq_left h2
      exact Or.inr ⟨cs, k, r, h1, h3, h4, by have := h3.length_le; omega, heq⟩
  · rcases send_all_cases buf w with ⟨cs, h2, heq⟩ | ⟨cs, k, r, h1, h3, h4, _, heq⟩
    · exact Or.inl ⟨cs, h2, h2.length_le, heq⟩
    · have hl : (buf.take k).length = k := by
        rw [List.length_take]; exact Nat.min_eq_left (by omega)
      exact Or.inr ⟨cs, k, r, h1, h3, h4, by have := h3.length_le; omega, heq⟩
  · simp [recv_all, recv_all_loop]
  · simp [send_all, send_all_loop]

/-! ## C11: every security type other than 0 is accepted -/

/-- C11.  On a transport that never fails, for every 12-byte version and every
4-byte security type whose big-endian value is not 0, whatever follows on the
stream: after the security type the client reads and writes nothing that
belongs to a security scheme.  What an observer sees is the version exchange,
the read of the security type, its report, then the single ClientInit byte 1
written, and next the read of the first two bytes of what follows (the width
of ServerInit), or the failure of that read when the stream ends there.  When
a whole ServerInit follows, the bytes right after the security type are
decoded as ServerInit and all the client ever writes is its version, the byte
1 and the update request for that width and height. -/
theorem nonzero_security_type_accepted (hostLE : Bool) (ver sec tail : List Byte)
    (recvPlan sendPlan : List Int) (hver : ver.length = 12) (hsec : sec.length = 4)
    (hnz : loadBE sec ≠ 0) (hr : Positive recvPlan) (hs : Positive sendPlan) :
    (∃ s w t, session hostLE (World.start (ver ++ (sec ++ tail)) recvPlan sendPlan)
        = .exit s w ∧
      observe w.trace =
        ver.map .inp ++ [.print (.serverVersion (cstr (ver ++ [0])))] ++
          client_version.map .out ++ sec.map .inp ++ [.print (.securityType (loadBE sec))] ++
          [.out 1] ++ t ∧
      (2 ≤ tail.length → ∃ t2, t = (tail.take 2).map .inp ++ t2) ∧
      (tail.length < 2 → t = tail.map .inp ++ [.fail, .perror .recv])) ∧
    (∀ (wb hb pf nl name rest : List Byte), tail = wb ++ (hb ++ (pf ++ (nl ++ (name ++ rest)))) →
      wb.length = 2 → hb.length = 2 → pf.length = 16 → nl.length = 4 →
      name.length = loadBE nl →
      ∃ s w t, session hostLE (World.start (ver ++ (sec ++ tail)) recvPlan sendPlan)
          = .exit s w ∧
        observe w.trace = Prelude.seen ⟨ver, sec, wb, hb, pf, nl, name⟩ ++ t ∧
        Report.framebuffer (loadBE wb) (loadBE hb) ∈ prints (observe w.trace) ∧
        outs (observe w.trace) =
          client_version ++ [1] ++ (([3, 0, 0, 0, 0, 0] : List Byte) ++ wb ++ hb)) := by
  constructor
  · obtain ⟨s, w, h1, t, h2, h3, h4⟩ :=
      (session_accepts hostLE ver sec tail hver hsec hnz).exits _ (start_atg _ _ _ hr hs)
    exact ⟨s, w, t, h1, h2, h3, h4⟩
  · intro wb hb pf nl name rest htail hwb hhb hpf hnl hname
    subst htail
    have hp : Prelude.Valid ⟨ver, sec, wb, hb, pf, nl, name⟩ :=
      ⟨hver, hsec, hnz, hwb, hhb, hpf, hnl, hname⟩
    have h := session_after_prelude hostLE ⟨ver, sec, wb, hb, pf, nl, name⟩ hp rest
      (Stays (fun t => outs t = []) (Prelude.seen ⟨ver, sec, wb, hb, pf, nl, name⟩))
      ((ext_read_update tail_noOut _ hostLE).pre (fun w hw => ⟨[], by simp [hw.2.2], rfl⟩))
    have e : ver ++ (sec ++ (wb ++ (hb ++ (pf ++ (nl ++ (name ++ rest)))))) =
        Prelude.wire ⟨ver, sec, wb, hb, pf, nl, name⟩ ++ rest := by
      simp [Prelude.wire]
    rw [e]
    obtain ⟨s, w, h1, t, h2, h3⟩ := h.exits _ (start_atg _ _ _ hr hs)
    refine ⟨s, w, t, h1, h2, ?_, ?_⟩
    · rw [h2]
      simp only [Prelude.seen, prints_append, prints_cons_print, prints_nil, prints_map_inp,
        prints_map_out, prints_cons_out, List.mem_append, List.mem_cons, List.append_assoc]
      simp
    · rw [h2, outs_append, h3, outs_prelude_seen]
      simp

/-- C11, witness: security type 2 (VNC authentication on a real server) is
accepted like type 1; with nothing after it, the client writes the ClientInit
byte and its next read finds the end of the stream. -/
theorem nonzero_security_type_accepted_witness :
    prelude800.ver.length = 12 ∧ ([0, 0, 0, 2] : List Byte).length = 4 ∧
      loadBE [0, 0, 0, 2] ≠ 0 ∧ Positive [3, 1, 5] ∧ Positive [2] ∧
      ∃ s w, session true (World.start (prelude800.ver ++ ([0, 0, 0, 2] ++ [])) [3, 1, 5] [2])
          = .exit s w ∧
        observe w.trace =
          prelude800.ver.map .inp ++ [.print (.serverVersion (cstr (prelude800.ver ++ [0])))] ++
            client_version.map .out ++ ([0, 0, 0, 2] : List Byte).map .inp ++
            [.print (.securityType (loadBE [0, 0, 0, 2]))] ++ [.out 1] ++
            [.fail, .perror .recv] := by
  refine ⟨by decide, by decide, by decide, by decide, by decide, ?_⟩
  obtain ⟨s, w, t, h1, h2, _, h4⟩ :=
    (nonzero_security_type_accepted true prelude800.ver [0, 0, 0, 2] [] [3, 1, 5] [2]
      (by decide) (by decide) (by decide) (by decide) (by decide)).1
  refine ⟨s, w, h1, ?_⟩
  rw [h2, h4 (by decide)]
  rfl

/-! ## C12: the encoding code and the payload length -/

/-- C12, as amended.  The decoder has no unsupported-encoding condition: it
reads the encoding code, reports it and never tests it.  On a transport that
never fails, a FramebufferUpdate whose rectangles carry any encoding codes
(each with `width * height * 4 < 2^31` payload bytes) is decoded to the end:
the session produces exactly those rectangles, encoding codes included,
without a failed call or a `die`, closes once and ends with status 0.  And on
every transport and every stream, each rectangle the session produces, raw or
not, with `width * height * 4 < 2^31` has a payload of exactly
`width * height * 4` bytes. -/
theorem any_encoding_decoded_as_raw (hostLE : Bool) (p : Prelude) (pad : Byte)
    (nb : List Byte) (rs : List Rect) (rest inbound : List Byte)
    (recvPlan sendPlan anyRecvPlan anySendPlan : List Int) (hp : p.Valid)
    (hnb : nb.length = 2) (hn : loadBE nb = rs.length)
    (hrs : ∀ r ∈ rs, r.Framed ∧ r.rw * r.rh * 4 < 2147483648)
    (hr : Positive recvPlan) (hs : Positive sendPlan) :
    (∃ w, session hostLE (World.start
          (p.wire ++ ([0] ++ ([pad] ++ (nb ++ (wireRects rs ++ rest))))) recvPlan sendPlan)
        = .exit 0 w ∧
      w.inbound = rest ∧ rects (observe w.trace) = rs ∧ fails (observe w.trace) = 0 ∧
      dies (observe w.trace) = [] ∧ closes (observe w.trace) = 1) ∧
    (∃ s w, session hostLE (World.start inbound anyRecvPlan anySendPlan) = .exit s w ∧
      ∀ r ∈ rects (observe w.trace), r.rw * r.rh * 4 < 2147483648 →
        r.pixel_data.length = r.rw * r.rh * 4) := by
  constructor
  · exact session_decodes_all hostLE p hp pad nb rs rest recvPlan sendPlan hnb hn
      (fun r h => (hrs r h).1.coded (hrs r h).2) hr hs
  · obtain ⟨s, w, h1, h2⟩ := (session_measured hostLE).exits
      (World.start inbound anyRecvPlan anySendPlan) (start_measured _ _ _)
    refine ⟨s, w, h1, ?_⟩
    intro r hr hlt
    rw [(h2 r hr).1, data_len_exact _ _ hlt]

/-- C12, counterexample.  After the 800x600 prelude the server sends one
rectangle of one pixel with the encoding code 5.  The session reads its four
payload bytes as raw pixels, reports the rectangle with its code, closes and
ends with status 0: no unsupported-encoding condition arises. -/
theorem nonraw_rectangle_is_decoded :
    hextilePixel.encoding ≠ 0 ∧
    session true (World.start
        (prelude800.wire ++ ([0] ++ ([0] ++ ([0, 1] ++ (wireRects [hextilePixel] ++ []))))) [] [])
      = .exit 0 ⟨[], [], [],
        [.recv 12 12 [82, 70, 66, 32, 48, 48, 51, 46, 48, 48, 56, 10],
          .print (.serverVersion [82, 70, 66, 32, 48, 48, 51, 46, 48, 48, 56, 10]),
          .send 12 12 [82, 70, 66, 32, 48, 48, 51, 46, 48, 48, 51, 10],
          .recv 4 4 [0, 0, 0, 1],
          .print (.securityType 1),
          .send 1 1 [1],
          .recv 2 2 [3, 32],
          .recv 2 2 [2, 88],
          .print (.framebuffer 800 600),
          .recv 16 16 [0, 0, 0, 0, 0, 0, 0, 0, 0, 0, 0, 0, 0, 0, 0, 0],
          .recv 4 4 [0, 0, 0, 0],
          .malloc 1,
          .print (.desktopName []),
          .send 10 10 [3, 0, 0, 0, 0, 0, 3, 32, 2, 88],
          .recv 1 1 [0],
          .recv 1 1 [0],
          .recv 2 2 [0, 1],
          .print (.numRects 1),
          .recv 2 2 [0, 0],
          .recv 2 2 [0, 0],
          .recv 2 2 [0, 1],
          .recv 2 2 [0, 1],
          .recv 4 4 [0, 0, 0, 5],
          .print (.rectangle 1 1 1 0 0 5),
          .malloc 4,
          .recv 4 4 [9, 8, 7, 6],
          .print (.firstPixel (some 9) (some 8) (some 7)),
          .rect ⟨0, 0, 1, 1, 5, [9, 8, 7, 6]⟩,
          .close]⟩ := by
  constructor
  · decide
  · decide!

/-- C12, witness: the stream of the counterexample, on a transport that splits
the reads and the writes; the rectangle with the encoding code 5 is produced
and the session ends with status 0. -/
theorem any_encoding_decoded_as_raw_witness :
    prelude800.Valid ∧ ([0, 1] : List Byte).length = 2 ∧
      loadBE [0, 1] = [hextilePixel].length ∧
      hextilePixel.Framed ∧ hextilePixel.rw * hextilePixel.rh * 4 < 2147483648 ∧
      Positive [3, 1, 5] ∧ Positive [2] ∧
      ∃ w, session true (World.start
            (prelude800.wire ++ ([0] ++ ([0] ++ ([0, 1] ++ (wireRects [hextilePixel] ++ [])))))
            [3, 1, 5] [2]) = .exit 0 w ∧
        rects (observe w.trace) = [hextilePixel] := by
  have hrs : ∀ r ∈ [hextilePixel], r.Framed ∧ r.rw * r.rh * 4 < 2147483648 := by
    intro r hr
    rw [List.mem_singleton] at hr
    subst hr
    decide
  refine ⟨by decide, by decide, by decide, by decide, by decide, by decide, by decide, ?_⟩
  obtain ⟨w, h1, _, h3, _⟩ :=
    (any_encoding_decoded_as_raw true prelude800 0 [0, 1] [hextilePixel] [] [] [3, 1, 5] [2]
      [] [] (by decide) (by decide) (by decide) hrs (by decide) (by decide)).1
  exact ⟨w, h1, h3⟩

/-! ## C13: the encoding code does not steer the decoder -/

/-- C13.  Take two server streams with the same valid prelude and the same
FramebufferUpdate header, whose rectangle parts `body` and `body'` are
identical except for the 4-byte encoding fields of the rectangles (whole or
cut short).  On transports that never fail, which may split the bytes
differently, and also on one and the same transport behaviour of any kind,
failing calls included, the two sessions end with the same exit status, have
consumed the same number of bytes and leave as much of the stream unread, have
written the same bytes, and have produced the same number of rectangles with
the same x, y, width, height and pixel payloads; the reports agree but for the
encoding code.  On the same transport behaviour the two sessions moreover make
the same calls with the same results. -/
theorem encoding_does_not_steer (hostLE : Bool) (p : Prelude) (pad : Byte)
    (nb body body' : List Byte)
    (recvPlan sendPlan recvPlan' sendPlan' anyRecvPlan anySendPlan : List Int)
    (hp : p.Valid) (hnb : nb.length = 2) (hsame : SameButEncoding (loadBE nb) body body')
    (hr : Positive recvPlan) (hs : Positive sendPlan) (hr' : Positive recvPlan')
    (hs' : Positive sendPlan') :
    (∃ s w w',
      session hostLE (World.start (p.wire ++ ([0] ++ ([pad] ++ (nb ++ body)))) recvPlan sendPlan)
        = .exit s w ∧
      session hostLE (World.start (p.wire ++ ([0] ++ ([pad] ++ (nb ++ body')))) recvPlan'
        sendPlan') = .exit s w' ∧
      (ins (observe w.trace)).length = (ins (observe w'.trace)).length ∧
      w.inbound.length = w'.inbound.length ∧
      outs (observe w.trace) = outs (observe w'.trace) ∧
      (rects (observe w.trace)).length = (rects (observe w'.trace)).length ∧
      (rects (observe w.trace)).map Rect.blank = (rects (observe w'.trace)).map Rect.blank ∧
      (prints (observe w.trace)).map Report.blank =
        (prints (observe w'.trace)).map Report.blank ∧
      (observe w.trace).map Obs.blank = (observe w'.trace).map Obs.blank) ∧
    (∃ s w w',
      session hostLE (World.start (p.wire ++ ([0] ++ ([pad] ++ (nb ++ body)))) anyRecvPlan
        anySendPlan) = .exit s w ∧
      session hostLE (World.start (p.wire ++ ([0] ++ ([pad] ++ (nb ++ body')))) anyRecvPlan
        anySendPlan) = .exit s w' ∧
      (ins (observe w.trace)).length = (ins (observe w'.trace)).length ∧
      w.inbound.length = w'.inbound.length ∧
      outs (observe w.trace) = outs (observe w'.trace) ∧
      (rects (observe w.trace)).length = (rects (observe w'.trace)).length ∧
      (rects (observe w.trace)).map Rect.blank = (rects (observe w'.trace)).map Rect.blank ∧
      (prints (observe w.trace)).map Report.blank =
        (prints (observe w'.trace)).map Report.blank ∧
      w.trace.map Event.blank = w'.trace.map Event.blank) := by
  have hlen : (p.wire ++ ([0] ++ ([pad] ++ (nb ++ body)))).length =
      (p.wire ++ ([0] ++ ([pad] ++ (nb ++ body')))).length := by
    simp only [List.length_append, hsame.length_eq]
  constructor
  · have h0 : Tracked GoodPair (p.wire ++ ([0] ++ ([pad] ++ (nb ++ body))))
        (p.wire ++ ([0] ++ ([pad] ++ (nb ++ body'))))
        (World.start (p.wire ++ ([0] ++ ([pad] ++ (nb ++ body)))) recvPlan sendPlan)
        (World.start (p.wire ++ ([0] ++ ([pad] ++ (nb ++ body')))) recvPlan' sendPlan') :=
      ⟨rfl, rfl, ⟨hr, hs⟩, ⟨hr', hs'⟩, hlen, rfl⟩
    obtain ⟨s, w, w', h1, h2, he⟩ :=
      (coupled_session coupled_good hostLE p hp pad nb body body' hnb hsame).exits_both _ _ h0
    obtain ⟨f1, f2, f3, f4, f5, f6⟩ := he.facts
    exact ⟨s, w, w', h1, h2, f1, f2, f3, f4, f5, f6, he.2⟩
  · have h0 : Tracked Twin (p.wire ++ ([0] ++ ([pad] ++ (nb ++ body))))
        (p.wire ++ ([0] ++ ([pad] ++ (nb ++ body'))))
        (World.start (p.wire ++ ([0] ++ ([pad] ++ (nb ++ body)))) anyRecvPlan anySendPlan)
        (World.start (p.wire ++ ([0] ++ ([pad] ++ (nb ++ body')))) anyRecvPlan anySendPlan) := by
      refine ⟨rfl, rfl, ?_⟩
      show World.blank _ = World.blank _
      simp only [World.blank, World.start, map_zero_eq hlen]
    obtain ⟨s, w, w', h1, h2, he⟩ :=
      (coupled_session coupled_twin hostLE p hp pad nb body body' hnb hsame).exits_both _ _ h0
    obtain ⟨f1, f2, f3, f4, f5, f6⟩ := he.alikeEnd.facts
    exact ⟨s, w, w', h1, h2, f1, f2, f3, f4, f5, f6, congrArg World.trace he⟩

/-- C13, witness: after the 800x600 prelude, one rectangle of one pixel sent
with the encoding code 0 and with the encoding code 5, on transports that split
the bytes differently; both sessions end with the same status and produce
rectangles that differ in the encoding code only. -/
theorem encoding_does_not_steer_witness :
    prelude800.Valid ∧ ([0, 1] : List Byte).length = 2 ∧
      SameButEncoding (loadBE [0, 1]) (wireRects [onePixel]) (wireRects [hextilePixel]) ∧
      wireRects [onePixel] ≠ wireRects [hextilePixel] ∧
      Positive [3, 1, 5] ∧ Positive [2] ∧ Positive [] ∧ Positive [7, 7] ∧
      ∃ s w w',
        session true (World.start
          (prelude800.wire ++ ([0] ++ ([0] ++ ([0, 1] ++ wireRects [onePixel])))) [3, 1, 5] [2])
          = .exit s w ∧
        session true (World.start
          (prelude800.wire ++ ([0] ++ ([0] ++ ([0, 1] ++ wireRects [hextilePixel])))) []
          [7, 7]) = .exit s w' ∧
        (rects (observe w.trace)).map Rect.blank = (rects (observe w'.trace)).map Rect.blank := by
  refine ⟨by decide, by decide, by decide, by decide, by decide, by decide, by decide,
    by decide, ?_⟩
  obtain ⟨s, w, w', h1, h2, _, _, _, _, h3, _⟩ :=
    (encoding_does_not_steer true prelude800 0 [0, 1] (wireRects [onePixel])
      (wireRects [hextilePixel]) [3, 1, 5] [2] [] [7, 7] [4, 0] [] (by decide) (by decide)
      (by decide) (by decide) (by decide) (by decide) (by decide)).1
  exact ⟨s, w, w', h1, h2, h3⟩

/-! ## C14: determinism of the session -/

/-- C14.  Two runs of the session on the same server byte stream, over two
connections that never fail and that may split the stream over the `recv`
calls and the client's bytes over the `send` calls differently, on hosts of
either byte order: both end the process, with the same exit status, and agree
on the bytes written by the client, on the decoded ServerInit fields, on the
sequence of rectangles (fields and pixel bytes), on every report whose values
are decoded from bytes received, on the bytes read and on the part of the
stream left unread.  The first-pixel values read outside a rectangle's payload
are not compared.  On a connection that may fail, two runs in which every
`recv` and `send` call returns the same, on hosts of either byte order, end
with the same status after the same steps. -/
theorem session_deterministic (hostLE hostLE' : Bool) (inbound : List Byte)
    (recvPlan sendPlan recvPlan' sendPlan' : List Int)
    (hr : Positive recvPlan) (hs : Positive sendPlan)
    (hr' : Positive recvPlan') (hs' : Positive sendPlan') :
    ∃ s w w', session hostLE (World.start inbound recvPlan sendPlan) = .exit s w ∧
      session hostLE' (World.start inbound recvPlan' sendPlan') = .exit s w' ∧
      outs (observe w.trace) = outs (observe w'.trace) ∧
      serverInitFields (prints (observe w.trace)) =
        serverInitFields (prints (observe w'.trace)) ∧
      rects (observe w.trace) = rects (observe w'.trace) ∧
      (prints (observe w.trace)).filter Report.determined =
        (prints (observe w'.trace)).filter Report.determined ∧
      ins (observe w.trace) = ins (observe w'.trace) ∧
      w.inbound = w'.inbound ∧
      ∀ recvPlan0 sendPlan0 : List Int,
        ∃ s0 w0, session hostLE (World.start inbound recvPlan0 sendPlan0) = .exit s0 w0 ∧
          session hostLE' (World.start inbound recvPlan0 sendPlan0) = .exit s0 w0 := by
  have hany : ∀ recvPlan0 sendPlan0 : List Int,
      ∃ s0 w0, session hostLE (World.start inbound recvPlan0 sendPlan0) = .exit s0 w0 ∧
        session hostLE' (World.start inbound recvPlan0 sendPlan0) = .exit s0 w0 := by
    intro recvPlan0 sendPlan0
    obtain ⟨s0, w0, h0, _⟩ := (exit_session hostLE).exits
      (World.start inbound recvPlan0 sendPlan0) (start_early inbound recvPlan0 sendPlan0)
    exact ⟨s0, w0, h0, session_host hostLE hostLE' _ ▸ h0⟩
  have hsim : Sim (World.start inbound recvPlan sendPlan)
      (World.start inbound recvPlan' sendPlan') := ⟨⟨hr, hs⟩, ⟨hr', hs'⟩, rfl, rfl⟩
  have h := same_session hostLE _ _ hsim
  rw [session_host hostLE' hostLE (World.start inbound recvPlan' sendPlan')]
  obtain ⟨s, w, e1, _⟩ := (exit_session hostLE).exits (World.start inbound recvPlan sendPlan)
    (start_early inbound recvPlan sendPlan)
  rw [e1] at h
  cases e2 : session hostLE (World.start inbound recvPlan' sendPlan') with
  | ok a w0 => rw [e2] at h; exact h.elim
  | fuel w0 => rw [e2] at h; exact h.elim
  | exit s' w0 =>
    rw [e2] at h
    obtain ⟨hs', hi, ho⟩ := h
    subst hs'
    exact ⟨s, w, w0, e1, rfl, by rw [ho], by rw [ho], by rw [ho], by rw [ho], by rw [ho], hi,
      hany⟩

/-- C14, witness: the session on `onePixelStream`, once on a little-endian
host over a connection whose first `recv` calls deliver 5, 1 and 2 bytes and
whose first `send` takes 3 bytes, once on a big-endian host over a connection
whose first `recv` calls deliver 2 and 2 bytes and whose first `send` takes 7
bytes: both runs end with status 0 and produce the same rectangle. -/
theorem session_deterministic_witness :
    Positive [5, 1, 2] ∧ Positive [3] ∧ Positive [2, 2] ∧ Positive [7] ∧
      ∃ w w', session true (World.start onePixelStream [5, 1, 2] [3]) = .exit 0 w ∧
        session false (World.start onePixelStream [2, 2] [7]) = .exit 0 w' ∧
        outs (observe w.trace) = outs (observe w'.trace) ∧
        rects (observe w.trace) = rects (observe w'.trace) := by
  refine ⟨by decide, by decide, by decide, by decide, ?_⟩
  obtain ⟨s, w, w', h1, h2, h3, _, h4, _⟩ :=
    session_deterministic true false onePixelStream [5, 1, 2] [3] [2, 2] [7]
      (by decide) (by decide) (by decide) (by decide)
  have hc : ∀ r ∈ [onePixel], r.Coded := by
    intro r hr
    rw [List.mem_singleton] at hr
    subst hr
    decide
  obtain ⟨s0, w1, h0, hs0, _⟩ :=
    (session_decodes true prelude800 (by decide) 0 [0, 1] [onePixel] [] rfl rfl hc).exits _
      (start_atg _ [5, 1, 2] [3] (by decide) (by decide))
  have e : (Res.exit s w : Res Unit) = Res.exit s0 w1 := h1.symm.trans h0
  injection e with es ew
  subst hs0
  subst es
  exact ⟨w, w', h1, h2, h3, h4⟩

/-! ## C15: the payload length `rw * rh * 4` -/

/-- C15.  For the two 16-bit fields `rw` and `rh`, the payload length
`data_len rw rh` that line 154 computes (the product in 32-bit `int`
arithmetic, wrapping modulo 2^32, then sign-extended to the 64-bit `size_t`)
is the exact product `rw * rh * 4` if and only if `rw * rh * 4 < 2^31`.  It
is exact for every rectangle up to 23170 x 23170; past the bound the value is
either smaller than the product (a wrapped non-negative `int`) or at least
`2^64 - 2^31` (a negative `int`); it is always a multiple of 4; for
`rw = rh = 32768` the product is `2^32` and `data_len` is 0. -/
theorem data_len_exact_iff (rw rh : Nat) (hw : rw < 65536) (hh : rh < 65536) :
    (data_len rw rh = rw * rh * 4 ↔ rw * rh * 4 < 2147483648) ∧
    (rw ≤ 23170 → rh ≤ 23170 → data_len rw rh = rw * rh * 4) ∧
    (2147483648 ≤ rw * rh * 4 →
      data_len rw rh < rw * rh * 4 ∨ 18446744071562067968 ≤ data_len rw rh) ∧
    data_len rw rh % 4 = 0 ∧
    data_len 32768 32768 = 0 ∧ 32768 * 32768 * 4 = 4294967296 := by
  have hm : rw * rh ≤ 65535 * 65535 := Nat.mul_le_mul (by omega) (by omega)
  have hsmall : rw ≤ 23170 → rh ≤ 23170 → rw * rh ≤ 23170 * 23170 :=
    fun h1 h2 => Nat.mul_le_mul h1 h2
  simp only [data_len]
  generalize rw * rh = m at hm hsmall
  refine ⟨?_, ?_, ?_, ?_, by decide, by decide⟩
  · constructor
    · intro h
      split at h <;> omega
    · intro h
      have h1 : m * 4 % 4294967296 = m * 4 := Nat.mod_eq_of_lt (by omega)
      simp only [h1, h, if_true]
  · intro h1 h2
    have := hsmall h1 h2
    have h3 : m * 4 % 4294967296 = m * 4 := Nat.mod_eq_of_lt (by omega)
    have h4 : m * 4 < 2147483648 := by omega
    simp only [h3, h4, if_true]
  · intro h
    split <;> omega
  · split <;> omega

/-- C15, witness: a rectangle of 800 x 600 has `800 * 600 * 4 = 1920000`
payload bytes; for 65535 x 65535 the product 17179344900 is past the bound and
`data_len` is not the product. -/
theorem data_len_exact_iff_witness :
    800 < 65536 ∧ 600 < 65536 ∧ 65535 < 65536 ∧ data_len 800 600 = 1920000 ∧
      data_len 65535 65535 ≠ 65535 * 65535 * 4 ∧
      data_len 65535 65535 = 18446744073709027332 :=
  ⟨by decide, by decide, by decide,
    ((data_len_exact_iff 800 600 (by decide) (by decide)).1.mpr (by decide)).trans (by decide),
    fun h => absurd ((data_len_exact_iff 65535 65535 (by decide) (by decide)).1.mp h)
      (by decide),
    by decide⟩

/-! ## C16: the read of the first pixel -/

/-- C16.  On every transport and every stream the session ends, and for every
rectangle it produced: the payload buffer has `data_len rw rh` bytes, the
reads of the payload indices 0, 1 and 2 were made and reported, and they are
within the payload if and only if `data_len rw rh` is not 0.  So they are in
bounds whenever width and height are at least 1 and `rw * rh * 4 < 2^31`, and
out of bounds (the payload is empty) for every rectangle of width 0 or
height 0. -/
theorem first_pixel_in_bounds_iff (hostLE : Bool) (inbound : List Byte)
    (recvPlan sendPlan : List Int) :
    ∃ s w, session hostLE (World.start inbound recvPlan sendPlan) = .exit s w ∧
      ∀ r ∈ rects (observe w.trace),
        r.pixel_data.length = data_len r.rw r.rh ∧
        Report.firstPixel r.pixel_data[0]? r.pixel_data[1]? r.pixel_data[2]? ∈
          prints (observe w.trace) ∧
        ((0 < r.pixel_data.length ∧ 1 < r.pixel_data.length ∧ 2 < r.pixel_data.length) ↔
          data_len r.rw r.rh ≠ 0) ∧
        ((r.pixel_data[0]?.isSome = true ∧ r.pixel_data[1]?.isSome = true ∧
            r.pixel_data[2]?.isSome = true) ↔ data_len r.rw r.rh ≠ 0) ∧
        (1 ≤ r.rw → 1 ≤ r.rh → r.rw * r.rh * 4 < 2147483648 → 2 < r.pixel_data.length) ∧
        (r.rw = 0 ∨ r.rh = 0 →
          r.pixel_data = [] ∧ r.pixel_data[0]? = none ∧ r.pixel_data[1]? = none ∧
            r.pixel_data[2]? = none) := by
  obtain ⟨s, w, h1, h2⟩ := (session_measured hostLE).exits
    (World.start inbound recvPlan sendPlan) (start_measured _ _ _)
  refine ⟨s, w, h1, ?_⟩
  intro r hr
  obtain ⟨hlen, hprint⟩ := h2 r hr
  have h4 := data_len_mod_four r.rw r.rh
  refine ⟨hlen, hprint, ?_, ?_, ?_, ?_⟩
  · rw [hlen]
    constructor
    · intro h
      omega
    · intro h
      omega
  · rw [isSome_lookup, isSome_lookup, isSome_lookup, hlen]
    constructor
    · intro h
      omega
    · intro h
      omega
  · intro hw hh hlt
    rw [hlen, data_len_exact _ _ hlt]
    have : 1 * 1 ≤ r.rw * r.rh := Nat.mul_le_mul hw hh
    omega
  · intro h0
    have hz : r.rw * r.rh * 4 = 0 := by
      rcases h0 with h | h <;> simp [h]
    have hd : data_len r.rw r.rh = 0 := by
      rw [data_len_exact _ _ (by omega), hz]
    have he : r.pixel_data = [] := List.eq_nil_of_length_eq_zero (hlen.trans hd)
    rw [he]
    exact ⟨rfl, rfl, rfl, rfl⟩

/-- C16, witness.  After the 800x600 prelude the server sends one rectangle
of width 0 and height 5: the payload has no byte, the session still reads the
indices 0, 1 and 2, finds nothing there, and reports that. -/
theorem first_pixel_in_bounds_iff_witness :
    ∃ w, session true (World.start
          (prelude800.wire ++ ([0] ++ ([0] ++ ([0, 1] ++ (wireRects [emptyRect] ++ []))))) [] [])
        = .exit 0 w ∧
      rects (observe w.trace) = [emptyRect] ∧ data_len emptyRect.rw emptyRect.rh = 0 ∧
      Report.firstPixel none none none ∈ prints (observe w.trace) := by
  have hc : ∀ r ∈ [emptyRect], r.Coded := by
    intro r hr
    rw [List.mem_singleton] at hr
    subst hr
    decide
  obtain ⟨w0, h0, _, hrects, _⟩ := session_decodes_all true prelude800 (by decide) 0 [0, 1]
    [emptyRect] [] [] [] rfl rfl hc (by decide) (by decide)
  obtain ⟨s, w, h1, h2⟩ := first_pixel_in_bounds_iff true
    (prelude800.wire ++ ([0] ++ ([0] ++ ([0, 1] ++ (wireRects [emptyRect] ++ []))))) [] []
  rw [h0] at h1
  injection h1 with hs hw
  subst hw
  have hmem : emptyRect ∈ rects (observe w0.trace) := by
    rw [hrects]
    exact List.mem_singleton_self _
  exact ⟨w0, h0, hrects, by decide, (h2 emptyRect hmem).2.1⟩

/-! ## C17: the size of a text buffer -/

/-- C17.  The size passed to `malloc` for a length-prefixed text, the security
failure reason in `rejected` and the desktop name in `init`, is
`text_size len`, that is `len + 1` in 32-bit unsigned arithmetic, where `len`
is the big-endian value of the four bytes of the prefix.  For every
`len < 2^32`: when `len < 2^32 - 1` the size is `len + 1`, strictly greater
than `len`, so the `len` bytes received and the terminator written at index
`len` fit; and the size is 0 exactly when `len = 2^32 - 1`. -/
theorem text_size_fits (hostLE : Bool) (len : Nat) (lenb text rest wb hb pf : List Byte)
    (recvPlan sendPlan : List Int) (hlen : len < 4294967296) (hl : lenb.length = 4)
    (ht : text.length = loadBE lenb) (hw : wb.length = 2) (hh : hb.length = 2)
    (hpf : pf.length = 16) (hr : Positive recvPlan) (hs : Positive sendPlan) :
    text_size len = (len + 1) % 4294967296 ∧
    (len < 4294967295 → text_size len = len + 1 ∧ len < text_size len) ∧
    (text_size len = 0 ↔ len = 4294967295) ∧
    loadBE lenb < 4294967296 ∧
    (loadBE lenb < 4294967295 → (text ++ [0]).length ≤ text_size (loadBE lenb)) ∧
    (∃ w, rejected hostLE (World.start (lenb ++ (text ++ rest)) recvPlan sendPlan) = .exit 1 w ∧
      mallocs (observe w.trace) = [text_size (loadBE lenb)] ∧
      ins (observe w.trace) = lenb ++ text ∧
      prints (observe w.trace) = [.connectionFailed (cstr (text ++ [0]))]) ∧
    (∃ size w, init hostLE
        (World.start (wb ++ (hb ++ (pf ++ (lenb ++ (text ++ rest))))) recvPlan sendPlan)
        = .ok size w ∧
      mallocs (observe w.trace) = [text_size (loadBE lenb)] ∧
      ins (observe w.trace) = wb ++ (hb ++ (pf ++ (lenb ++ text))) ∧
      prints (observe w.trace) =
        [.framebuffer (loadBE wb) (loadBE hb), .desktopName (cstr (text ++ [0]))]) := by
  have hb4 := loadBE_lt_four lenb hl
  refine ⟨rfl, ?_, ?_, hb4, ?_, ?_, ?_⟩
  · intro h
    have e : text_size len = len + 1 := Nat.mod_eq_of_lt (by omega)
    exact ⟨e, by omega⟩
  · unfold text_size
    omega
  · intro h
    have e : text_size (loadBE lenb) = loadBE lenb + 1 := Nat.mod_eq_of_lt (by omega)
    rw [e, List.length_append, ht]
    exact Nat.le_refl _
  · obtain ⟨s, w, h1, rfl, _, h3⟩ :=
      (rejected_exact hostLE lenb text rest [] hl ht).exits _ (start_atg _ _ _ hr hs)
    refine ⟨w, h1, ?_, ?_, ?_⟩
    · rw [h3]
      simp only [List.nil_append, List.append_nil, mallocs_nil, mallocs_append, mallocs_map_inp,
        mallocs_map_out, mallocs_cons_inp, mallocs_cons_out, mallocs_cons_fail,
        mallocs_cons_close, mallocs_cons_print, mallocs_cons_perror, mallocs_cons_malloc,
        mallocs_cons_rect]
    · rw [h3]
      simp only [List.nil_append, List.append_nil, ins_nil, ins_append, ins_map_inp,
        ins_map_out, ins_cons_inp, ins_cons_out, ins_cons_fail, ins_cons_close,
        ins_cons_print, ins_cons_perror, ins_cons_malloc, ins_cons_rect]
    · rw [h3]
      simp only [List.nil_append, List.append_nil, prints_nil, prints_append, prints_map_inp,
        prints_map_out, prints_cons_inp, prints_cons_out, prints_cons_fail, prints_cons_close,
        prints_cons_print, prints_cons_perror, prints_cons_malloc, prints_cons_rect]
  · obtain ⟨size, w, h1, _, _, _, h3⟩ :=
      (init_exact hostLE wb hb pf lenb text rest [] hw hh hpf hl ht).returns _
        (start_atg _ _ _ hr hs)
    refine ⟨size, w, h1, ?_, ?_, ?_⟩
    · rw [h3]
      simp only [List.nil_append, List.append_nil, mallocs_nil, mallocs_append, mallocs_map_inp,
        mallocs_map_out, mallocs_cons_inp, mallocs_cons_out, mallocs_cons_fail,
        mallocs_cons_close, mallocs_cons_print, mallocs_cons_perror, mallocs_cons_malloc,
        mallocs_cons_rect]
    · rw [h3]
      simp only [List.nil_append, List.append_nil, ins_nil, ins_append, ins_map_inp,
        ins_map_out, ins_cons_inp, ins_cons_out, ins_cons_fail, ins_cons_close,
        ins_cons_print, ins_cons_perror, ins_cons_malloc, ins_cons_rect, List.append_assoc]
    · rw [h3]
      simp only [List.nil_append, List.append_nil, prints_nil, prints_append, prints_map_inp,
        prints_map_out, prints_cons_inp, prints_cons_out, prints_cons_fail, prints_cons_close,
        prints_cons_print, prints_cons_perror, prints_cons_malloc, prints_cons_rect,
        List.cons_append]

/-- C17, witness: for the 6-byte text `"denied"` the buffer has 7 bytes, and
for a declared length of `2^32 - 1` the computed size is 0. -/
theorem text_size_fits_witness :
    4294967295 < 4294967296 ∧ ([0, 0, 0, 6] : List Byte).length = 4 ∧
      ([100, 101, 110, 105, 101, 100] : List Byte).length = loadBE [0, 0, 0, 6] ∧
      ([3, 32] : List Byte).length = 2 ∧ ([2, 88] : List Byte).length = 2 ∧
      (List.replicate 16 (0 : Byte)).length = 16 ∧ Positive [3, 1, 5] ∧ Positive [2] ∧
      text_size 4294967295 = 0 ∧ text_size (loadBE [0, 0, 0, 6]) = 7 ∧
      ∃ w, rejected true (World.start ([0, 0, 0, 6] ++ ([100, 101, 110, 105, 101, 100] ++ []))
          [3, 1, 5] [2]) = .exit 1 w ∧
        mallocs (observe w.trace) = [7] := by
  have h := text_size_fits true 4294967295 [0, 0, 0, 6] [100, 101, 110, 105, 101, 100] []
    [3, 32] [2, 88] (List.replicate 16 0) [3, 1, 5] [2] (by decide) (by decide) (by decide)
    (by decide) (by decide) (by decide) (by decide) (by decide)
  refine ⟨by decide, by decide, by decide, by decide, by decide, by decide, by decide,
    by decide, h.2.2.1.mpr rfl, by decide, ?_⟩
  obtain ⟨w, h1, h2, _⟩ := h.2.2.2.2.2.1
  exact ⟨w, h1, h2⟩

/-! ## C18: the session does not see the chunking -/

/-- C18.  For every server byte stream and every transport that never fails,
however it splits the stream over the `recv` calls and the client's bytes over
the `send` calls (every planned count positive; a call transfers no more than
it asks for): the session ends with the same exit status as on the transport
whose every call transfers all that is asked for, leaves the same part of the
stream unread, and an observer who does not see the call boundaries sees the
same: the same bytes written, the same bytes read, the same reports of the
decoded fields, the same buffer sizes, the same rectangles, the same `close`. -/
theorem chunking_independence (hostLE : Bool) (inbound : List Byte)
    (recvPlan sendPlan : List Int) (hr : Positive recvPlan) (hs : Positive sendPlan) :
    ∃ s w w0, session hostLE (World.start inbound recvPlan sendPlan) = .exit s w ∧
      session hostLE (World.start inbound [] []) = .exit s w0 ∧
      w.inbound = w0.inbound ∧
      outs (observe w.trace) = outs (observe w0.trace) ∧
      ins (observe w.trace) = ins (observe w0.trace) ∧
      prints (observe w.trace) = prints (observe w0.trace) ∧
      rects (observe w.trace) = rects (observe w0.trace) ∧
      mallocs (observe w.trace) = mallocs (observe w0.trace) ∧
      closes (observe w.trace) = closes (observe w0.trace) ∧
      observe w.trace = observe w0.trace := by
  have hsim : Sim (World.start inbound recvPlan sendPlan) (World.start inbound [] []) :=
    ⟨⟨hr, hs⟩, (start_atg inbound [] [] (by decide) (by decide)).1, rfl, rfl⟩
  have h := same_session hostLE _ _ hsim
  obtain ⟨s, w, e1, _⟩ := (exit_session hostLE).exits (World.start inbound recvPlan sendPlan)
    (start_early inbound recvPlan sendPlan)
  rw [e1] at h
  cases e2 : session hostLE (World.start inbound [] []) with
  | ok a w0 => rw [e2] at h; exact h.elim
  | fuel w0 => rw [e2] at h; exact h.elim
  | exit s' w0 =>
    rw [e2] at h
    obtain ⟨hs', hi, ho⟩ := h
    subst hs'
    exact ⟨s, w, w0, e1, rfl, hi, by rw [ho], by rw [ho], by rw [ho], by rw [ho], by rw [ho],
      by rw [ho], ho⟩

/-- C18, witness: the session on `onePixelStream` with the first `recv`
delivering 5 bytes, the second 1 byte, and the first `send` taking 3 bytes
ends with status 0 like the session whose calls transfer everything at once,
and produces the same rectangle. -/
theorem chunking_independence_witness :
    Positive [5, 1, 2] ∧ Positive [3] ∧
      ∃ w w0, session true (World.start onePixelStream [5, 1, 2] [3]) = .exit 0 w ∧
        session true (World.start onePixelStream [] []) = .exit 0 w0 ∧
        rects (observe w.trace) = rects (observe w0.trace) ∧
        observe w.trace = observe w0.trace := by
  refine ⟨by decide, by decide, ?_⟩
  obtain ⟨s, w, w0, h1, h2, _, _, _, _, h3, _, _, h4⟩ :=
    chunking_independence true onePixelStream [5, 1, 2] [3] (by decide) (by decide)
  obtain ⟨w1, h0⟩ := onePixel_session
  rw [h0] at h2
  injection h2 with hs hw
  subst hs
  exact ⟨w, w0, h1, h0.trans (by rw [hw]), h3, h4⟩

end Rfb
